import Mathlib

/-!
Verification of the core compiler front-end of this repository: the template
scope binder (`packages/compiler/src/render3/view/t2_binder.ts`) and the
expression parser (`expression_parser/parser.ts`).

The embedding models JavaScript `Map` objects as association lists with
JavaScript `Map.set` semantics (overwrite in place, insert at the end), and
models object identity (templates, variables, references are keyed by object
identity in the source) by an explicit numeric identity field `nid` on each
node, as an arena-index handle.
-/

namespace Ng

/-- Association list lookup: first entry with the given key, like `Map.get`. -/
def aget {K V : Type} [DecidableEq K] : List (K × V) → K → Option V
  | [], _ => none
  | (k', v) :: rest, k => if k' = k then some v else aget rest k

/-- Association list update with JavaScript `Map.set` semantics: overwrite the
existing entry in place, otherwise append a new entry at the end. -/
def aset {K V : Type} [DecidableEq K] : List (K × V) → K → V → List (K × V)
  | [], k, v => [(k, v)]
  | (k', v') :: rest, k, v =>
      if k' = k then (k', v) :: rest else (k', v') :: aset rest k v

/-- Membership test, like JavaScript `Map.has`. -/
def ahas {K V : Type} [DecidableEq K] (m : List (K × V)) (k : K) : Bool :=
  (aget m k).isSome

theorem aget_aset_self {K V : Type} [DecidableEq K] (m : List (K × V)) (k : K) (v : V) :
    aget (aset m k v) k = some v := by
  induction m with
  | nil => simp [aget, aset]
  | cons hd tl ih =>
      obtain ⟨k', v'⟩ := hd
      by_cases h : k' = k <;> simp [aget, aset, h, ih]

theorem aget_aset_ne {K V : Type} [DecidableEq K] (m : List (K × V)) (k k' : K) (v : V)
    (h : k ≠ k') : aget (aset m k v) k' = aget m k' := by
  induction m with
  | nil => simp [aget, aset, h]
  | cons hd tl ih =>
      obtain ⟨k0, v0⟩ := hd
      by_cases h0 : k0 = k
      · subst h0
        simp [aget, aset, h]
      · simp [aget, aset, h0]
        by_cases h1 : k0 = k' <;> simp [h1, ih]

/-! ### Source spans (modelled from the spec, §3 and the glossary)

Modelled from the spec: `ParseSpan` (a relative span) and `AbsoluteSourceSpan`
(an absolute span) are defined in `expression_parser/ast.ts`, which is not
among the provided sources.  A relative span holds offsets into the substring
handed to the sub-parser; `toAbsolute` shifts it by the absolute offset of
that substring within the host document. -/

structure ParseSpan where
  start : Int
  endI : Int
deriving DecidableEq

structure AbsoluteSourceSpan where
  start : Int
  endI : Int
deriving DecidableEq

def ParseSpan.toAbsolute (s : ParseSpan) (absoluteOffset : Int) : AbsoluteSourceSpan :=
  ⟨s.start + absoluteOffset, s.endI + absoluteOffset⟩

/-! ### Expression AST (modelled from the spec, §3 "AST node")

Modelled from the spec: the expression AST variants are defined in
`expression_parser/ast.ts`, which is not among the provided sources.  The
spec lists the variants: literal primitive, property read/write, safe
property read, keyed read/write, safe keyed read, call, safe call,
conditional, binary, unary, prefix-not, non-null assertion, chain,
interpolation, binding pipe, literal array, literal map, implicit/this
receivers, and the empty-expression sentinel.  Each node owns a relative
span and an absolute source span.  The `eid` field on the three variants
that the template binder stores as map keys (`PropertyRead`,
`PropertyWrite`, `SafePropertyRead`) models object identity of those AST
nodes, as an arena-index handle. -/

inductive LitVal where
  | nullV
  | undefinedV
  | boolV (b : Bool)
  | numV (n : Nat)
  | strV (s : String)
deriving DecidableEq

structure LiteralMapKey where
  key : String
  quoted : Bool
deriving DecidableEq

inductive EAst where
  | emptyExpr (span : ParseSpan) (sourceSpan : AbsoluteSourceSpan)
  | implicitReceiver (span : ParseSpan) (sourceSpan : AbsoluteSourceSpan)
  | thisReceiver (span : ParseSpan) (sourceSpan : AbsoluteSourceSpan)
  | literalPrimitive (span : ParseSpan) (sourceSpan : AbsoluteSourceSpan) (value : LitVal)
  | propertyRead (eid : Nat) (span : ParseSpan) (sourceSpan : AbsoluteSourceSpan)
      (nameSpan : AbsoluteSourceSpan) (receiver : EAst) (name : String)
  | propertyWrite (eid : Nat) (span : ParseSpan) (sourceSpan : AbsoluteSourceSpan)
      (nameSpan : AbsoluteSourceSpan) (receiver : EAst) (name : String) (value : EAst)
  | safePropertyRead (eid : Nat) (span : ParseSpan) (sourceSpan : AbsoluteSourceSpan)
      (nameSpan : AbsoluteSourceSpan) (receiver : EAst) (name : String)
  | keyedRead (span : ParseSpan) (sourceSpan : AbsoluteSourceSpan) (receiver : EAst) (key : EAst)
  | safeKeyedRead (span : ParseSpan) (sourceSpan : AbsoluteSourceSpan)
      (receiver : EAst) (key : EAst)
  | keyedWrite (span : ParseSpan) (sourceSpan : AbsoluteSourceSpan)
      (receiver : EAst) (key : EAst) (value : EAst)
  | call (span : ParseSpan) (sourceSpan : AbsoluteSourceSpan) (receiver : EAst)
      (args : List EAst) (argumentSpan : AbsoluteSourceSpan)
  | safeCall (span : ParseSpan) (sourceSpan : AbsoluteSourceSpan) (receiver : EAst)
      (args : List EAst) (argumentSpan : AbsoluteSourceSpan)
  | nonNullAssert (span : ParseSpan) (sourceSpan : AbsoluteSourceSpan) (expression : EAst)
  | prefixNot (span : ParseSpan) (sourceSpan : AbsoluteSourceSpan) (expression : EAst)
  | unary (span : ParseSpan) (sourceSpan : AbsoluteSourceSpan) (operator : String)
      (expr : EAst)
  | binary (span : ParseSpan) (sourceSpan : AbsoluteSourceSpan) (operation : String)
      (left : EAst) (right : EAst)
  | conditional (span : ParseSpan) (sourceSpan : AbsoluteSourceSpan)
      (condition : EAst) (trueExp : EAst) (falseExp : EAst)
  | chain (span : ParseSpan) (sourceSpan : AbsoluteSourceSpan) (expressions : List EAst)
  | interpolation (span : ParseSpan) (sourceSpan : AbsoluteSourceSpan)
      (strings : List String) (expressions : List EAst)
  | bindingPipe (span : ParseSpan) (sourceSpan : AbsoluteSourceSpan) (exp : EAst)
      (name : String) (args : List EAst) (nameSpan : AbsoluteSourceSpan)
  | literalArray (span : ParseSpan) (sourceSpan : AbsoluteSourceSpan) (expressions : List EAst)
  | literalMap (span : ParseSpan) (sourceSpan : AbsoluteSourceSpan)
      (keys : List LiteralMapKey) (values : List EAst)

/-- True exactly when the JavaScript test `ast instanceof ImplicitReceiver` is
true: `ThisReceiver` is declared as a subclass of `ImplicitReceiver` (the spec
groups them as the "implicit/this receivers" variants), so both match. -/
def EAst.isImplicitReceiver : EAst → Bool
  | .implicitReceiver _ _ => true
  | .thisReceiver _ _ => true
  | _ => false

/-! ### Template node tree (modelled from the spec, §3 "Template node tree")

Modelled from the spec: the template node classes (`Element`, `Template`,
`Variable`, `Reference`, `BoundAttribute`, `BoundEvent`, `BoundText`, `Text`,
`TextAttribute`, `Content`, `Icu`) are defined in `render3/r3_ast.ts`, which
is not among the provided sources.  Fields are those read by
`t2_binder.ts`.  The field `nid` models object identity (the binder's maps
are keyed by node identity). -/

structure RVariable where
  nid : Nat
  name : String
  value : String
deriving DecidableEq

structure RReference where
  nid : Nat
  name : String
  value : String
deriving DecidableEq

structure TextAttr where
  nid : Nat
  name : String
  value : String
deriving DecidableEq

structure BoundAttr where
  nid : Nat
  name : String
  value : EAst

structure BoundEvt where
  nid : Nat
  name : String
  handler : EAst

/-- Entry of `Template.templateAttrs`, which holds both plain text attributes
and bound attributes. -/
inductive TemplateAttr where
  | textA (a : TextAttr)
  | boundA (a : BoundAttr)

inductive RNode where
  | element (nid : Nat) (name : String) (attributes : List TextAttr)
      (inputs : List BoundAttr) (outputs : List BoundEvt)
      (children : List RNode) (references : List RReference)
  | template (nid : Nat) (tagName : String) (attributes : List TextAttr)
      (inputs : List BoundAttr) (outputs : List BoundEvt)
      (templateAttrs : List TemplateAttr) (children : List RNode)
      (references : List RReference) (varDecls : List RVariable)
  | content (nid : Nat)
  | text (nid : Nat)
  | boundText (nid : Nat) (value : EAst)
  | icu (nid : Nat) (vars : List (String × EAst)) (placeholders : List (String × Option EAst))

/-- Named entity captured in a `Scope`: a `Reference` or a `Variable`. -/
inductive Entity where
  | ref (r : RReference)
  | var (v : RVariable)
deriving DecidableEq

def Entity.name : Entity → String
  | .ref r => r.name
  | .var v => v.name

def Entity.nid : Entity → Nat
  | .ref r => r.nid
  | .var v => v.nid

/-! ### Scope construction (pass 1 of `R3TargetBinder.bind`)

Embeds the `Scope` visitor of `t2_binder.ts` (lines 82–222).  A `Scope`'s
mutable maps become a functional value: `namedEntities` keyed by name,
`childScopes` keyed by the identity of the nested `Template` node.  The
`parentScope` back-pointer is represented at use sites by passing the chain
of ancestor scopes (innermost first). -/

inductive ScopeData where
  | mk (namedEntities : List (String × Entity)) (childScopes : List (Nat × ScopeData))

def ScopeData.namedEntities : ScopeData → List (String × Entity)
  | .mk es _ => es

def ScopeData.childScopes : ScopeData → List (Nat × ScopeData)
  | .mk _ cs => cs

def emptyScope : ScopeData := .mk [] []

/-- Embeds `Scope.maybeDeclare`: declare something with a name, as long as
that name is not taken. -/
def maybeDeclare (m : List (String × Entity)) (e : Entity) : List (String × Entity) :=
  if ahas m e.name then m else aset m e.name e

mutual

/-- Embeds the visitor dispatch of the `Scope` pass: `visitElement` captures
the element's references in the current scope and recurses into its children;
`visitTemplate` captures the template's references in the current (outer)
scope, then builds an inner scope from the template's variables and children
and records it in `childScopes`; `visitVariable`/`visitReference` declare;
all other node kinds are ignored. -/
def scopeVisitNode (s : ScopeData) (n : RNode) : ScopeData :=
  match n with
  | .element _ _ _ _ _ children references =>
      let s' : ScopeData :=
        .mk (references.foldl (fun m r => maybeDeclare m (.ref r)) s.namedEntities) s.childScopes
      scopeIngestNodes s' children
  | .template nid _ _ _ _ _ children references varDecls =>
      let s' : ScopeData :=
        .mk (references.foldl (fun m r => maybeDeclare m (.ref r)) s.namedEntities) s.childScopes
      let inner : ScopeData :=
        scopeIngestNodes
          (.mk (varDecls.foldl (fun m v => maybeDeclare m (.var v)) []) []) children
      .mk s'.namedEntities (aset s'.childScopes nid inner)
  | .content _ => s
  | .text _ => s
  | .boundText _ _ => s
  | .icu _ _ _ => s

/-- Embeds `Scope.ingest` on a plain array of nodes: visit each node in
order, threading the scope under construction. -/
def scopeIngestNodes (s : ScopeData) (ns : List RNode) : ScopeData :=
  match ns with
  | [] => s
  | n :: rest => scopeIngestNodes (scopeVisitNode s n) rest

end

/-- Embeds `Scope.apply`: construct the root scope of a template forest. -/
def scopeApply (template : List RNode) : ScopeData :=
  scopeIngestNodes emptyScope template

/-- Embeds `Scope.lookup` along the chain of scopes (innermost first, the
`parentScope` links): return the first scope's entry for the name, or `none`
if the name is undeclared up to the root. -/
def scopeLookup : List ScopeData → String → Option Entity
  | [], _ => none
  | s :: parents, name =>
      match aget s.namedEntities name with
      | some e => some e
      | none => scopeLookup parents name

/-! ### Entities visible in each template scope (`extractTemplateEntities`) -/

/-- Builds a JavaScript `Map` from a pair list: `new Map(pairs)` sets every
pair in order, so a later pair for a key overwrites an earlier one. -/
def mapOfPairs {K V : Type} [DecidableEq K] (l : List (K × V)) : List (K × V) :=
  l.foldl (fun m kv => aset m kv.1 kv.2) []

/-- The merged entity map of a scope whose parent scopes contribute
`parentMerged`: `new Map([...parentMerged, ...currentEntities])`. -/
def scopeMergedEntities (parentMerged es : List (String × Entity)) : List (String × Entity) :=
  mapOfPairs (parentMerged ++ es)

mutual

/-- Embeds `extractTemplateEntities.extractScopeEntities` of `t2_binder.ts`
(lines 650–666), unfolded top-down: the merged entity map of a scope is
`new Map([...extractScopeEntities(scope.parentScope), ...currentEntities])`
(for the root scope, `new Map(currentEntities)`, which is the same with an
empty parent map).  The memoisation through `entityMap` in the source only
caches this value per scope; passing the parent's merged map down the tree
computes the same maps.  Returns the association of each scope's template
key (`none` for the root) with its merged entity map. -/
def extractScopeEntities (parentMerged : List (String × Entity)) (key : Option Nat) :
    ScopeData → List (Option Nat × List (String × Entity))
  | .mk es cs =>
      let merged := scopeMergedEntities parentMerged es
      (key, merged) :: extractChildScopeEntities merged cs

def extractChildScopeEntities (parentMerged : List (String × Entity)) :
    List (Nat × ScopeData) → List (Option Nat × List (String × Entity))
  | [] => []
  | (nid, c) :: rest =>
      extractScopeEntities parentMerged (some nid) c ++
        extractChildScopeEntities parentMerged rest

end

/-- Embeds `extractTemplateEntities` (lines 647–682): walk every scope of the
tree, compute its merged entity map, and expose the map's values as the set
of entities visible in that scope's template.  The source walks the scopes
with an explicit stack, which only affects the insertion order of the result
map, not its contents. -/
def extractTemplateEntities (rootScope : ScopeData) : List (Option Nat × List Entity) :=
  (extractScopeEntities [] none rootScope).map (fun kv => (kv.1, kv.2.map Prod.snd))

/-! ### Directive matching (pass 2, `DirectiveBinder`) -/

/-- Directive metadata, the externally supplied read-only description of a
directive (spec §3): selector matching itself happens in the external
`SelectorMatcher`; the binder reads `isComponent`, `exportAs` and the
input/output binding-property-name tables.  `did` models object identity.
`inputs`/`outputs` model `hasBindingPropertyName` as a plain name list. -/
structure DirectiveMeta where
  did : Nat
  isComponent : Bool
  exportAs : Option (List String)
  inputs : List String
  outputs : List String
deriving DecidableEq

/-- Modelled from the spec: the composition of `createCssSelector` (in
`view/template.ts`, not among the provided sources) with the externally
supplied `SelectorMatcher.match` is abstracted as a function from the
element name used for matching (the tag name, or `ng-template`) and the
node to the list of matched directives, in the order the matcher reports
them. -/
def Matcher : Type := String → RNode → List DirectiveMeta

/-- Target of a `#reference`: either a directive on a node or the node
itself (`t2_binder.ts` lines 309–340). -/
inductive RefTarget where
  | dirOnNode (directive : DirectiveMeta) (nodeNid : Nat)
  | hostNode (nodeNid : Nat)
deriving DecidableEq

/-- Consumer of a binding: the claiming directive, or the host node. -/
inductive Consumer where
  | directive (d : DirectiveMeta)
  | hostNode (nodeNid : Nat)
deriving DecidableEq

structure DBResult where
  directives : List (Nat × List DirectiveMeta)
  bindings : List (Nat × Consumer)
  references : List (Nat × RefTarget)

def RNode.nid : RNode → Nat
  | .element nid _ _ _ _ _ _ => nid
  | .template nid _ _ _ _ _ _ _ _ => nid
  | .content nid => nid
  | .text nid => nid
  | .boundText nid _ => nid
  | .icu nid _ _ => nid

/-- Shared element/template processing of `visitElementOrTemplate`. -/
def dbProcessShared (matcher : Matcher) (elementName : String) (n : RNode) (nid : Nat)
    (attributes : List TextAttr) (inputs : List BoundAttr) (outputs : List BoundEvt)
    (templateAttrs : Option (List TemplateAttr)) (references : List RReference)
    (acc : DBResult) : DBResult :=
  let directives := matcher elementName n
  let acc :=
    if directives.length > 0 then
      { acc with directives := aset acc.directives nid directives }
    else acc
  let acc := references.foldl (fun acc ref =>
    if ref.value.trim = "" then
      match directives.find? (fun dir => dir.isComponent) with
      | some d => { acc with references := aset acc.references ref.nid (.dirOnNode d nid) }
      | none => { acc with references := aset acc.references ref.nid (.hostNode nid) }
    else
      match directives.find? (fun dir =>
          match dir.exportAs with
          | some names => names.contains ref.value
          | none => false) with
      | some d => { acc with references := aset acc.references ref.nid (.dirOnNode d nid) }
      | none => acc) acc
  let claim := fun (ioInputs : Bool) (attrNid : Nat) (attrName : String) (acc : DBResult) =>
    match directives.find? (fun dir =>
        attrName ∈ (if ioInputs then dir.inputs else dir.outputs)) with
    | some d => { acc with bindings := aset acc.bindings attrNid (.directive d) }
    | none => { acc with bindings := aset acc.bindings attrNid (.hostNode nid) }
  let acc := inputs.foldl (fun acc a => claim true a.nid a.name acc) acc
  let acc := attributes.foldl (fun acc a => claim true a.nid a.name acc) acc
  let acc :=
    match templateAttrs with
    | some tas =>
        tas.foldl (fun acc ta =>
          match ta with
          | .textA a => claim true a.nid a.name acc
          | .boundA a => claim true a.nid a.name acc) acc
    | none => acc
  outputs.foldl (fun acc e => claim false e.nid e.name acc) acc

/-- Embeds the body of `DirectiveBinder.visitElementOrTemplate` up to the
recursion into children (lines 297–359): match directives, resolve
references, and claim attributes/inputs/outputs. -/
def dbProcessNode (matcher : Matcher) (elementName : String) (n : RNode) (acc : DBResult) :
    DBResult :=
  match n with
  | .element nid _ attributes inputs outputs _ references =>
      dbProcessShared matcher elementName n nid attributes inputs outputs none references acc
  | .template nid _ attributes inputs outputs templateAttrs _ references _ =>
      dbProcessShared matcher elementName n nid attributes inputs outputs (some templateAttrs)
        references acc
  | _ => acc

mutual

/-- Embeds the `DirectiveBinder` visitor dispatch: elements are matched under
their tag name, templates under `ng-template`; all other nodes are ignored;
children are visited recursively. -/
def dbVisitNode (matcher : Matcher) (acc : DBResult) (n : RNode) : DBResult :=
  match n with
  | .element _ name _ _ _ children _ =>
      dbVisitNodes matcher (dbProcessNode matcher name n acc) children
  | .template _ _ _ _ _ _ children _ _ =>
      dbVisitNodes matcher (dbProcessNode matcher "ng-template" n acc) children
  | _ => acc

def dbVisitNodes (matcher : Matcher) (acc : DBResult) : List RNode → DBResult
  | [] => acc
  | n :: rest => dbVisitNodes matcher (dbVisitNode matcher acc n) rest

end

/-- Embeds `DirectiveBinder.apply`. -/
def dbApply (matcher : Matcher) (template : List RNode) : DBResult :=
  dbVisitNodes matcher ⟨[], [], []⟩ template

/-! ### Template binding (pass 3, `TemplateBinder`) -/

structure TBState where
  exprTargets : List (Nat × Entity)
  symbols : List (Nat × Nat)
  nestingLevel : List (Nat × Nat)
  usedPipes : List String

/-- JavaScript `Set.add`: insert at the end unless already present. -/
def addToSet (l : List String) (s : String) : List String :=
  if s ∈ l then l else l ++ [s]

/-- Embeds `TemplateBinder.maybeMap`: only expressions whose receiver is the
implicit receiver are roots; if the name resolves in the current scope, map
the expression (by identity) to the resolved entity. -/
def tbMaybeMap (scopes : List ScopeData) (st : TBState) (eid : Nat) (receiver : EAst)
    (name : String) : TBState :=
  if receiver.isImplicitReceiver then
    match scopeLookup scopes name with
    | some target => { st with exprTargets := aset st.exprTargets eid target }
    | none => st
  else st

mutual

/-- Embeds the AST side of `TemplateBinder` (a `RecursiveAstVisitor` with
overrides, lines 543–580): `visitPipe` records the pipe name in the used
pipes set, and the three property-access variants call `maybeMap`, which
records the expression's target entity when its receiver is the implicit
receiver and the name resolves in the current scope chain.  The recursive
traversal of sub-expressions follows `RecursiveAstVisitor` of
`expression_parser/ast.ts` (modelled from the spec: that file is not among
the provided sources; it visits every child expression of each variant). -/
def tbVisitAst (scopes : List ScopeData) (st : TBState) : EAst → TBState
  | .emptyExpr _ _ => st
  | .implicitReceiver _ _ => st
  | .thisReceiver _ _ => st
  | .literalPrimitive _ _ _ => st
  | .propertyRead eid _ _ _ receiver name =>
      let st := tbMaybeMap scopes st eid receiver name
      tbVisitAst scopes st receiver
  | .propertyWrite eid _ _ _ receiver name value =>
      let st := tbMaybeMap scopes st eid receiver name
      tbVisitAst scopes (tbVisitAst scopes st receiver) value
  | .safePropertyRead eid _ _ _ receiver name =>
      let st := tbMaybeMap scopes st eid receiver name
      tbVisitAst scopes st receiver
  | .keyedRead _ _ receiver key => tbVisitAst scopes (tbVisitAst scopes st receiver) key
  | .safeKeyedRead _ _ receiver key => tbVisitAst scopes (tbVisitAst scopes st receiver) key
  | .keyedWrite _ _ receiver key value =>
      tbVisitAst scopes (tbVisitAst scopes (tbVisitAst scopes st receiver) key) value
  | .call _ _ receiver args _ => tbVisitAstList scopes (tbVisitAst scopes st receiver) args
  | .safeCall _ _ receiver args _ => tbVisitAstList scopes (tbVisitAst scopes st receiver) args
  | .nonNullAssert _ _ expression => tbVisitAst scopes st expression
  | .prefixNot _ _ expression => tbVisitAst scopes st expression
  | .unary _ _ _ expr => tbVisitAst scopes st expr
  | .binary _ _ _ left right => tbVisitAst scopes (tbVisitAst scopes st left) right
  | .conditional _ _ c t f =>
      tbVisitAst scopes (tbVisitAst scopes (tbVisitAst scopes st c) t) f
  | .chain _ _ expressions => tbVisitAstList scopes st expressions
  | .interpolation _ _ _ expressions => tbVisitAstList scopes st expressions
  | .bindingPipe _ _ exp name args _ =>
      let st := { st with usedPipes := addToSet st.usedPipes name }
      tbVisitAstList scopes (tbVisitAst scopes st exp) args
  | .literalArray _ _ expressions => tbVisitAstList scopes st expressions
  | .literalMap _ _ _ values => tbVisitAstList scopes st values

def tbVisitAstList (scopes : List ScopeData) (st : TBState) : List EAst → TBState
  | [] => st
  | e :: rest => tbVisitAstList scopes (tbVisitAst scopes st e) rest

end

/-- Embeds `TemplateBinder.visitVariable`/`visitReference`: register the
entity as a symbol of the current template, when there is one. -/
def tbVisitSymbol (tmpl : Option Nat) (st : TBState) (entityNid : Nat) : TBState :=
  match tmpl with
  | some t => { st with symbols := aset st.symbols entityNid t }
  | none => st

mutual

/-- Embeds the node side of `TemplateBinder` (lines 467–541): elements visit
their inputs, outputs and children; templates visit inputs, outputs,
template attributes and references in the outer scope, then recurse into
their own child scope (`getChildScope`, which throws — modelled as `none` —
if the scope pass recorded no child scope) with the nesting level bumped by
one, visiting variables and children and finally recording the nesting
level; bound text and ICUs visit their embedded ASTs. -/
def tbVisitNode (scopes : List ScopeData) (tmpl : Option Nat) (level : Nat) (st : TBState) :
    RNode → Option TBState
  | .element _ _ _ inputs outputs children _ =>
      let st := inputs.foldl (fun st a => tbVisitAst scopes st a.value) st
      let st := outputs.foldl (fun st e => tbVisitAst scopes st e.handler) st
      tbVisitNodes scopes tmpl level st children
  | .template nid _ _ inputs outputs templateAttrs children references varDecls =>
      let st := inputs.foldl (fun st a => tbVisitAst scopes st a.value) st
      let st := outputs.foldl (fun st e => tbVisitAst scopes st e.handler) st
      let st := templateAttrs.foldl (fun st ta =>
        match ta with
        | .textA _ => st
        | .boundA a => tbVisitAst scopes st a.value) st
      let st := references.foldl (fun st r => tbVisitSymbol tmpl st r.nid) st
      match scopes with
      | [] => none
      | scope :: _ =>
          match aget scope.childScopes nid with
          | none => none
          | some childScope =>
              let st := varDecls.foldl (fun st v => tbVisitSymbol (some nid) st v.nid) st
              match tbVisitNodes (childScope :: scopes) (some nid) (level + 1) st children with
              | none => none
              | some st =>
                  some { st with nestingLevel := aset st.nestingLevel nid (level + 1) }
  | .content _ => some st
  | .text _ => some st
  | .boundText _ value => some (tbVisitAst scopes st value)
  | .icu _ vars placeholders =>
      let st := vars.foldl (fun st kv => tbVisitAst scopes st kv.2) st
      some (placeholders.foldl (fun st kv =>
        match kv.2 with
        | some a => tbVisitAst scopes st a
        | none => st) st)

def tbVisitNodes (scopes : List ScopeData) (tmpl : Option Nat) (level : Nat) (st : TBState) :
    List RNode → Option TBState
  | [] => some st
  | n :: rest =>
      match tbVisitNode scopes tmpl level st n with
      | none => none
      | some st => tbVisitNodes scopes tmpl level st rest

end

/-- Embeds `TemplateBinder.applyWithScope`: the top-level binder starts with
the root scope, no current template (the argument is a node array, never a
`Template` instance), and nesting level 0. -/
def tbApplyWithScope (template : List RNode) (scope : ScopeData) : Option TBState :=
  tbVisitNodes [scope] none 0 ⟨[], [], [], []⟩ template

/-! ### The bound target (`R3BoundTarget`) and `R3TargetBinder.bind` -/

structure BoundTargetData where
  directives : List (Nat × List DirectiveMeta)
  bindings : List (Nat × Consumer)
  references : List (Nat × RefTarget)
  exprTargets : List (Nat × Entity)
  symbols : List (Nat × Nat)
  nestingLevel : List (Nat × Nat)
  templateEntities : List (Option Nat × List Entity)
  usedPipes : List String

/-- Embeds `R3BoundTarget.getEntitiesInTemplateScope`:
`templateEntities.get(template) ?? new Set()`. -/
def BoundTargetData.getEntitiesInTemplateScope (bt : BoundTargetData) (t : Option Nat) :
    List Entity :=
  (aget bt.templateEntities t).getD []

/-- Embeds `R3BoundTarget.getExpressionTarget`: `exprTargets.get(expr) || null`. -/
def BoundTargetData.getExpressionTarget (bt : BoundTargetData) (eid : Nat) : Option Entity :=
  aget bt.exprTargets eid

/-- Embeds `R3BoundTarget.getNestingLevel`: `nestingLevel.get(template) || 0`. -/
def BoundTargetData.getNestingLevel (bt : BoundTargetData) (tmplNid : Nat) : Nat :=
  (aget bt.nestingLevel tmplNid).getD 0

/-- Embeds `R3TargetBinder.bind` (lines 38–66).  A `Target` without a
template (`!target.template`, i.e. a `null`/`undefined` template — an empty
node array is truthy in JavaScript and proceeds) throws, modelled as `none`.
The `getChildScope` assertion failure inside the `TemplateBinder` pass is
also modelled as `none`. -/
def bind (matcher : Matcher) (target : Option (List RNode)) : Option BoundTargetData :=
  match target with
  | none => none
  | some template =>
      let scope := scopeApply template
      let templateEntities := extractTemplateEntities scope
      let db := dbApply matcher template
      match tbApplyWithScope template scope with
      | none => none
      | some tb =>
          some ⟨db.directives, db.bindings, db.references, tb.exprTargets, tb.symbols,
            tb.nestingLevel, templateEntities, tb.usedPipes⟩

/-! ### Helper lemmas about the map model -/

theorem aget_aset_cases {K V : Type} [DecidableEq K] (m : List (K × V)) (k k' : K) (v w : V)
    (h : aget (aset m k v) k' = some w) : (k = k' ∧ v = w) ∨ aget m k' = some w := by
  by_cases hk : k = k'
  · subst hk
    rw [aget_aset_self] at h
    exact Or.inl ⟨rfl, by injection h⟩
  · rw [aget_aset_ne m k k' v hk] at h
    exact Or.inr h

theorem List.foldl_proj_preserve {α β γ : Type} (proj : β → γ) (f : β → α → β)
    (h : ∀ st a, proj (f st a) = proj st) : ∀ (l : List α) (st : β), proj (l.foldl f st) = proj st
  | [], _ => rfl
  | a :: rest, st => by
      rw [List.foldl_cons, List.foldl_proj_preserve proj f h rest (f st a), h]

/-! ### Claim C8: first-declared-wins within a single scope -/

/-- C8: within a single `Scope`, declaration is first-declared-wins: once a
name is mapped to an entity by `maybeDeclare`, no later sequence of
declarations processed by the same scope overwrites that mapping. -/
theorem c8_first_declared_wins (decls : List Entity) (pre : List (String × Entity))
    (name : String) (e : Entity) (h : aget pre name = some e) :
    aget (decls.foldl maybeDeclare pre) name = some e := by
  induction decls generalizing pre with
  | nil => exact h
  | cons d rest ih =>
      rw [List.foldl_cons]
      apply ih
      unfold maybeDeclare
      by_cases hd : ahas pre d.name
      · simp [hd, h]
      · simp [hd]
        have hne : d.name ≠ name := by
          intro heq
          rw [heq] at hd
          simp [ahas, h] at hd
        rw [aget_aset_ne pre d.name name d hne]
        exact h

theorem c8_witness :
    aget [("x", Entity.var ⟨1, "x", "v"⟩)] "x" = some (Entity.var ⟨1, "x", "v"⟩) ∧
      aget ([Entity.ref ⟨2, "x", "other"⟩].foldl maybeDeclare
          [("x", Entity.var ⟨1, "x", "v"⟩)]) "x" = some (Entity.var ⟨1, "x", "v"⟩) :=
  ⟨by decide, c8_first_declared_wins [Entity.ref ⟨2, "x", "other"⟩]
      [("x", Entity.var ⟨1, "x", "v"⟩)] "x" (Entity.var ⟨1, "x", "v"⟩) (by decide)⟩

/-! ### Claim C6: innermost-wins name lookup, and the nested `*ngFor` example -/

/-- First defined value in a list of optional values. -/
def firstSome {α : Type} : List (Option α) → Option α
  | [] => none
  | o :: rest =>
      match o with
      | some v => some v
      | none => firstSome rest

/-- A matcher that matches no directives (an empty `SelectorMatcher`). -/
def noMatch : Matcher := fun _ _ => []

/-- The desugared template forest of
`<div *ngFor="let item of items"><span *ngFor="let item of other">{{item}}</span></div>`:
an outer `Template` declaring variable `item`, containing the `div` element,
which contains the inner `Template` declaring its own `item`, containing the
`span` with the interpolated bound text `{{item}}` whose `PropertyRead`
(identity 500) has the implicit receiver. -/
def ngForForest : List RNode :=
  [.template 1 "div" [] [] []
    [.textA ⟨20, "ngFor", ""⟩,
     .boundA ⟨21, "ngForOf",
       .propertyRead 201 ⟨0, 0⟩ ⟨0, 0⟩ ⟨0, 0⟩ (.implicitReceiver ⟨0, 0⟩ ⟨0, 0⟩) "items"⟩]
    [.element 2 "div" [] [] []
      [.template 3 "span" [] [] []
        [.boundA ⟨22, "ngForOf",
          .propertyRead 202 ⟨0, 0⟩ ⟨0, 0⟩ ⟨0, 0⟩ (.implicitReceiver ⟨0, 0⟩ ⟨0, 0⟩) "other"⟩]
        [.element 4 "span" [] [] []
          [.boundText 5 (.interpolation ⟨0, 0⟩ ⟨0, 0⟩ ["", ""]
            [.propertyRead 500 ⟨2, 6⟩ ⟨2, 6⟩ ⟨2, 6⟩ (.implicitReceiver ⟨2, 2⟩ ⟨2, 2⟩)
              "item"])] []]
        []
        [⟨101, "item", "$implicit"⟩]]
      []]
    []
    [⟨100, "item", "$implicit"⟩]]

/-- C6: `Scope.lookup` returns the innermost declaration: along the chain of
scopes (innermost first), the result is the first scope's entry for the
name, and `none` when no scope up to the root declares it.  Consequently, in
the nested `*ngFor` example, the `item` expression root (identity 500)
inside the inner interpolation is mapped by `getExpressionTarget` to the
inner `item` variable (identity 101), not the outer one (identity 100). -/
theorem c6_lookup_innermost :
    (∀ (scopes : List ScopeData) (name : String),
        scopeLookup scopes name = firstSome (scopes.map (fun s => aget s.namedEntities name))) ∧
      (Ng.bind noMatch (some ngForForest)).map
          (fun bt => bt.getExpressionTarget 500) =
        some (some (Entity.var ⟨101, "item", "$implicit"⟩)) := by
  constructor
  · intro scopes
    induction scopes with
    | nil => intro name; rfl
    | cons s rest ih =>
        intro name
        rw [scopeLookup, List.map_cons, firstSome.eq_def]
        cases aget s.namedEntities name with
        | none => simp [ih name]
        | some e => simp
  · rfl

/-! ### Claim C1: template nesting levels -/

/-- Three-level nested `<ng-template>` structure: template 1 contains
template 2 contains template 3. -/
def nest3Forest : List RNode :=
  [.template 1 "ng-template" [] [] [] []
    [.template 2 "ng-template" [] [] [] []
      [.template 3 "ng-template" [] [] [] [] [] [] []] [] []] [] []]

theorem tbMaybeMap_nestingLevel (scopes : List ScopeData) (st : TBState) (eid : Nat)
    (receiver : EAst) (name : String) :
    (tbMaybeMap scopes st eid receiver name).nestingLevel = st.nestingLevel := by
  unfold tbMaybeMap
  by_cases h : receiver.isImplicitReceiver <;> simp [h]
  cases scopeLookup scopes name <;> simp

theorem tbVisitSymbol_nestingLevel (tmpl : Option Nat) (st : TBState) (entityNid : Nat) :
    (tbVisitSymbol tmpl st entityNid).nestingLevel = st.nestingLevel := by
  unfold tbVisitSymbol
  cases tmpl <;> rfl

mutual

theorem tbVisitAst_nestingLevel : ∀ (e : EAst) (scopes : List ScopeData) (st : TBState),
    (tbVisitAst scopes st e).nestingLevel = st.nestingLevel
  | .emptyExpr _ _, _, _ => rfl
  | .implicitReceiver _ _, _, _ => rfl
  | .thisReceiver _ _, _, _ => rfl
  | .literalPrimitive _ _ _, _, _ => rfl
  | .propertyRead eid a b c receiver name, scopes, st => by
      simp [tbVisitAst, tbVisitAst_nestingLevel receiver, tbMaybeMap_nestingLevel]
  | .propertyWrite eid a b c receiver name value, scopes, st => by
      simp [tbVisitAst, tbVisitAst_nestingLevel value, tbVisitAst_nestingLevel receiver,
        tbMaybeMap_nestingLevel]
  | .safePropertyRead eid a b c receiver name, scopes, st => by
      simp [tbVisitAst, tbVisitAst_nestingLevel receiver, tbMaybeMap_nestingLevel]
  | .keyedRead _ _ receiver key, scopes, st => by
      simp [tbVisitAst, tbVisitAst_nestingLevel key, tbVisitAst_nestingLevel receiver]
  | .safeKeyedRead _ _ receiver key, scopes, st => by
      simp [tbVisitAst, tbVisitAst_nestingLevel key, tbVisitAst_nestingLevel receiver]
  | .keyedWrite _ _ receiver key value, scopes, st => by
      simp [tbVisitAst, tbVisitAst_nestingLevel value, tbVisitAst_nestingLevel key,
        tbVisitAst_nestingLevel receiver]
  | .call _ _ receiver args _, scopes, st => by
      simp [tbVisitAst, tbVisitAstList_nestingLevel args, tbVisitAst_nestingLevel receiver]
  | .safeCall _ _ receiver args _, scopes, st => by
      simp [tbVisitAst, tbVisitAstList_nestingLevel args, tbVisitAst_nestingLevel receiver]
  | .nonNullAssert _ _ expression, scopes, st => by
      simp [tbVisitAst, tbVisitAst_nestingLevel expression]
  | .prefixNot _ _ expression, scopes, st => by
      simp [tbVisitAst, tbVisitAst_nestingLevel expression]
  | .unary _ _ _ expr, scopes, st => by
      simp [tbVisitAst, tbVisitAst_nestingLevel expr]
  | .binary _ _ _ left right, scopes, st => by
      simp [tbVisitAst, tbVisitAst_nestingLevel right, tbVisitAst_nestingLevel left]
  | .conditional _ _ c t f, scopes, st => by
      simp [tbVisitAst, tbVisitAst_nestingLevel f, tbVisitAst_nestingLevel t,
        tbVisitAst_nestingLevel c]
  | .chain _ _ expressions, scopes, st => by
      simp [tbVisitAst, tbVisitAstList_nestingLevel expressions]
  | .interpolation _ _ _ expressions, scopes, st => by
      simp [tbVisitAst, tbVisitAstList_nestingLevel expressions]
  | .bindingPipe _ _ exp name args _, scopes, st => by
      simp [tbVisitAst, tbVisitAstList_nestingLevel args, tbVisitAst_nestingLevel exp]
  | .literalArray _ _ expressions, scopes, st => by
      simp [tbVisitAst, tbVisitAstList_nestingLevel expressions]
  | .literalMap _ _ _ values, scopes, st => by
      simp [tbVisitAst, tbVisitAstList_nestingLevel values]

theorem tbVisitAstList_nestingLevel : ∀ (l : List EAst) (scopes : List ScopeData) (st : TBState),
    (tbVisitAstList scopes st l).nestingLevel = st.nestingLevel
  | [], _, _ => rfl
  | e :: rest, scopes, st => by
      simp [tbVisitAstList, tbVisitAstList_nestingLevel rest, tbVisitAst_nestingLevel e]

end


theorem foldBoundAttrs_nestingLevel (scopes : List ScopeData) (l : List BoundAttr)
    (st : TBState) :
    (l.foldl (fun st a => tbVisitAst scopes st a.value) st).nestingLevel = st.nestingLevel :=
  List.foldl_proj_preserve TBState.nestingLevel (fun st a => tbVisitAst scopes st a.value)
    (fun st a => tbVisitAst_nestingLevel a.value scopes st) l st

theorem foldBoundEvts_nestingLevel (scopes : List ScopeData) (l : List BoundEvt)
    (st : TBState) :
    (l.foldl (fun st e => tbVisitAst scopes st e.handler) st).nestingLevel = st.nestingLevel :=
  List.foldl_proj_preserve TBState.nestingLevel (fun st e => tbVisitAst scopes st e.handler)
    (fun st e => tbVisitAst_nestingLevel e.handler scopes st) l st

theorem foldTemplateAttrs_nestingLevel (scopes : List ScopeData) (l : List TemplateAttr)
    (st : TBState) :
    (l.foldl (fun st ta =>
      match ta with
      | TemplateAttr.textA _ => st
      | TemplateAttr.boundA a => tbVisitAst scopes st a.value) st).nestingLevel =
      st.nestingLevel := by
  refine List.foldl_proj_preserve TBState.nestingLevel _ ?_ l st
  intro st ta
  cases ta with
  | textA a => rfl
  | boundA a => exact tbVisitAst_nestingLevel a.value scopes st

theorem foldSymbolVars_nestingLevel (tmpl : Option Nat) (l : List RVariable) (st : TBState) :
    (l.foldl (fun st v => tbVisitSymbol tmpl st v.nid) st).nestingLevel = st.nestingLevel :=
  List.foldl_proj_preserve TBState.nestingLevel (fun st v => tbVisitSymbol tmpl st v.nid)
    (fun st v => tbVisitSymbol_nestingLevel tmpl st v.nid) l st

theorem foldSymbolRefs_nestingLevel (tmpl : Option Nat) (l : List RReference) (st : TBState) :
    (l.foldl (fun st r => tbVisitSymbol tmpl st r.nid) st).nestingLevel = st.nestingLevel :=
  List.foldl_proj_preserve TBState.nestingLevel (fun st r => tbVisitSymbol tmpl st r.nid)
    (fun st r => tbVisitSymbol_nestingLevel tmpl st r.nid) l st

theorem foldIcuVars_nestingLevel (scopes : List ScopeData) (l : List (String × EAst))
    (st : TBState) :
    (l.foldl (fun st kv => tbVisitAst scopes st kv.2) st).nestingLevel = st.nestingLevel :=
  List.foldl_proj_preserve TBState.nestingLevel (fun st kv => tbVisitAst scopes st kv.2)
    (fun st kv => tbVisitAst_nestingLevel kv.2 scopes st) l st

theorem foldIcuPlaceholders_nestingLevel (scopes : List ScopeData)
    (l : List (String × Option EAst)) (st : TBState) :
    (l.foldl (fun st kv =>
      match kv.2 with
      | some a => tbVisitAst scopes st a
      | none => st) st).nestingLevel = st.nestingLevel := by
  refine List.foldl_proj_preserve TBState.nestingLevel _ ?_ l st
  intro st kv
  cases h : kv.2 with
  | none => simp [h]
  | some a => simp [h, tbVisitAst_nestingLevel a scopes st]

/-- Invariant: all recorded nesting levels are at least 1. -/
def nlInv (st : TBState) : Prop :=
  ∀ k v, aget st.nestingLevel k = some v → 1 ≤ v

theorem nlInv_of_eq {st st' : TBState} (h : st'.nestingLevel = st.nestingLevel)
    (hi : nlInv st) : nlInv st' := by
  intro k v hv
  exact hi k v (h ▸ hv)

mutual

theorem tbVisitNode_nlInv : ∀ (n : RNode) (scopes : List ScopeData) (tmpl : Option Nat)
    (level : Nat) (st st' : TBState), tbVisitNode scopes tmpl level st n = some st' →
    nlInv st → nlInv st'
  | .element nid name attrs inputs outputs children refs, scopes, tmpl, level, st, st' => by
      intro h hi
      simp only [tbVisitNode] at h
      refine tbVisitNodes_nlInv children scopes tmpl level _ st' h (nlInv_of_eq ?_ hi)
      rw [foldBoundEvts_nestingLevel, foldBoundAttrs_nestingLevel]
  | .template nid tag attrs inputs outputs templateAttrs children refs varDecls,
      scopes, tmpl, level, st, st' => by
      intro h hi
      simp only [tbVisitNode] at h
      cases scopes with
      | nil => exact absurd h (by simp)
      | cons scope rest =>
          simp only at h
          cases hc : aget scope.childScopes nid with
          | none => rw [hc] at h; exact absurd h (by simp)
          | some childScope =>
              rw [hc] at h
              simp only at h
              cases hrec : tbVisitNodes (childScope :: scope :: rest) (some nid) (level + 1)
                  (varDecls.foldl (fun st v => tbVisitSymbol (some nid) st v.nid)
                    (refs.foldl (fun st r => tbVisitSymbol tmpl st r.nid)
                      (templateAttrs.foldl (fun st ta =>
                        match ta with
                        | .textA _ => st
                        | .boundA a => tbVisitAst (scope :: rest) st a.value)
                        (outputs.foldl (fun st e => tbVisitAst (scope :: rest) st e.handler)
                          (inputs.foldl (fun st a => tbVisitAst (scope :: rest) st a.value)
                            st))))) children with
              | none => rw [hrec] at h; exact absurd h (by simp)
              | some st2 =>
                  rw [hrec] at h
                  simp only [Option.some.injEq] at h
                  subst h
                  have hst2 : nlInv st2 := by
                    refine tbVisitNodes_nlInv children _ _ _ _ _ hrec (nlInv_of_eq ?_ hi)
                    rw [foldSymbolVars_nestingLevel, foldSymbolRefs_nestingLevel,
                      foldTemplateAttrs_nestingLevel, foldBoundEvts_nestingLevel,
                      foldBoundAttrs_nestingLevel]
                  intro k v hv
                  simp only at hv
                  rcases aget_aset_cases _ _ _ _ _ hv with ⟨_, hval⟩ | hold
                  · omega
                  · exact hst2 k v hold
  | .content nid, scopes, tmpl, level, st, st' => by
      intro h hi
      simp only [tbVisitNode, Option.some.injEq] at h
      exact h ▸ hi
  | .text nid, scopes, tmpl, level, st, st' => by
      intro h hi
      simp only [tbVisitNode, Option.some.injEq] at h
      exact h ▸ hi
  | .boundText nid value, scopes, tmpl, level, st, st' => by
      intro h hi
      simp only [tbVisitNode, Option.some.injEq] at h
      exact h ▸ nlInv_of_eq (tbVisitAst_nestingLevel value scopes st) hi
  | .icu nid vars placeholders, scopes, tmpl, level, st, st' => by
      intro h hi
      simp only [tbVisitNode, Option.some.injEq] at h
      refine h ▸ nlInv_of_eq ?_ hi
      rw [foldIcuPlaceholders_nestingLevel, foldIcuVars_nestingLevel]

theorem tbVisitNodes_nlInv : ∀ (ns : List RNode) (scopes : List ScopeData) (tmpl : Option Nat)
    (level : Nat) (st st' : TBState), tbVisitNodes scopes tmpl level st ns = some st' →
    nlInv st → nlInv st'
  | [], scopes, tmpl, level, st, st' => by
      intro h hi
      simp only [tbVisitNodes, Option.some.injEq] at h
      exact h ▸ hi
  | n :: rest, scopes, tmpl, level, st, st' => by
      intro h hi
      simp only [tbVisitNodes] at h
      cases hn : tbVisitNode scopes tmpl level st n with
      | none => rw [hn] at h; exact absurd h (by simp)
      | some st1 =>
          rw [hn] at h
          simp only at h
          exact tbVisitNodes_nlInv rest scopes tmpl level st1 st' h
            (tbVisitNode_nlInv n scopes tmpl level st st1 hn hi)

end

/-- C1 counterexample: the claim states that `getNestingLevel` returns 0 for
the outermost of three nested templates; the code records nesting level 1
for it (levels start at 1, as the doc comment on
`TemplateBinder.applyWithScope` states). -/
theorem c1_counterexample :
    (Ng.bind noMatch (some nest3Forest)).map (fun bt => bt.getNestingLevel 1) = some 1 ∧
      ¬ (Ng.bind noMatch (some nest3Forest)).map (fun bt => bt.getNestingLevel 1) = some 0 :=
  ⟨rfl, by decide⟩

/-- C1 amended: for the three-level nested `<ng-template>` structure,
`getNestingLevel` returns 1, 2, 3 respectively for the outer-to-innermost
templates, and in general every recorded nesting depth is an integer ≥ 1
(top-level templates are at 1; 0 is only the `getNestingLevel` fallback for
templates with no recorded level). -/
theorem c1_amended_nesting_levels :
    ((Ng.bind noMatch (some nest3Forest)).map
        (fun bt => (bt.getNestingLevel 1, bt.getNestingLevel 2, bt.getNestingLevel 3)) =
      some (1, 2, 3)) ∧
      (∀ (matcher : Matcher) (forest : List RNode) (bt : BoundTargetData) (k v : Nat),
        Ng.bind matcher (some forest) = some bt →
        aget bt.nestingLevel k = some v → 1 ≤ v) := by
  constructor
  · rfl
  · intro matcher forest bt k v hb hv
    unfold bind at hb
    simp only at hb
    cases htb : tbApplyWithScope forest (scopeApply forest) with
    | none => rw [htb] at hb; exact absurd hb (by simp)
    | some tb =>
        rw [htb] at hb
        simp only [Option.some.injEq] at hb
        have hnl : bt.nestingLevel = tb.nestingLevel := by rw [← hb]
        have : nlInv tb := by
          refine tbVisitNodes_nlInv forest [scopeApply forest] none 0 ⟨[], [], [], []⟩ tb htb ?_
          intro k v hv
          simp [aget] at hv
        exact this k v (hnl ▸ hv)

theorem c1_witness : 1 ≤ 1 := by
  refine c1_amended_nesting_levels.2 noMatch nest3Forest
    ((Ng.bind noMatch (some nest3Forest)).get (by decide)) 1 1 ?_ ?_
  · exact (Option.some_get _).symm
  · rfl

/-! ### Claim C2: shadowing in the merged entities-in-scope sets -/

/-- Keys of an association list are pairwise distinct. -/
def NodupKeys {K V : Type} (m : List (K × V)) : Prop := (m.map Prod.fst).Nodup

/-- Last-entry lookup (the entry that survives `new Map(pairs)`). -/
def agetLast {K V : Type} [DecidableEq K] : List (K × V) → K → Option V
  | [], _ => none
  | (k', v) :: rest, k =>
      match agetLast rest k with
      | some w => some w
      | none => if k' = k then some v else none

theorem aget_of_not_mem_keys {K V : Type} [DecidableEq K] (l : List (K × V)) (k : K)
    (h : k ∉ l.map Prod.fst) : aget l k = none := by
  induction l with
  | nil => rfl
  | cons hd tl ih =>
      obtain ⟨k', v⟩ := hd
      simp only [List.map_cons, List.mem_cons] at h
      push_neg at h
      have hne : ¬ k' = k := fun heq => h.1 heq.symm
      simp [aget, hne, ih h.2]

theorem aget_foldl_aset {K V : Type} [DecidableEq K] (l : List (K × V)) (m0 : List (K × V))
    (k : K) :
    aget (l.foldl (fun m kv => aset m kv.1 kv.2) m0) k =
      match agetLast l k with
      | some w => some w
      | none => aget m0 k := by
  induction l generalizing m0 with
  | nil => rfl
  | cons hd tl ih =>
      obtain ⟨k', v⟩ := hd
      rw [List.foldl_cons]
      rw [ih (aset m0 k' v)]
      show _ = (match (match agetLast tl k with
        | some w => some w
        | none => if k' = k then some v else none) with
        | some w => some w
        | none => aget m0 k)
      cases agetLast tl k with
      | some w => rfl
      | none =>
          by_cases hk : k' = k
          · subst hk
            simp [aget_aset_self]
          · simp [hk, aget_aset_ne m0 k' k v hk]

theorem agetLast_append {K V : Type} [DecidableEq K] (a b : List (K × V)) (k : K) :
    agetLast (a ++ b) k =
      match agetLast b k with
      | some w => some w
      | none => agetLast a k := by
  induction a with
  | nil =>
      rw [List.nil_append]
      cases h : agetLast b k <;> simp [h, agetLast]
  | cons hd tl ih =>
      obtain ⟨k', v⟩ := hd
      rw [List.cons_append]
      show (match agetLast (tl ++ b) k with
        | some w => some w
        | none => if k' = k then some v else none) = _
      rw [ih]
      cases agetLast b k with
      | some w => rfl
      | none => rfl

theorem agetLast_eq_aget_of_nodup {K V : Type} [DecidableEq K] (l : List (K × V)) (k : K)
    (h : NodupKeys l) : agetLast l k = aget l k := by
  induction l with
  | nil => rfl
  | cons hd tl ih =>
      obtain ⟨k', v⟩ := hd
      unfold NodupKeys at h
      simp only [List.map_cons, List.nodup_cons] at h
      show (match agetLast tl k with
        | some w => some w
        | none => if k' = k then some v else none) = aget ((k', v) :: tl) k
      rw [ih h.2]
      by_cases hk : k' = k
      · subst hk
        rw [aget_of_not_mem_keys tl k' h.1]
        simp [aget]
      · simp only [aget, hk, if_false]
        cases aget tl k <;> rfl

/-- C2 counterexample to the original claim: when a child template
redeclares a name declared by a parent template, the merged
entities-in-scope set of the child contains only the child's entity; the
parent's entity for that name is removed from the merged map (the merge is
keyed by name, and `new Map([...parent, ...child])` lets the child's entry
overwrite the parent's). -/
def shadowForest : List RNode :=
  [.template 10 "ng-template" [] [] [] []
    [.template 11 "ng-template" [] [] [] [] [] [] [⟨101, "item", "$implicit"⟩]]
    [] [⟨100, "item", "$implicit"⟩]]

theorem c2_counterexample :
    (Ng.bind noMatch (some shadowForest)).map
        (fun bt => bt.getEntitiesInTemplateScope (some 11)) =
      some [Entity.var ⟨101, "item", "$implicit"⟩] ∧
      ¬ Entity.var ⟨100, "item", "$implicit"⟩ ∈
        ((Ng.bind noMatch (some shadowForest)).map
          (fun bt => bt.getEntitiesInTemplateScope (some 11))).getD [] :=
  ⟨rfl, by decide⟩

/-- C2 amended: in the merged entity map of a child scope, the child's
entity takes precedence and replaces the parent's entry of the same name
(the parent's entry is removed from the merged map); names not redeclared by
the child keep the parent's entity. -/
theorem c2_amended_merged_entities (parentMerged es : List (String × Entity))
    (h1 : NodupKeys parentMerged) (h2 : NodupKeys es) (name : String) :
    aget (scopeMergedEntities parentMerged es) name =
      match aget es name with
      | some e => some e
      | none => aget parentMerged name := by
  unfold scopeMergedEntities mapOfPairs
  rw [aget_foldl_aset, agetLast_append, agetLast_eq_aget_of_nodup parentMerged name h1,
    agetLast_eq_aget_of_nodup es name h2]
  cases aget es name with
  | some e => rfl
  | none => cases aget parentMerged name <;> rfl

theorem c2_witness :
    aget (scopeMergedEntities [("item", Entity.var ⟨100, "item", "$implicit"⟩)]
        [("item", Entity.var ⟨101, "item", "$implicit"⟩)]) "item" =
      some (Entity.var ⟨101, "item", "$implicit"⟩) :=
  (c2_amended_merged_entities [("item", Entity.var ⟨100, "item", "$implicit"⟩)]
    [("item", Entity.var ⟨101, "item", "$implicit"⟩)]
    (by simp [NodupKeys]) (by simp [NodupKeys]) "item").trans (by rfl)

/-! ### Claim C4: `bind` throws exactly when the target has no template -/

mutual

/-- The `Template` nodes of a forest that are not nested inside another
`Template` (the templates whose child scopes the current scope records). -/
def topTemplates : RNode → List RNode
  | .element _ _ _ _ _ children _ => topTemplatesL children
  | .template nid tag attrs ins outs tas children refs varDecls =>
      [.template nid tag attrs ins outs tas children refs varDecls]
  | _ => []

def topTemplatesL : List RNode → List RNode
  | [] => []
  | n :: rest => topTemplates n ++ topTemplatesL rest

end

mutual

/-- Identities of all `Template` nodes anywhere in a subtree. -/
def allTemplateNids : RNode → List Nat
  | .element _ _ _ _ _ children _ => allTemplateNidsL children
  | .template nid _ _ _ _ _ children _ _ => nid :: allTemplateNidsL children
  | _ => []

def allTemplateNidsL : List RNode → List Nat
  | [] => []
  | n :: rest => allTemplateNids n ++ allTemplateNidsL rest

end

/-- The inner scope that the `Scope` pass constructs for a `Template` node
(declare its variables, then ingest its children). -/
def templateScope : RNode → ScopeData
  | .template _ _ _ _ _ _ children _ varDecls =>
      scopeIngestNodes (.mk (varDecls.foldl (fun m v => maybeDeclare m (.var v)) []) [])
        children
  | _ => emptyScope

mutual

theorem topNids_subset_allNids : ∀ (n : RNode) (k : Nat),
    k ∈ (topTemplates n).map RNode.nid → k ∈ allTemplateNids n
  | .element _ _ _ _ _ children _, k => by
      intro h
      simp only [topTemplates, allTemplateNids]
      exact topNidsL_subset_allNidsL children k h
  | .template nid tag attrs ins outs tas children refs varDecls, k => by
      intro h
      simp only [topTemplates, List.map_cons, List.map_nil, List.mem_singleton] at h
      simp [allTemplateNids, h, RNode.nid]
  | .content _, k => by intro h; simp [topTemplates] at h
  | .text _, k => by intro h; simp [topTemplates] at h
  | .boundText _ _, k => by intro h; simp [topTemplates] at h
  | .icu _ _ _, k => by intro h; simp [topTemplates] at h

theorem topNidsL_subset_allNidsL : ∀ (ns : List RNode) (k : Nat),
    k ∈ (topTemplatesL ns).map RNode.nid → k ∈ allTemplateNidsL ns
  | [], k => by intro h; simp [topTemplatesL] at h
  | n :: rest, k => by
      intro h
      simp only [topTemplatesL, List.map_append, List.mem_append] at h
      simp only [allTemplateNidsL, List.mem_append]
      cases h with
      | inl h => exact Or.inl (topNids_subset_allNids n k h)
      | inr h => exact Or.inr (topNidsL_subset_allNidsL rest k h)

end

mutual

theorem scopeVisitNode_untouched : ∀ (n : RNode) (s : ScopeData) (k : Nat),
    k ∉ (topTemplates n).map RNode.nid →
    aget (scopeVisitNode s n).childScopes k = aget s.childScopes k
  | .element nid name attrs ins outs children refs, s, k => by
      intro h
      simp only [topTemplates] at h
      simp only [scopeVisitNode]
      exact scopeIngestNodes_untouched children _ k h
  | .template nid tag attrs ins outs tas children refs varDecls, s, k => by
      intro h
      simp only [topTemplates, List.map_cons, List.map_nil, List.mem_singleton, RNode.nid] at h
      simp only [scopeVisitNode, ScopeData.childScopes]
      exact aget_aset_ne _ nid k _ (fun heq => h heq.symm)
  | .content _, s, k => fun _ => rfl
  | .text _, s, k => fun _ => rfl
  | .boundText _ _, s, k => fun _ => rfl
  | .icu _ _ _, s, k => fun _ => rfl

theorem scopeIngestNodes_untouched : ∀ (ns : List RNode) (s : ScopeData) (k : Nat),
    k ∉ (topTemplatesL ns).map RNode.nid →
    aget (scopeIngestNodes s ns).childScopes k = aget s.childScopes k
  | [], s, k => fun _ => rfl
  | n :: rest, s, k => by
      intro h
      simp only [topTemplatesL, List.map_append, List.mem_append] at h
      push_neg at h
      simp only [scopeIngestNodes]
      rw [scopeIngestNodes_untouched rest _ k h.2, scopeVisitNode_untouched n s k h.1]

end

mutual

theorem scope_covers_node : ∀ (n : RNode) (s : ScopeData),
    (allTemplateNids n).Nodup →
    ∀ t ∈ topTemplates n, aget (scopeVisitNode s n).childScopes t.nid = some (templateScope t)
  | .element nid name attrs ins outs children refs, s => by
      intro hnd t ht
      simp only [topTemplates] at ht
      simp only [allTemplateNids] at hnd
      simp only [scopeVisitNode]
      exact scope_covers children _ hnd t ht
  | .template nid tag attrs ins outs tas children refs varDecls, s => by
      intro hnd t ht
      simp only [topTemplates, List.mem_singleton] at ht
      subst ht
      simp only [scopeVisitNode, ScopeData.childScopes, RNode.nid]
      rw [aget_aset_self]
      rfl
  | .content _, s => by intro _ t ht; simp [topTemplates] at ht
  | .text _, s => by intro _ t ht; simp [topTemplates] at ht
  | .boundText _ _, s => by intro _ t ht; simp [topTemplates] at ht
  | .icu _ _ _, s => by intro _ t ht; simp [topTemplates] at ht

theorem scope_covers : ∀ (ns : List RNode) (s : ScopeData),
    (allTemplateNidsL ns).Nodup →
    ∀ t ∈ topTemplatesL ns, aget (scopeIngestNodes s ns).childScopes t.nid = some (templateScope t)
  | [], s => by intro _ t ht; simp [topTemplatesL] at ht
  | n :: rest, s => by
      intro hnd t ht
      simp only [allTemplateNidsL, List.nodup_append] at hnd
      obtain ⟨hnd1, hnd2, hdisj⟩ := hnd
      simp only [topTemplatesL, List.mem_append] at ht
      simp only [scopeIngestNodes]
      cases ht with
      | inl ht =>
          have hmem : t.nid ∈ allTemplateNids n :=
            topNids_subset_allNids n t.nid (List.mem_map_of_mem RNode.nid ht)
          have hnot : t.nid ∉ (topTemplatesL rest).map RNode.nid := by
            intro hc
            exact hdisj hmem (topNidsL_subset_allNidsL rest t.nid hc)
          rw [scopeIngestNodes_untouched rest _ t.nid hnot]
          exact scope_covers_node n s hnd1 t ht
      | inr ht => exact scope_covers rest _ hnd2 t ht

end

mutual

theorem tbVisitNode_total : ∀ (n : RNode) (s : ScopeData) (restScopes : List ScopeData)
    (tmpl : Option Nat) (level : Nat) (st : TBState),
    (allTemplateNids n).Nodup →
    (∀ t ∈ topTemplates n, aget s.childScopes t.nid = some (templateScope t)) →
    (tbVisitNode (s :: restScopes) tmpl level st n).isSome
  | .element nid name attrs ins outs children refs, s, restScopes, tmpl, level, st => by
      intro hnd hcov
      simp only [allTemplateNids] at hnd
      simp only [topTemplates] at hcov
      simp only [tbVisitNode]
      exact tbVisitNodes_total children s restScopes tmpl level _ hnd hcov
  | .template nid tag attrs ins outs tas children refs varDecls, s, restScopes,
      tmpl, level, st => by
      intro hnd hcov
      simp only [allTemplateNids, List.nodup_cons] at hnd
      have hch := hcov (.template nid tag attrs ins outs tas children refs varDecls)
        (by simp [topTemplates])
      simp only [RNode.nid] at hch
      simp only [tbVisitNode]
      rw [hch]
      simp only [templateScope]
      have hrec := tbVisitNodes_total children
        (scopeIngestNodes (.mk (varDecls.foldl (fun m v => maybeDeclare m (.var v)) []) [])
          children) (s :: restScopes) (some nid) (level + 1)
        (varDecls.foldl (fun st v => tbVisitSymbol (some nid) st v.nid)
          (refs.foldl (fun st r => tbVisitSymbol tmpl st r.nid)
            (tas.foldl (fun st ta =>
              match ta with
              | .textA _ => st
              | .boundA a => tbVisitAst (s :: restScopes) st a.value)
              (outs.foldl (fun st e => tbVisitAst (s :: restScopes) st e.handler)
                (ins.foldl (fun st a => tbVisitAst (s :: restScopes) st a.value) st)))))
        hnd.2 (scope_covers children _ hnd.2)
      obtain ⟨st2, hst2⟩ := Option.isSome_iff_exists.mp hrec
      rw [hst2]
      rfl
  | .content _, s, restScopes, tmpl, level, st => fun _ _ => rfl
  | .text _, s, restScopes, tmpl, level, st => fun _ _ => rfl
  | .boundText _ _, s, restScopes, tmpl, level, st => fun _ _ => rfl
  | .icu _ _ _, s, restScopes, tmpl, level, st => fun _ _ => rfl

theorem tbVisitNodes_total : ∀ (ns : List RNode) (s : ScopeData) (restScopes : List ScopeData)
    (tmpl : Option Nat) (level : Nat) (st : TBState),
    (allTemplateNidsL ns).Nodup →
    (∀ t ∈ topTemplatesL ns, aget s.childScopes t.nid = some (templateScope t)) →
    (tbVisitNodes (s :: restScopes) tmpl level st ns).isSome
  | [], s, restScopes, tmpl, level, st => fun _ _ => rfl
  | n :: rest, s, restScopes, tmpl, level, st => by
      intro hnd hcov
      simp only [allTemplateNidsL, List.nodup_append] at hnd
      obtain ⟨hnd1, hnd2, _⟩ := hnd
      simp only [topTemplatesL] at hcov
      have h1 := tbVisitNode_total n s restScopes tmpl level st hnd1
        (fun t ht => hcov t (List.mem_append_left _ ht))
      obtain ⟨st1, hst1⟩ := Option.isSome_iff_exists.mp h1
      simp only [tbVisitNodes]
      rw [hst1]
      exact tbVisitNodes_total rest s restScopes tmpl level st1 hnd2
        (fun t ht => hcov t (List.mem_append_right _ ht))

end

/-- C4: `R3TargetBinder.bind` fails (throws) exactly when the `Target` has no
template; for every target that does have a template forest — whatever its
content: unresolved references, unclaimed bindings, shadowed names — `bind`
returns a bound target and never fails; in particular the `getChildScope`
assertion inside the template-binding pass is unreachable.  The hypothesis
that template node identities are pairwise distinct is the embedding of
JavaScript object identity: distinct `Template` objects are distinct map
keys. -/
theorem c4_bind_totality (matcher : Matcher) (target : Option (List RNode))
    (h : ∀ f, target = some f → (allTemplateNidsL f).Nodup) :
    (Ng.bind matcher target).isSome ↔ target.isSome := by
  cases target with
  | none => simp [bind]
  | some f =>
      simp only [Option.isSome_some, iff_true]
      unfold bind
      have htb : (tbApplyWithScope f (scopeApply f)).isSome := by
        unfold tbApplyWithScope scopeApply
        exact tbVisitNodes_total f (scopeIngestNodes emptyScope f) [] none 0 ⟨[], [], [], []⟩
          (h f rfl) (scope_covers f emptyScope (h f rfl))
      obtain ⟨tb, htb'⟩ := Option.isSome_iff_exists.mp htb
      simp only
      rw [htb']
      rfl

theorem c4_witness :
    (allTemplateNidsL shadowForest).Nodup ∧ (Ng.bind noMatch (some shadowForest)).isSome :=
  ⟨by decide,
    (c4_bind_totality noMatch (some shadowForest)
      (fun f hf => by injection hf with h; rw [← h]; decide)).mpr rfl⟩

/-! ### Expression parser: character-level scanning (`parser.ts`)

The scanners work on `List Char` (the JavaScript string's characters);
`String` values are converted with `.data`. -/

/-- Modelled from the spec: `chars.isQuote` of `chars.ts` (not among the
provided sources): single quote, double quote, or backtick. -/
def isQuote (c : Char) : Bool :=
  c = '\'' || c = '"' || c = '\x60'

/-- JavaScript `input.startsWith(pat, pos)`. -/
def startsWithAt (input pat : List Char) (pos : Nat) : Bool :=
  pat.isPrefixOf (input.drop pos)

def indexOfGo (pat : List Char) : List Char → Nat → Option Nat
  | [], i => if pat = [] then some i else none
  | c :: rest, i =>
      if pat.isPrefixOf (c :: rest) then some i else indexOfGo pat rest (i + 1)

/-- JavaScript `input.indexOf(pat, from)`; `none` models `-1`. -/
def jsIndexOf (input pat : List Char) (from0 : Nat) : Option Nat :=
  indexOfGo pat (input.drop from0) from0

/-- Embeds the generator `Parser._forEachUnquotedChar` (lines 411–426): the
indices of the characters outside of quotes, accounting for escape
characters; a quote character toggles the current quote when it matches the
outermost one and is not escaped. -/
def unquotedCharsGo : List Char → Nat → Option Char → Nat → List Nat
  | [], _, _, _ => []
  | c :: rest, i, currentQuote, escapeCount =>
      let nextEscape := if c = '\\' then escapeCount + 1 else 0
      if isQuote c ∧ (currentQuote = none ∨ currentQuote = some c) ∧ escapeCount % 2 = 0 then
        unquotedCharsGo rest (i + 1)
          (match currentQuote with
           | none => some c
           | some _ => none) nextEscape
      else if currentQuote = none then
        i :: unquotedCharsGo rest (i + 1) currentQuote nextEscape
      else
        unquotedCharsGo rest (i + 1) currentQuote nextEscape

def forEachUnquotedChar (input : List Char) (start : Nat) : List Nat :=
  unquotedCharsGo (input.drop start) start none 0

/-- Embeds `Parser._getInterpolationEndIndex` (lines 381–395): scan the
unquoted characters from `start` for the end delimiter; after a `//` line
comment, look directly (by `indexOf`) for the end delimiter.  `none` models
`-1`. -/
def getInterpolationEndIndexGo (input expressionEnd : List Char) : List Nat → Option Nat
  | [] => none
  | charIndex :: rest =>
      if startsWithAt input expressionEnd charIndex then some charIndex
      else if startsWithAt input ['/', '/'] charIndex then jsIndexOf input expressionEnd charIndex
      else getInterpolationEndIndexGo input expressionEnd rest

def getInterpolationEndIndex (input expressionEnd : List Char) (start : Nat) : Option Nat :=
  getInterpolationEndIndexGo input expressionEnd (forEachUnquotedChar input start)

/-- Embeds the scanning loop of `Parser._checkNoInterpolation` (lines
349–365), returning the final `startIndex` and `endIndex` (with `none` for
`-1`).  Note the condition on the start delimiter is
`input.startsWith(start)` — with no position argument, so it tests the
beginning of the whole input, not the current character index. -/
def checkNoInterpolationGo (input istart iend : List Char) :
    List Nat → Option Nat → Option Nat → Option Nat × Option Nat
  | [], si, ei => (si, ei)
  | charIndex :: rest, si, ei =>
      match si with
      | none =>
          checkNoInterpolationGo input istart iend rest
            (if startsWithAt input istart 0 then some charIndex else none) ei
      | some s =>
          match getInterpolationEndIndex input iend charIndex with
          | some e => (some s, some e)
          | none => checkNoInterpolationGo input istart iend rest (some s) none

/-- A structured parse error (`ParserError` of `expression_parser/ast.ts`,
modelled from the spec §6: `{message, offendingInput, errorLocationText,
contextLocationText}`). -/
structure ParserError where
  message : String
  input : String
  errLocation : String
  ctxLocation : Option String
deriving DecidableEq

/-- The interpolation delimiter pair; the default is `{{` / `}}` (modelled
from the spec: `InterpolationConfig` of `ml_parser/interpolation_config.ts`
is not among the provided sources). -/
structure InterpolationConfig where
  start : String
  endD : String

def defaultInterpolationConfig : InterpolationConfig := ⟨"\x7b\x7b", "\x7d\x7d"⟩

/-- Embeds `Parser._checkNoInterpolation` (lines 349–372): the produced
errors (one if both indices were found, none otherwise). -/
def checkNoInterpolation (cfg : InterpolationConfig) (input : String) (location : String) :
    List ParserError :=
  match checkNoInterpolationGo input.data cfg.start.data cfg.endD.data
      (forEachUnquotedChar input.data 0) none none with
  | (some si, some _) =>
      [⟨"Got interpolation (" ++ cfg.start ++ cfg.endD ++ ") where expression was expected",
        input, "at column " ++ toString si ++ " in", some location⟩]
  | _ => []

/-- Embeds `Parser._commentStart` (lines 332–347). -/
def commentStartGo : List Char → Nat → Option Char → Option Nat
  | c :: next :: rest, i, outerQuote =>
      if c = '/' ∧ next = '/' ∧ outerQuote = none then some i
      else
        commentStartGo (next :: rest) (i + 1)
          (if outerQuote = some c then none
           else if outerQuote = none ∧ isQuote c then some c
           else outerQuote)
  | _, _, _ => none

def commentStart (input : List Char) : Option Nat := commentStartGo input 0 none

/-- Embeds `Parser._stripComments` (lines 327–330). -/
def stripComments (input : String) : String :=
  match commentStart input.data with
  | some i => ⟨input.data.take i⟩
  | none => input

/-- C5 (code bug): `parseAction`/`parseBinding` guard against literal
interpolation through `_checkNoInterpolation`, but its scanning loop tests
`input.startsWith(start)` without the position argument, so an interpolation
pair appearing anywhere but at the very beginning of the input — such as
`a \x7b\x7bb\x7d\x7d` with the default delimiters, unquoted and
uncommented — produces no error, while the claim (and the evidently
intended per-index check the loop's yielded `charIndex` was meant for)
requires one.  An input that begins with the start delimiter does produce
the error. -/
theorem c5_checkNoInterpolation_bug :
    checkNoInterpolation defaultInterpolationConfig "a \x7b\x7bb\x7d\x7d" "loc" = [] ∧
      checkNoInterpolation defaultInterpolationConfig "\x7b\x7ba\x7d\x7d" "loc" =
        [⟨"Got interpolation (\x7b\x7b\x7d\x7d) where expression was expected",
          "\x7b\x7ba\x7d\x7d", "at column 0 in", some "loc"⟩] :=
  ⟨rfl, rfl⟩

/-! ### Tokens and the lexer

Modelled from the spec: `expression_parser/lexer.ts` is not among the
provided sources.  The spec (§3) fixes the token model: a lexical unit with
a type (identifier, keyword, operator, number, string, character, error)
and a position; `parser.ts` additionally fixes the `Token` API it consumes
(`index`, `end`, the predicates, `toString`, `toNumber`) and that `EOF` is a
sentinel character token with index `-1`.  The scanner below produces those
token classes with faithful positions; numeric literals are modelled as
natural numbers and escape sequences in string literals are kept verbatim
(no claim involves either). -/

inductive TokenType where
  | character
  | identifier
  | privateIdentifier
  | keyword
  | strTok
  | operator
  | number
  | errorTok
deriving DecidableEq

structure Token where
  index : Int
  endIdx : Int
  type : TokenType
  numValue : Nat
  strValue : String
deriving DecidableEq

def EOFTok : Token := ⟨-1, -1, .character, 0, ""⟩

def Token.isCharacter (t : Token) (code : Char) : Bool :=
  t.type = .character && t.numValue = code.toNat

def Token.isNumber (t : Token) : Bool := t.type = .number

def Token.isString (t : Token) : Bool := t.type = .strTok

def Token.isOperator (t : Token) (op : String) : Bool :=
  t.type = .operator && t.strValue = op

def Token.isIdentifier (t : Token) : Bool := t.type = .identifier

def Token.isPrivateIdentifier (t : Token) : Bool := t.type = .privateIdentifier

def Token.isKeyword (t : Token) : Bool := t.type = .keyword

def Token.isKeywordLet (t : Token) : Bool := t.type = .keyword && t.strValue = "let"

def Token.isKeywordAs (t : Token) : Bool := t.type = .keyword && t.strValue = "as"

def Token.isKeywordNull (t : Token) : Bool := t.type = .keyword && t.strValue = "null"

def Token.isKeywordUndefined (t : Token) : Bool :=
  t.type = .keyword && t.strValue = "undefined"

def Token.isKeywordTrue (t : Token) : Bool := t.type = .keyword && t.strValue = "true"

def Token.isKeywordFalse (t : Token) : Bool := t.type = .keyword && t.strValue = "false"

def Token.isKeywordThis (t : Token) : Bool := t.type = .keyword && t.strValue = "this"

def Token.isError (t : Token) : Bool := t.type = .errorTok

def Token.toNumber (t : Token) : Nat := if t.type = .number then t.numValue else 0

/-- JavaScript `Token.toString()` as used in error messages. -/
def Token.str (t : Token) : String :=
  match t.type with
  | .number => toString t.numValue
  | _ => t.strValue

def lexKeywords : List String :=
  ["var", "let", "as", "null", "undefined", "true", "false", "if", "else", "this"]

def isIdentStart (c : Char) : Bool := c.isAlpha || c = '_' || c = '$'

def isIdentPart (c : Char) : Bool := c.isAlphanum || c = '_' || c = '$'

def charTokenChars : List Char :=
  ['(', ')', '\x7b', '\x7d', '[', ']', ',', ':', ';', '.']

/-- Operators, longest first, so that scanning takes the longest match. -/
def lexOperators : List String :=
  ["===", "!==", "==", "!=", "<=", ">=", "&&", "||", "??", "?.",
   "+", "-", "*", "/", "%", "^", "=", "<", ">", "!", "|", "&", "?"]

def digitsToNat (l : List Char) : Nat :=
  l.foldl (fun n ch => n * 10 + (ch.toNat - 48)) 0

/-- Scan a string literal after its opening quote: returns the contents and
the number of characters consumed including the closing quote, or `none`
when the literal is unterminated. -/
def scanStringGo (quote : Char) : List Char → List Char → Nat → Option (String × Nat)
  | [], _, _ => none
  | ch :: rest, acc, n =>
      if ch = quote then some (String.mk acc.reverse, n + 1)
      else if ch = '\\' then
        match rest with
        | [] => none
        | e :: rest' => scanStringGo quote rest' (e :: '\\' :: acc) (n + 2)
      else scanStringGo quote rest (ch :: acc) (n + 1)

def matchOperatorAt (cs : List Char) : Option String :=
  lexOperators.find? (fun op => op.data.isPrefixOf cs)

def lexGoF : Nat → List Char → Nat → List Token
  | 0, _, _ => []
  | _, [], _ => []
  | fuel + 1, c :: rest, i =>
      if c.toNat ≤ 32 then lexGoF fuel rest (i + 1)
      else if isIdentStart c then
        let identChars := c :: rest.takeWhile isIdentPart
        let n := identChars.length
        let sv := String.mk identChars
        let tt : TokenType := if sv ∈ lexKeywords then .keyword else .identifier
        ⟨i, (i : Int) + n, tt, 0, sv⟩ :: lexGoF fuel (rest.drop (n - 1)) (i + n)
      else if c.isDigit then
        let digitChars := c :: rest.takeWhile Char.isDigit
        let n := digitChars.length
        ⟨i, (i : Int) + n, .number, digitsToNat digitChars, ""⟩ ::
          lexGoF fuel (rest.drop (n - 1)) (i + n)
      else if c ∈ charTokenChars then
        ⟨i, (i : Int) + 1, .character, c.toNat, String.singleton c⟩ ::
          lexGoF fuel rest (i + 1)
      else if c = '#' then
        let identChars := c :: rest.takeWhile isIdentPart
        let n := identChars.length
        ⟨i, (i : Int) + n, .privateIdentifier, 0, String.mk identChars⟩ ::
          lexGoF fuel (rest.drop (n - 1)) (i + n)
      else if isQuote c then
        match scanStringGo c rest [] 0 with
        | some (content, consumed) =>
            ⟨i, (i : Int) + 1 + consumed, .strTok, 0, content⟩ ::
              lexGoF fuel (rest.drop consumed) (i + 1 + consumed)
        | none =>
            [⟨i, (i : Int) + 1 + rest.length, .errorTok, 0, "Unterminated quote"⟩]
      else
        match matchOperatorAt (c :: rest) with
        | some op =>
            let n := op.length
            ⟨i, (i : Int) + n, .operator, 0, op⟩ ::
              lexGoF fuel (rest.drop (n - 1)) (i + n)
        | none =>
            ⟨i, (i : Int) + 1, .errorTok, 0,
              "Unexpected character [" ++ String.singleton c ++ "]"⟩ ::
              lexGoF fuel rest (i + 1)

/-- Every scanning step consumes at least one character, so a fuel of
`length + 1` always completes the scan. -/
def tokenize (input : String) : List Token := lexGoF (input.data.length + 1) input.data 0

/-! ### The `_ParseAST` state

The class fields of `_ParseAST` split into the immutable construction
arguments (`PCtx`: input, location, absoluteOffset, tokens, parseFlags,
offset) and the mutable cursor state (`PState`: index, the expected-closer
counts, the `Writable` context bit, and the error list).  The shared
`Parser.errors` array is write-only during parsing, so it is threaded as an
accumulator that starts empty in each `_ParseAST` and is appended to the
`Parser`-level list by the wrapper operations (the standard writer reading
of a push-only shared array).  The `sourceSpanCache` is a pure memoisation
(the serial key determines the computed span) and is dropped. -/

structure PCtx where
  input : String
  location : String
  absoluteOffset : Int
  tokens : List Token
  flagAction : Bool
  flagAssignmentEvent : Bool
  offset : Int

structure PState where
  index : Nat
  rparensExpected : Nat
  rbracketsExpected : Nat
  rbracesExpected : Nat
  ctxWritable : Bool
  errors : List ParserError
deriving DecidableEq

def initPState : PState := ⟨0, 0, 0, 0, false, []⟩

/-- Embeds `_ParseAST.peek`; the JavaScript guard is only `i < tokens.length`
(negative `i` is unreachable: `peek(-1)` is called only behind
`index > 0`). -/
def peekT (ctx : PCtx) (st : PState) (offset : Int) : Token :=
  let i : Int := (st.index : Int) + offset
  if 0 ≤ i ∧ i < ctx.tokens.length then ctx.tokens.getD i.toNat EOFTok else EOFTok

def nextT (ctx : PCtx) (st : PState) : Token := peekT ctx st 0

def atEOF (ctx : PCtx) (st : PState) : Bool := ctx.tokens.length ≤ st.index

/-- Embeds `_ParseAST.currentEndIndex`. -/
def currentEndIndex (ctx : PCtx) (st : PState) : Int :=
  if 0 < st.index then (peekT ctx st (-1)).endIdx + ctx.offset
  else if ctx.tokens.length = 0 then (ctx.input.length : Int) + ctx.offset
  else (nextT ctx st).index + ctx.offset

/-- Embeds `_ParseAST.inputIndex`. -/
def inputIndex (ctx : PCtx) (st : PState) : Int :=
  if atEOF ctx st then currentEndIndex ctx st else (nextT ctx st).index + ctx.offset

/-- Embeds `_ParseAST.currentAbsoluteOffset`. -/
def currentAbsoluteOffset (ctx : PCtx) (st : PState) : Int :=
  ctx.absoluteOffset + inputIndex ctx st

/-- Embeds `_ParseAST.span` (lines 546–565): an artificial end index is used
when provided and greater than the natural one; when the computed start
exceeds the end index the two are swapped (the documented workaround). -/
def pSpan (ctx : PCtx) (st : PState) (start : Int) (artificialEndIndex : Option Int) :
    ParseSpan :=
  let endIndex := currentEndIndex ctx st
  let endIndex :=
    match artificialEndIndex with
    | some a => if a > endIndex then a else endIndex
    | none => endIndex
  if start > endIndex then ⟨endIndex, start⟩ else ⟨start, endIndex⟩

/-- Embeds `_ParseAST.sourceSpan`: `span(start, artificialEndIndex)`
shifted to the absolute offset (the `sourceSpanCache` only memoises this
value, keyed by data that determines it). -/
def pSourceSpan (ctx : PCtx) (st : PState) (start : Int) (artificialEndIndex : Option Int) :
    AbsoluteSourceSpan :=
  (pSpan ctx st start artificialEndIndex).toAbsolute ctx.absoluteOffset

def advance (st : PState) : PState := { st with index := st.index + 1 }

def consumeOptionalCharacter (ctx : PCtx) (st : PState) (code : Char) : Bool × PState :=
  if (nextT ctx st).isCharacter code then (true, advance st) else (false, st)

def consumeOptionalOperator (ctx : PCtx) (st : PState) (op : String) : Bool × PState :=
  if (nextT ctx st).isOperator op then (true, advance st) else (false, st)

def peekKeywordLet (ctx : PCtx) (st : PState) : Bool := (nextT ctx st).isKeywordLet

def peekKeywordAs (ctx : PCtx) (st : PState) : Bool := (nextT ctx st).isKeywordAs

/-- Embeds `_ParseAST.locationText`; the JavaScript bound is only
`index < tokens.length` (a negative index does not occur: the only caller
passing an explicit index passes a span end, which is non-negative). -/
def locationText (ctx : PCtx) (st : PState) (indexO : Option Int) : String :=
  let index : Int := indexO.getD st.index
  if 0 ≤ index ∧ index < ctx.tokens.length then
    "at column " ++ toString ((ctx.tokens.getD index.toNat EOFTok).index + 1) ++ " in"
  else "at the end of the expression"

def skipCond (ctx : PCtx) (st : PState) : Bool :=
  let n := nextT ctx st
  decide (st.index < ctx.tokens.length) && !n.isCharacter ';' && !n.isOperator "|" &&
    (decide (st.rparensExpected = 0) || !n.isCharacter ')') &&
    (decide (st.rbracesExpected = 0) || !n.isCharacter '\x7d') &&
    (decide (st.rbracketsExpected = 0) || !n.isCharacter ']') &&
    (!st.ctxWritable || !n.isOperator "=")

theorem skipCond_index_lt (ctx : PCtx) (st : PState) (h : skipCond ctx st = true) :
    st.index < ctx.tokens.length := by
  simp only [skipCond, Bool.and_eq_true, decide_eq_true_eq] at h
  exact h.1.1.1.1.1.1

/-- Embeds the loop of `_ParseAST.skip` (lines 1498–1512): skip tokens until
a recovery point, recording an error for every error token passed over.
The fuel only bounds the iteration count; `skipGoF_adequate` shows the
bound used by `skipGo` always reaches the loop's exit condition. -/
def skipGoF (ctx : PCtx) : Nat → PState → PState
  | 0, st => st
  | fuel + 1, st =>
      if skipCond ctx st then
        let st1 :=
          if (nextT ctx st).isError then
            { st with errors := st.errors ++
                [⟨(nextT ctx st).str, ctx.input, locationText ctx st none,
                  some ctx.location⟩] }
          else st
        skipGoF ctx fuel (advance st1)
      else st

/-- Embeds `_ParseAST.skip`: each iteration advances the index, which stays
below the token count while the loop continues, so `tokens.length + 1`
iterations always reach the exit condition. -/
def skipGo (ctx : PCtx) (st : PState) : PState :=
  skipGoF ctx (ctx.tokens.length + 1) st

theorem skipGoF_adequate (ctx : PCtx) : ∀ (fuel : Nat) (st : PState),
    ctx.tokens.length - st.index < fuel → skipCond ctx (skipGoF ctx fuel st) = false := by
  intro fuel
  induction fuel with
  | zero => intro st h; omega
  | succ f ih =>
      intro st h
      unfold skipGoF
      by_cases hc : skipCond ctx st = true
      · have hlt := skipCond_index_lt ctx st hc
        simp only [hc, if_true]
        apply ih
        split <;> simp [advance] <;> omega
      · simp only [Bool.not_eq_true] at hc
        simp [hc]

/-- The skip loop always stops at a recovery point. -/
theorem skipGo_recovery (ctx : PCtx) (st : PState) :
    skipCond ctx (skipGo ctx st) = false := by
  apply skipGoF_adequate
  omega

/-- Embeds `_ParseAST.error`: record a structured error, then skip to a
recovery point. -/
def errorAndSkip (ctx : PCtx) (message : String) (indexO : Option Int) (st : PState) :
    PState :=
  skipGo ctx
    { st with errors := st.errors ++
        [⟨message, ctx.input, locationText ctx st indexO, some ctx.location⟩] }

def expectCharacter (ctx : PCtx) (code : Char) (st : PState) : PState :=
  let (ok, st) := consumeOptionalCharacter ctx st code
  if ok then st
  else errorAndSkip ctx ("Missing expected " ++ String.singleton code) none st

def expectOperator (ctx : PCtx) (op : String) (st : PState) : PState :=
  let (ok, st) := consumeOptionalOperator ctx st op
  if ok then st else errorAndSkip ctx ("Missing expected operator " ++ op) none st

/-- Embeds `prettyPrintToken`; the `tok === EOF` identity test holds exactly
for the sentinel (the lexer never produces a token with index `-1`). -/
def prettyPrintToken (tok : Token) : String :=
  if tok = EOFTok then "end of input" else "token " ++ tok.str

/-- Embeds `_reportErrorForPrivateIdentifier`. -/
def reportErrorForPrivateIdentifier (ctx : PCtx) (token : Token)
    (extraMessage : Option String) (st : PState) : PState :=
  errorAndSkip ctx
    ("Private identifiers are not supported. Unexpected private identifier: " ++ token.str ++
      (match extraMessage with
       | some m => ", " ++ m
       | none => "")) none st

/-- Embeds `expectIdentifierOrKeyword` (`null` modelled as `none`). -/
def expectIdentifierOrKeyword (ctx : PCtx) (st : PState) : Option String × PState :=
  let n := nextT ctx st
  if !n.isIdentifier && !n.isKeyword then
    if n.isPrivateIdentifier then
      (none, reportErrorForPrivateIdentifier ctx n (some "expected identifier or keyword") st)
    else
      (none, errorAndSkip ctx
        ("Unexpected " ++ prettyPrintToken n ++ ", expected identifier or keyword") none st)
  else (some n.str, advance st)

/-- Embeds `expectIdentifierOrKeywordOrString`. -/
def expectIdentifierOrKeywordOrString (ctx : PCtx) (st : PState) : String × PState :=
  let n := nextT ctx st
  if !n.isIdentifier && !n.isKeyword && !n.isString then
    if n.isPrivateIdentifier then
      ("", reportErrorForPrivateIdentifier ctx n
        (some "expected identifier, keyword or string") st)
    else
      ("", errorAndSkip ctx
        ("Unexpected " ++ prettyPrintToken n ++ ", expected identifier, keyword, or string")
        none st)
  else (n.str, advance st)

/-- Embeds `consumeOptionalAssignment` (lines 1108–1124). -/
def consumeOptionalAssignment (ctx : PCtx) (st : PState) : Bool × PState :=
  if ctx.flagAssignmentEvent && (nextT ctx st).isOperator "!" &&
      (peekT ctx st 1).isOperator "=" then
    (true, advance (advance st))
  else consumeOptionalOperator ctx st "="

/-- Embeds `consumeStatementTerminator`: an optional semicolon or comma. -/
def consumeStatementTerminator (ctx : PCtx) (st : PState) : PState :=
  let (c, st) := consumeOptionalCharacter ctx st ';'
  if c then st else (consumeOptionalCharacter ctx st ',').2

/-- JavaScript `input.substring(start, end)`: clamps both arguments to the
string bounds and swaps them when start exceeds end. -/
def jsSubstring (s : String) (a b : Int) : String :=
  let len : Int := s.length
  let a' := min (max a 0) len
  let b' := min (max b 0) len
  ⟨(s.data.take (max a' b').toNat).drop (min a' b').toNat⟩

/-- C9: every `ParseSpan` produced by `_ParseAST.span` — and hence the
relative span of every AST node the parser builds through it — satisfies
start ≤ end: when the computed start exceeds the end index, the two indices
are swapped before the span is constructed. -/
theorem c9_span_start_le_end (ctx : PCtx) (st : PState) (start : Int)
    (artificialEndIndex : Option Int) :
    (pSpan ctx st start artificialEndIndex).start ≤
      (pSpan ctx st start artificialEndIndex).endI := by
  unfold pSpan
  cases artificialEndIndex with
  | none =>
      dsimp only
      split <;> simp <;> omega
  | some a =>
      dsimp only
      split <;> (split <;> simp <;> omega)

/-! ### The recursive-descent grammar (`_ParseAST`, lines 672–1262)

The mutually recursive parse functions take a fuel argument, decremented at
every call, and return `none` when the fuel is exhausted; `c10_...` below
proves that sufficient fuel always exists, i.e. the functions as written
terminate.  `while`/`do-while` loops become recursive `...LoopF` functions
over the loop-carried variables.  AST nodes allocated by the parser carry
identity 0 (no parser claim concerns node identity). -/

def EAst.spanOf : EAst → ParseSpan
  | .emptyExpr span _ => span
  | .implicitReceiver span _ => span
  | .thisReceiver span _ => span
  | .literalPrimitive span _ _ => span
  | .propertyRead _ span _ _ _ _ => span
  | .propertyWrite _ span _ _ _ _ _ => span
  | .safePropertyRead _ span _ _ _ _ => span
  | .keyedRead span _ _ _ => span
  | .safeKeyedRead span _ _ _ => span
  | .keyedWrite span _ _ _ _ => span
  | .call span _ _ _ _ => span
  | .safeCall span _ _ _ _ => span
  | .nonNullAssert span _ _ => span
  | .prefixNot span _ _ => span
  | .unary span _ _ _ => span
  | .binary span _ _ _ _ => span
  | .conditional span _ _ _ _ => span
  | .chain span _ _ => span
  | .interpolation span _ _ _ => span
  | .bindingPipe span _ _ _ _ _ => span
  | .literalArray span _ _ => span
  | .literalMap span _ _ _ => span

def EAst.isEmptyExpr : EAst → Bool
  | .emptyExpr _ _ => true
  | _ => false

mutual

/-- Embeds `parseChain` (lines 672–707). -/
def parseChainF (ctx : PCtx) : Nat → PState → Option (EAst × PState)
  | 0, _ => none
  | fuel + 1, st =>
      let start := inputIndex ctx st
      match chainLoopF ctx fuel [] st with
      | none => none
      | some (exprs, st) =>
          match exprs with
          | [] =>
              let artificialStart := ctx.offset
              let artificialEnd := ctx.offset + ctx.input.length
              some (.emptyExpr (pSpan ctx st artificialStart (some artificialEnd))
                (pSourceSpan ctx st artificialStart (some artificialEnd)), st)
          | [e] => some (e, st)
          | _ =>
              some (.chain (pSpan ctx st start none) (pSourceSpan ctx st start none) exprs, st)

/-- The `while (this.index < this.tokens.length)` loop of `parseChain`:
parse one expression; consume semicolons (erroring outside action mode);
otherwise, when input remains, report the unexpected token and break when
error recovery did not advance the index. -/
def chainLoopF (ctx : PCtx) : Nat → List EAst → PState → Option (List EAst × PState)
  | 0, _, _ => none
  | fuel + 1, exprs, st =>
      if st.index < ctx.tokens.length then
        match parsePipeF ctx fuel st with
        | none => none
        | some (expr, st) =>
            let exprs := exprs ++ [expr]
            let (semi, st) := consumeOptionalCharacter ctx st ';'
            if semi then
              let st :=
                if !ctx.flagAction then
                  errorAndSkip ctx "Binding expression cannot contain chained expression" none st
                else st
              match semiSkipLoopF ctx fuel st with
              | none => none
              | some st => chainLoopF ctx fuel exprs st
            else if st.index < ctx.tokens.length then
              let errorIndex := st.index
              let st := errorAndSkip ctx
                ("Unexpected token '" ++ (nextT ctx st).str ++ "'") none st
              if st.index = errorIndex then some (exprs, st)
              else chainLoopF ctx fuel exprs st
            else chainLoopF ctx fuel exprs st
      else some (exprs, st)

/-- The `while (consumeOptionalCharacter(';')) {}` loop of `parseChain`. -/
def semiSkipLoopF (ctx : PCtx) : Nat → PState → Option PState
  | 0, _ => none
  | fuel + 1, st =>
      let (c, st) := consumeOptionalCharacter ctx st ';'
      if c then semiSkipLoopF ctx fuel st else some st

/-- Embeds `parsePipe` (lines 709–756). -/
def parsePipeF (ctx : PCtx) : Nat → PState → Option (EAst × PState)
  | 0, _ => none
  | fuel + 1, st =>
      let start := inputIndex ctx st
      match parseExpressionF ctx fuel st with
      | none => none
      | some (result, st) =>
          let (c, st) := consumeOptionalOperator ctx st "|"
          if c then
            let st :=
              if ctx.flagAction then
                errorAndSkip ctx "Cannot have a pipe in an action expression" none st
              else st
            pipeLoopF ctx fuel start result st
          else some (result, st)

/-- The `do … while (consumeOptionalOperator('|'))` loop of `parsePipe`. -/
def pipeLoopF (ctx : PCtx) : Nat → Int → EAst → PState → Option (EAst × PState)
  | 0, _, _, _ => none
  | fuel + 1, start, result, st =>
      let nameStart := inputIndex ctx st
      let (nameIdO, st) := expectIdentifierOrKeyword ctx st
      let (nameId, nameSpan, fullSpanEnd) :=
        match nameIdO with
        | some nameId => (nameId, pSourceSpan ctx st nameStart none, (none : Option Int))
        | none =>
            let fse :=
              if (nextT ctx st).index ≠ -1 then (nextT ctx st).index
              else (ctx.input.length : Int) + ctx.offset
            ("", (ParseSpan.mk fse fse).toAbsolute ctx.absoluteOffset, some fse)
      match pipeArgsLoopF ctx fuel [] st with
      | none => none
      | some (args, st) =>
          let result := EAst.bindingPipe (pSpan ctx st start none)
            (pSourceSpan ctx st start fullSpanEnd) result nameId args nameSpan
          let (c, st) := consumeOptionalOperator ctx st "|"
          if c then pipeLoopF ctx fuel start result st else some (result, st)

/-- The `while (consumeOptionalCharacter(':'))` argument loop of
`parsePipe`. -/
def pipeArgsLoopF (ctx : PCtx) : Nat → List EAst → PState → Option (List EAst × PState)
  | 0, _, _ => none
  | fuel + 1, args, st =>
      let (c, st) := consumeOptionalCharacter ctx st ':'
      if c then
        match parseExpressionF ctx fuel st with
        | none => none
        | some (e, st) => pipeArgsLoopF ctx fuel (args ++ [e]) st
      else some (args, st)

/-- Embeds `parseExpression`. -/
def parseExpressionF (ctx : PCtx) : Nat → PState → Option (EAst × PState)
  | 0, _ => none
  | fuel + 1, st => parseConditionalF ctx fuel st

/-- Embeds `parseConditional` (lines 762–781). -/
def parseConditionalF (ctx : PCtx) : Nat → PState → Option (EAst × PState)
  | 0, _ => none
  | fuel + 1, st =>
      let start := inputIndex ctx st
      match parseLogicalOrF ctx fuel st with
      | none => none
      | some (result, st) =>
          let (c, st) := consumeOptionalOperator ctx st "?"
          if c then
            match parsePipeF ctx fuel st with
            | none => none
            | some (yes, st) =>
                let (cc, st) := consumeOptionalCharacter ctx st ':'
                if !cc then
                  let endI := inputIndex ctx st
                  let expression := jsSubstring ctx.input start endI
                  let st := errorAndSkip ctx
                    ("Conditional expression " ++ expression ++ " requires all 3 expressions")
                    none st
                  let no := EAst.emptyExpr (pSpan ctx st start none)
                    (pSourceSpan ctx st start none)
                  some (.conditional (pSpan ctx st start none) (pSourceSpan ctx st start none)
                    result yes no, st)
                else
                  match parsePipeF ctx fuel st with
                  | none => none
                  | some (no, st) =>
                      some (.conditional (pSpan ctx st start none)
                        (pSourceSpan ctx st start none) result yes no, st)
          else some (result, st)

/-- Embeds `parseLogicalOr` (`'||'`). -/
def parseLogicalOrF (ctx : PCtx) : Nat → PState → Option (EAst × PState)
  | 0, _ => none
  | fuel + 1, st =>
      let start := inputIndex ctx st
      match parseLogicalAndF ctx fuel st with
      | none => none
      | some (result, st) => orLoopF ctx fuel start result st

def orLoopF (ctx : PCtx) : Nat → Int → EAst → PState → Option (EAst × PState)
  | 0, _, _, _ => none
  | fuel + 1, start, result, st =>
      let (c, st) := consumeOptionalOperator ctx st "||"
      if c then
        match parseLogicalAndF ctx fuel st with
        | none => none
        | some (right, st) =>
            orLoopF ctx fuel start
              (.binary (pSpan ctx st start none) (pSourceSpan ctx st start none) "||"
                result right) st
      else some (result, st)

/-- Embeds `parseLogicalAnd` (`'&&'`). -/
def parseLogicalAndF (ctx : PCtx) : Nat → PState → Option (EAst × PState)
  | 0, _ => none
  | fuel + 1, st =>
      let start := inputIndex ctx st
      match parseNullishCoalescingF ctx fuel st with
      | none => none
      | some (result, st) => andLoopF ctx fuel start result st

def andLoopF (ctx : PCtx) : Nat → Int → EAst → PState → Option (EAst × PState)
  | 0, _, _, _ => none
  | fuel + 1, start, result, st =>
      let (c, st) := consumeOptionalOperator ctx st "&&"
      if c then
        match parseNullishCoalescingF ctx fuel st with
        | none => none
        | some (right, st) =>
            andLoopF ctx fuel start
              (.binary (pSpan ctx st start none) (pSourceSpan ctx st start none) "&&"
                result right) st
      else some (result, st)

/-- Embeds `parseNullishCoalescing` (`'??'`). -/
def parseNullishCoalescingF (ctx : PCtx) : Nat → PState → Option (EAst × PState)
  | 0, _ => none
  | fuel + 1, st =>
      let start := inputIndex ctx st
      match parseEqualityF ctx fuel st with
      | none => none
      | some (result, st) => nullishLoopF ctx fuel start result st

def nullishLoopF (ctx : PCtx) : Nat → Int → EAst → PState → Option (EAst × PState)
  | 0, _, _, _ => none
  | fuel + 1, start, result, st =>
      let (c, st) := consumeOptionalOperator ctx st "??"
      if c then
        match parseEqualityF ctx fuel st with
        | none => none
        | some (right, st) =>
            nullishLoopF ctx fuel start
              (.binary (pSpan ctx st start none) (pSourceSpan ctx st start none) "??"
                result right) st
      else some (result, st)

/-- Embeds `parseEquality` (`'=='`, `'==='`, `'!='`, `'!=='`). -/
def parseEqualityF (ctx : PCtx) : Nat → PState → Option (EAst × PState)
  | 0, _ => none
  | fuel + 1, st =>
      let start := inputIndex ctx st
      match parseRelationalF ctx fuel st with
      | none => none
      | some (result, st) => eqLoopF ctx fuel start result st

def eqLoopF (ctx : PCtx) : Nat → Int → EAst → PState → Option (EAst × PState)
  | 0, _, _, _ => none
  | fuel + 1, start, result, st =>
      let n := nextT ctx st
      if n.type = .operator ∧
          (n.strValue = "==" ∨ n.strValue = "===" ∨ n.strValue = "!=" ∨
            n.strValue = "!==") then
        let operator := n.strValue
        let st := advance st
        match parseRelationalF ctx fuel st with
        | none => none
        | some (right, st) =>
            eqLoopF ctx fuel start
              (.binary (pSpan ctx st start none) (pSourceSpan ctx st start none) operator
                result right) st
      else some (result, st)

/-- Embeds `parseRelational` (`'<'`, `'>'`, `'<='`, `'>='`). -/
def parseRelationalF (ctx : PCtx) : Nat → PState → Option (EAst × PState)
  | 0, _ => none
  | fuel + 1, st =>
      let start := inputIndex ctx st
      match parseAdditiveF ctx fuel st with
      | none => none
      | some (result, st) => relLoopF ctx fuel start result st

def relLoopF (ctx : PCtx) : Nat → Int → EAst → PState → Option (EAst × PState)
  | 0, _, _, _ => none
  | fuel + 1, start, result, st =>
      let n := nextT ctx st
      if n.type = .operator ∧
          (n.strValue = "<" ∨ n.strValue = ">" ∨ n.strValue = "<=" ∨ n.strValue = ">=") then
        let operator := n.strValue
        let st := advance st
        match parseAdditiveF ctx fuel st with
        | none => none
        | some (right, st) =>
            relLoopF ctx fuel start
              (.binary (pSpan ctx st start none) (pSourceSpan ctx st start none) operator
                result right) st
      else some (result, st)

/-- Embeds `parseAdditive` (`'+'`, `'-'`). -/
def parseAdditiveF (ctx : PCtx) : Nat → PState → Option (EAst × PState)
  | 0, _ => none
  | fuel + 1, st =>
      let start := inputIndex ctx st
      match parseMultiplicativeF ctx fuel st with
      | none => none
      | some (result, st) => addLoopF ctx fuel start result st

def addLoopF (ctx : PCtx) : Nat → Int → EAst → PState → Option (EAst × PState)
  | 0, _, _, _ => none
  | fuel + 1, start, result, st =>
      let n := nextT ctx st
      if n.type = .operator ∧ (n.strValue = "+" ∨ n.strValue = "-") then
        let operator := n.strValue
        let st := advance st
        match parseMultiplicativeF ctx fuel st with
        | none => none
        | some (right, st) =>
            addLoopF ctx fuel start
              (.binary (pSpan ctx st start none) (pSourceSpan ctx st start none) operator
                result right) st
      else some (result, st)

/-- Embeds `parseMultiplicative` (`'*'`, `'%'`, `'/'`). -/
def parseMultiplicativeF (ctx : PCtx) : Nat → PState → Option (EAst × PState)
  | 0, _ => none
  | fuel + 1, st =>
      let start := inputIndex ctx st
      match parsePrefixF ctx fuel st with
      | none => none
      | some (result, st) => mulLoopF ctx fuel start result st

def mulLoopF (ctx : PCtx) : Nat → Int → EAst → PState → Option (EAst × PState)
  | 0, _, _, _ => none
  | fuel + 1, start, result, st =>
      let n := nextT ctx st
      if n.type = .operator ∧ (n.strValue = "*" ∨ n.strValue = "%" ∨ n.strValue = "/") then
        let operator := n.strValue
        let st := advance st
        match parsePrefixF ctx fuel st with
        | none => none
        | some (right, st) =>
            mulLoopF ctx fuel start
              (.binary (pSpan ctx st start none) (pSourceSpan ctx st start none) operator
                result right) st
      else some (result, st)

/-- Embeds `parsePrefix` (lines 897–918): unary `'+'`, `'-'`, `'!'`
(`Unary.createPlus`/`createMinus` and `PrefixNot`), else the call chain. -/
def parsePrefixF (ctx : PCtx) : Nat → PState → Option (EAst × PState)
  | 0, _ => none
  | fuel + 1, st =>
      let n := nextT ctx st
      if n.type = .operator ∧ (n.strValue = "+" ∨ n.strValue = "-" ∨ n.strValue = "!") then
        let start := inputIndex ctx st
        let operator := n.strValue
        let st := advance st
        match parsePrefixF ctx fuel st with
        | none => none
        | some (result, st) =>
            if operator = "+" then
              some (.unary (pSpan ctx st start none) (pSourceSpan ctx st start none) "+"
                result, st)
            else if operator = "-" then
              some (.unary (pSpan ctx st start none) (pSourceSpan ctx st start none) "-"
                result, st)
            else
              some (.prefixNot (pSpan ctx st start none) (pSourceSpan ctx st start none)
                result, st)
      else parseCallChainF ctx fuel st

/-- Embeds `parseCallChain` (lines 920–945). -/
def parseCallChainF (ctx : PCtx) : Nat → PState → Option (EAst × PState)
  | 0, _ => none
  | fuel + 1, st =>
      let start := inputIndex ctx st
      match parsePrimaryF ctx fuel st with
      | none => none
      | some (result, st) => callChainLoopF ctx fuel start result st

/-- The `while (true)` loop of `parseCallChain`. -/
def callChainLoopF (ctx : PCtx) : Nat → Int → EAst → PState → Option (EAst × PState)
  | 0, _, _, _ => none
  | fuel + 1, start, result, st =>
      let (c1, st) := consumeOptionalCharacter ctx st '.'
      if c1 then
        match parseAccessMemberF ctx fuel result start false st with
        | none => none
        | some (result, st) => callChainLoopF ctx fuel start result st
      else
        let (c2, st) := consumeOptionalOperator ctx st "?."
        if c2 then
          let (c3, st) := consumeOptionalCharacter ctx st '('
          if c3 then
            match parseCallF ctx fuel result start true st with
            | none => none
            | some (result, st) => callChainLoopF ctx fuel start result st
          else
            let (c4, st) := consumeOptionalCharacter ctx st '['
            if c4 then
              match parseKeyedReadOrWriteF ctx fuel result start true st with
              | none => none
              | some (result, st) => callChainLoopF ctx fuel start result st
            else
              match parseAccessMemberF ctx fuel result start true st with
              | none => none
              | some (result, st) => callChainLoopF ctx fuel start result st
        else
          let (c5, st) := consumeOptionalCharacter ctx st '['
          if c5 then
            match parseKeyedReadOrWriteF ctx fuel result start false st with
            | none => none
            | some (result, st) => callChainLoopF ctx fuel start result st
          else
            let (c6, st) := consumeOptionalCharacter ctx st '('
            if c6 then
              match parseCallF ctx fuel result start false st with
              | none => none
              | some (result, st) => callChainLoopF ctx fuel start result st
            else
              let (c7, st) := consumeOptionalOperator ctx st "!"
              if c7 then
                callChainLoopF ctx fuel start
                  (.nonNullAssert (pSpan ctx st start none) (pSourceSpan ctx st start none)
                    result) st
              else some (result, st)

/-- Embeds `parsePrimary` (lines 947–1009). -/
def parsePrimaryF (ctx : PCtx) : Nat → PState → Option (EAst × PState)
  | 0, _ => none
  | fuel + 1, st =>
      let start := inputIndex ctx st
      let (lp, st) := consumeOptionalCharacter ctx st '('
      if lp then
        let st := { st with rparensExpected := st.rparensExpected + 1 }
        match parsePipeF ctx fuel st with
        | none => none
        | some (result, st) =>
            let st := { st with rparensExpected := st.rparensExpected - 1 }
            let st := expectCharacter ctx ')' st
            some (result, st)
      else if (nextT ctx st).isKeywordNull then
        let st := advance st
        some (.literalPrimitive (pSpan ctx st start none) (pSourceSpan ctx st start none)
          .nullV, st)
      else if (nextT ctx st).isKeywordUndefined then
        let st := advance st
        some (.literalPrimitive (pSpan ctx st start none) (pSourceSpan ctx st start none)
          .undefinedV, st)
      else if (nextT ctx st).isKeywordTrue then
        let st := advance st
        some (.literalPrimitive (pSpan ctx st start none) (pSourceSpan ctx st start none)
          (.boolV true), st)
      else if (nextT ctx st).isKeywordFalse then
        let st := advance st
        some (.literalPrimitive (pSpan ctx st start none) (pSourceSpan ctx st start none)
          (.boolV false), st)
      else if (nextT ctx st).isKeywordThis then
        let st := advance st
        some (.thisReceiver (pSpan ctx st start none) (pSourceSpan ctx st start none), st)
      else
        let (lb, st) := consumeOptionalCharacter ctx st '['
        if lb then
          let st := { st with rbracketsExpected := st.rbracketsExpected + 1 }
          match parseExpressionListF ctx fuel ']' st with
          | none => none
          | some (elements, st) =>
              let st := { st with rbracketsExpected := st.rbracketsExpected - 1 }
              let st := expectCharacter ctx ']' st
              some (.literalArray (pSpan ctx st start none) (pSourceSpan ctx st start none)
                elements, st)
        else if (nextT ctx st).isCharacter '\x7b' then
          parseLiteralMapF ctx fuel st
        else if (nextT ctx st).isIdentifier then
          parseAccessMemberF ctx fuel
            (.implicitReceiver (pSpan ctx st start none) (pSourceSpan ctx st start none))
            start false st
        else if (nextT ctx st).isNumber then
          let value := (nextT ctx st).toNumber
          let st := advance st
          some (.literalPrimitive (pSpan ctx st start none) (pSourceSpan ctx st start none)
            (.numV value), st)
        else if (nextT ctx st).isString then
          let literalValue := (nextT ctx st).str
          let st := advance st
          some (.literalPrimitive (pSpan ctx st start none) (pSourceSpan ctx st start none)
            (.strV literalValue), st)
        else if (nextT ctx st).isPrivateIdentifier then
          let st := reportErrorForPrivateIdentifier ctx (nextT ctx st) none st
          some (.emptyExpr (pSpan ctx st start none) (pSourceSpan ctx st start none), st)
        else if ctx.tokens.length ≤ st.index then
          let st := errorAndSkip ctx ("Unexpected end of expression: " ++ ctx.input) none st
          some (.emptyExpr (pSpan ctx st start none) (pSourceSpan ctx st start none), st)
        else
          let msg := "Unexpected token " ++ (nextT ctx st).str
          let st := errorAndSkip ctx msg none st
          some (.emptyExpr (pSpan ctx st start none) (pSourceSpan ctx st start none), st)

/-- Embeds `parseExpressionList` (lines 1011–1022), a `do … while` loop. -/
def parseExpressionListF (ctx : PCtx) : Nat → Char → PState → Option (List EAst × PState)
  | 0, _, _ => none
  | fuel + 1, terminator, st => exprListLoopF ctx fuel terminator [] st

def exprListLoopF (ctx : PCtx) : Nat → Char → List EAst → PState →
    Option (List EAst × PState)
  | 0, _, _, _ => none
  | fuel + 1, terminator, result, st =>
      if !(nextT ctx st).isCharacter terminator then
        match parsePipeF ctx fuel st with
        | none => none
        | some (e, st) =>
            let result := result ++ [e]
            let (c, st) := consumeOptionalCharacter ctx st ','
            if c then exprListLoopF ctx fuel terminator result st
            else some (result, st)
      else some (result, st)

/-- Embeds `parseLiteralMap` (lines 1024–1054). -/
def parseLiteralMapF (ctx : PCtx) : Nat → PState → Option (EAst × PState)
  | 0, _ => none
  | fuel + 1, st =>
      let start := inputIndex ctx st
      let st := expectCharacter ctx '\x7b' st
      let (rb, st) := consumeOptionalCharacter ctx st '\x7d'
      if !rb then
        let st := { st with rbracesExpected := st.rbracesExpected + 1 }
        match literalMapLoopF ctx fuel [] [] st with
        | none => none
        | some (keys, values, st) =>
            let st := { st with rbracesExpected := st.rbracesExpected - 1 }
            let st := expectCharacter ctx '\x7d' st
            some (.literalMap (pSpan ctx st start none) (pSourceSpan ctx st start none)
              keys values, st)
      else
        some (.literalMap (pSpan ctx st start none) (pSourceSpan ctx st start none) [] [], st)

/-- The `do … while (consumeOptionalCharacter(','))` loop of
`parseLiteralMap`; a non-quoted key without `':'` is the shorthand property
(a `PropertyRead` of the key on the implicit receiver). -/
def literalMapLoopF (ctx : PCtx) : Nat → List LiteralMapKey → List EAst → PState →
    Option (List LiteralMapKey × List EAst × PState)
  | 0, _, _, _ => none
  | fuel + 1, keys, values, st =>
      let keyStart := inputIndex ctx st
      let quoted := (nextT ctx st).isString
      let (key, st) := expectIdentifierOrKeywordOrString ctx st
      let keys := keys ++ [⟨key, quoted⟩]
      let cont : Option (List EAst × PState) :=
        if quoted then
          let st := expectCharacter ctx ':' st
          match parsePipeF ctx fuel st with
          | none => none
          | some (v, st) => some (values ++ [v], st)
        else
          let (c, st) := consumeOptionalCharacter ctx st ':'
          if c then
            match parsePipeF ctx fuel st with
            | none => none
            | some (v, st) => some (values ++ [v], st)
          else
            let span := pSpan ctx st keyStart none
            let sourceSpan := pSourceSpan ctx st keyStart none
            some (values ++
              [.propertyRead 0 span sourceSpan sourceSpan
                (.implicitReceiver span sourceSpan) key], st)
      match cont with
      | none => none
      | some (values, st) =>
          let (c, st) := consumeOptionalCharacter ctx st ','
          if c then literalMapLoopF ctx fuel keys values st
          else some (keys, values, st)

/-- Embeds `parseAccessMember` (lines 1056–1093). -/
def parseAccessMemberF (ctx : PCtx) : Nat → EAst → Int → Bool → PState →
    Option (EAst × PState)
  | 0, _, _, _, _ => none
  | fuel + 1, readReceiver, start, isSafe, st =>
      let nameStart := inputIndex ctx st
      let st := { st with ctxWritable := st.ctxWritable || true }
      let (idO, st) := expectIdentifierOrKeyword ctx st
      let id := idO.getD ""
      let st :=
        if id.length = 0 then
          errorAndSkip ctx "Expected identifier for property access"
            (some readReceiver.spanOf.endI) st
        else st
      let st := { st with ctxWritable := xor st.ctxWritable true }
      let nameSpan := pSourceSpan ctx st nameStart none
      if isSafe then
        let (c, st) := consumeOptionalAssignment ctx st
        if c then
          let st := errorAndSkip ctx "The '?.' operator cannot be used in the assignment"
            none st
          some (.emptyExpr (pSpan ctx st start none) (pSourceSpan ctx st start none), st)
        else
          some (.safePropertyRead 0 (pSpan ctx st start none) (pSourceSpan ctx st start none)
            nameSpan readReceiver id, st)
      else
        let (c, st) := consumeOptionalAssignment ctx st
        if c then
          if !ctx.flagAction then
            let st := errorAndSkip ctx "Bindings cannot contain assignments" none st
            some (.emptyExpr (pSpan ctx st start none) (pSourceSpan ctx st start none), st)
          else
            match parseConditionalF ctx fuel st with
            | none => none
            | some (value, st) =>
                some (.propertyWrite 0 (pSpan ctx st start none)
                  (pSourceSpan ctx st start none) nameSpan readReceiver id value, st)
        else
          some (.propertyRead 0 (pSpan ctx st start none) (pSourceSpan ctx st start none)
            nameSpan readReceiver id, st)

/-- Embeds `parseCall` (lines 1095–1106). -/
def parseCallF (ctx : PCtx) : Nat → EAst → Int → Bool → PState → Option (EAst × PState)
  | 0, _, _, _, _ => none
  | fuel + 1, receiver, start, isSafe, st =>
      let argumentStart := inputIndex ctx st
      let st := { st with rparensExpected := st.rparensExpected + 1 }
      match parseCallArgumentsF ctx fuel st with
      | none => none
      | some (args, st) =>
          let argumentSpan :=
            (pSpan ctx st argumentStart (some (inputIndex ctx st))).toAbsolute
              ctx.absoluteOffset
          let st := expectCharacter ctx ')' st
          let st := { st with rparensExpected := st.rparensExpected - 1 }
          let span := pSpan ctx st start none
          let sourceSpan := pSourceSpan ctx st start none
          if isSafe then some (.safeCall span sourceSpan receiver args argumentSpan, st)
          else some (.call span sourceSpan receiver args argumentSpan, st)

/-- Embeds `parseCallArguments` (lines 1126–1133). -/
def parseCallArgumentsF (ctx : PCtx) : Nat → PState → Option (List EAst × PState)
  | 0, _ => none
  | fuel + 1, st =>
      if (nextT ctx st).isCharacter ')' then some ([], st)
      else callArgsLoopF ctx fuel [] st

def callArgsLoopF (ctx : PCtx) : Nat → List EAst → PState → Option (List EAst × PState)
  | 0, _, _ => none
  | fuel + 1, positionals, st =>
      match parsePipeF ctx fuel st with
      | none => none
      | some (e, st) =>
          let positionals := positionals ++ [e]
          let (c, st) := consumeOptionalCharacter ctx st ','
          if c then callArgsLoopF ctx fuel positionals st else some (positionals, st)

/-- Embeds `parseKeyedReadOrWrite` (lines 1239–1262), run inside a
`Writable` context. -/
def parseKeyedReadOrWriteF (ctx : PCtx) : Nat → EAst → Int → Bool → PState →
    Option (EAst × PState)
  | 0, _, _, _, _ => none
  | fuel + 1, receiver, start, isSafe, st =>
      let st := { st with ctxWritable := st.ctxWritable || true }
      let st := { st with rbracketsExpected := st.rbracketsExpected + 1 }
      match parsePipeF ctx fuel st with
      | none => none
      | some (key, st) =>
          let st :=
            if key.isEmptyExpr then errorAndSkip ctx "Key access cannot be empty" none st
            else st
          let st := { st with rbracketsExpected := st.rbracketsExpected - 1 }
          let st := expectCharacter ctx ']' st
          let (c, st) := consumeOptionalOperator ctx st "="
          let resSt : Option (EAst × PState) :=
            if c then
              if isSafe then
                let st := errorAndSkip ctx
                  "The '?.' operator cannot be used in the assignment" none st
                some (.emptyExpr (pSpan ctx st start none) (pSourceSpan ctx st start none),
                  st)
              else
                match parseConditionalF ctx fuel st with
                | none => none
                | some (value, st) =>
                    some (.keyedWrite (pSpan ctx st start none)
                      (pSourceSpan ctx st start none) receiver key value, st)
            else if isSafe then
              some (.safeKeyedRead (pSpan ctx st start none) (pSourceSpan ctx st start none)
                receiver key, st)
            else
              some (.keyedRead (pSpan ctx st start none) (pSourceSpan ctx st start none)
                receiver key, st)
          match resSt with
          | none => none
          | some (r, st) => some (r, { st with ctxWritable := xor st.ctxWritable true })

end

/-! ### Template micro-syntax bindings (lines 1135–1402) -/

structure TemplateBindingIdentifier where
  source : String
  span : AbsoluteSourceSpan
deriving DecidableEq

/-- The result wrapper `ASTWithSource` (modelled from the spec §6: root AST,
original text, location label, absolute offset, structured error list).  In
the source the error list is the `Parser`'s shared mutable array; here it is
the list's value when the wrapper is produced (identical for the evaluated
claims, whose operations push no errors afterwards). -/
structure ASTWithSource where
  ast : EAst
  source : String
  location : String
  absoluteOffset : Int
  errors : List ParserError

inductive TemplateBinding where
  | expressionBinding (sourceSpan : AbsoluteSourceSpan) (key : TemplateBindingIdentifier)
      (value : Option ASTWithSource)
  | variableBinding (sourceSpan : AbsoluteSourceSpan) (key : TemplateBindingIdentifier)
      (value : Option TemplateBindingIdentifier)

structure TemplateBindingParseResult where
  templateBindings : List TemplateBinding
  warnings : List String
  errors : List ParserError

/-- JavaScript `key.charAt(0).toUpperCase() + key.substring(1)`. -/
def capitalizeFirst (s : String) : String :=
  match s.data with
  | [] => ""
  | c :: rest => ⟨c.toUpper :: rest⟩

mutual

/-- Embeds `expectTemplateBindingKey` (lines 1142–1157). -/
def expectTemplateBindingKeyF (ctx : PCtx) : Nat → PState →
    Option (TemplateBindingIdentifier × PState)
  | 0, _ => none
  | fuel + 1, st =>
      let start := currentAbsoluteOffset ctx st
      match tbkLoopF ctx fuel "" st with
      | none => none
      | some (result, st) =>
          some (⟨result, ⟨start, start + result.length⟩⟩, st)

/-- The `do … while (operatorFound)` loop of `expectTemplateBindingKey`. -/
def tbkLoopF (ctx : PCtx) : Nat → String → PState → Option (String × PState)
  | 0, _, _ => none
  | fuel + 1, result, st =>
      let (part, st) := expectIdentifierOrKeywordOrString ctx st
      let result := result ++ part
      let (operatorFound, st) := consumeOptionalOperator ctx st "-"
      if operatorFound then tbkLoopF ctx fuel (result ++ "-") st
      else some (result, st)

/-- Embeds `_ParseAST.parseTemplateBindings` (lines 1201–1237). -/
def parseTemplateBindingsMF (ctx : PCtx) : Nat → TemplateBindingIdentifier → PState →
    Option (TemplateBindingParseResult × PState)
  | 0, _, _ => none
  | fuel + 1, templateKey, st =>
      match parseDirectiveKeywordBindingsF ctx fuel templateKey st with
      | none => none
      | some (bindings, st) =>
          match tbLoopF ctx fuel templateKey bindings st with
          | none => none
          | some (bindings, st) => some (⟨bindings, [], st.errors⟩, st)

/-- The `while (this.index < this.tokens.length)` loop of
`parseTemplateBindings`: a `let` binding, a `value "as" key` binding, or a
directive keyword binding (camel-casing the keyword onto the template
key). -/
def tbLoopF (ctx : PCtx) : Nat → TemplateBindingIdentifier → List TemplateBinding →
    PState → Option (List TemplateBinding × PState)
  | 0, _, _, _ => none
  | fuel + 1, templateKey, bindings, st =>
      if st.index < ctx.tokens.length then
        match parseLetBindingF ctx fuel st with
        | none => none
        | some (letBindingO, st) =>
            match letBindingO with
            | some letBinding =>
                let bindings := bindings ++ [letBinding]
                let st := consumeStatementTerminator ctx st
                tbLoopF ctx fuel templateKey bindings st
            | none =>
                match expectTemplateBindingKeyF ctx fuel st with
                | none => none
                | some (key, st) =>
                    match parseAsBindingF ctx fuel key st with
                    | none => none
                    | some (bindingO, st) =>
                        match bindingO with
                        | some binding =>
                            let bindings := bindings ++ [binding]
                            let st := consumeStatementTerminator ctx st
                            tbLoopF ctx fuel templateKey bindings st
                        | none =>
                            let key : TemplateBindingIdentifier :=
                              { key with
                                source := templateKey.source ++ capitalizeFirst key.source }
                            match parseDirectiveKeywordBindingsF ctx fuel key st with
                            | none => none
                            | some (newBindings, st) =>
                                let bindings := bindings ++ newBindings
                                let st := consumeStatementTerminator ctx st
                                tbLoopF ctx fuel templateKey bindings st
      else some (bindings, st)

/-- Embeds `parseDirectiveKeywordBindings` (lines 1286–1306). -/
def parseDirectiveKeywordBindingsF (ctx : PCtx) : Nat → TemplateBindingIdentifier →
    PState → Option (List TemplateBinding × PState)
  | 0, _, _ => none
  | fuel + 1, key, st =>
      let (_, st) := consumeOptionalCharacter ctx st ':'
      match getDirectiveBoundTargetF ctx fuel st with
      | none => none
      | some (value, st) =>
          let spanEnd := currentAbsoluteOffset ctx st
          match parseAsBindingF ctx fuel key st with
          | none => none
          | some (asBindingO, st) =>
              let (st, spanEnd) :=
                match asBindingO with
                | none =>
                    let st := consumeStatementTerminator ctx st
                    (st, currentAbsoluteOffset ctx st)
                | some _ => (st, spanEnd)
              let sourceSpan := AbsoluteSourceSpan.mk key.span.start spanEnd
              let bindings := [TemplateBinding.expressionBinding sourceSpan key value] ++
                (match asBindingO with
                 | some b => [b]
                 | none => [])
              some (bindings, st)

/-- Embeds `getDirectiveBoundTarget` (lines 1322–1330); `this.next === EOF`
holds exactly when all tokens are consumed. -/
def getDirectiveBoundTargetF (ctx : PCtx) : Nat → PState →
    Option (Option ASTWithSource × PState)
  | 0, _ => none
  | fuel + 1, st =>
      if atEOF ctx st || peekKeywordAs ctx st || peekKeywordLet ctx st then
        some (none, st)
      else
        match parsePipeF ctx fuel st with
        | none => none
        | some (ast, st) =>
            let sp := ast.spanOf
            let value := jsSubstring ctx.input sp.start sp.endI
            some (some ⟨ast, value, ctx.location, ctx.absoluteOffset + sp.start, st.errors⟩,
              st)

/-- Embeds `parseAsBinding` (lines 1350–1359). -/
def parseAsBindingF (ctx : PCtx) : Nat → TemplateBindingIdentifier → PState →
    Option (Option TemplateBinding × PState)
  | 0, _, _ => none
  | fuel + 1, value, st =>
      if !peekKeywordAs ctx st then some (none, st)
      else
        let st := advance st
        match expectTemplateBindingKeyF ctx fuel st with
        | none => none
        | some (key, st) =>
            let st := consumeStatementTerminator ctx st
            let sourceSpan :=
              AbsoluteSourceSpan.mk value.span.start (currentAbsoluteOffset ctx st)
            some (some (.variableBinding sourceSpan key (some value)), st)

/-- Embeds `parseLetBinding` (lines 1378–1392). -/
def parseLetBindingF (ctx : PCtx) : Nat → PState → Option (Option TemplateBinding × PState)
  | 0, _ => none
  | fuel + 1, st =>
      if !peekKeywordLet ctx st then some (none, st)
      else
        let spanStart := currentAbsoluteOffset ctx st
        let st := advance st
        match expectTemplateBindingKeyF ctx fuel st with
        | none => none
        | some (key, st) =>
            let (c, st) := consumeOptionalOperator ctx st "="
            let contO : Option (Option TemplateBindingIdentifier × PState) :=
              if c then
                match expectTemplateBindingKeyF ctx fuel st with
                | none => none
                | some (v, st) => some (some v, st)
              else some (none, st)
            match contO with
            | none => none
            | some (value, st) =>
                let st := consumeStatementTerminator ctx st
                let sourceSpan :=
                  AbsoluteSourceSpan.mk spanStart (currentAbsoluteOffset ctx st)
                some (some (.variableBinding sourceSpan key value), st)

end

/-! ### The `Parser` class operations (lines 60–230)

The `Parser.errors` array is shared across all calls on one `Parser`
instance and is only appended to; each operation takes the list's current
value `errs0` and returns results whose error list is `errs0` extended by
this call's errors, exactly the observable content of the shared array. -/

/-- Embeds `Parser.parseAction`. -/
def parseActionF (fuel : Nat) (errs0 : List ParserError) (input : String)
    (isAssignmentEvent : Bool) (location : String) (absoluteOffset : Int)
    (cfg : InterpolationConfig) : Option ASTWithSource :=
  let interpErrors := checkNoInterpolation cfg input location
  let sourceToLex := stripComments input
  let tokens := tokenize sourceToLex
  let ctx : PCtx := ⟨input, location, absoluteOffset, tokens, true, isAssignmentEvent, 0⟩
  match parseChainF ctx fuel initPState with
  | none => none
  | some (ast, st) =>
      some ⟨ast, input, location, absoluteOffset, errs0 ++ (interpErrors ++ st.errors)⟩

/-- Embeds `Parser._parseBindingAst`, returning the AST and this call's new
errors. -/
def parseBindingAstF (fuel : Nat) (input : String) (location : String)
    (absoluteOffset : Int) (cfg : InterpolationConfig) :
    Option (EAst × List ParserError) :=
  let interpErrors := checkNoInterpolation cfg input location
  let sourceToLex := stripComments input
  let tokens := tokenize sourceToLex
  let ctx : PCtx := ⟨input, location, absoluteOffset, tokens, false, false, 0⟩
  match parseChainF ctx fuel initPState with
  | none => none
  | some (ast, st) => some (ast, interpErrors ++ st.errors)

/-- Embeds `Parser.parseBinding`. -/
def parseBindingF (fuel : Nat) (errs0 : List ParserError) (input : String)
    (location : String) (absoluteOffset : Int) (cfg : InterpolationConfig) :
    Option ASTWithSource :=
  match parseBindingAstF fuel input location absoluteOffset cfg with
  | none => none
  | some (ast, delta) => some ⟨ast, input, location, absoluteOffset, errs0 ++ delta⟩

mutual

/-- Embeds `SimpleExpressionChecker`: a `RecursiveAstVisitor` whose
`visitPipe` override records `'pipes'` and does not recurse into the pipe's
children. -/
def simpleCheckErrors : EAst → List String
  | .emptyExpr _ _ => []
  | .implicitReceiver _ _ => []
  | .thisReceiver _ _ => []
  | .literalPrimitive _ _ _ => []
  | .propertyRead _ _ _ _ receiver _ => simpleCheckErrors receiver
  | .propertyWrite _ _ _ _ receiver _ value =>
      simpleCheckErrors receiver ++ simpleCheckErrors value
  | .safePropertyRead _ _ _ _ receiver _ => simpleCheckErrors receiver
  | .keyedRead _ _ receiver key => simpleCheckErrors receiver ++ simpleCheckErrors key
  | .safeKeyedRead _ _ receiver key => simpleCheckErrors receiver ++ simpleCheckErrors key
  | .keyedWrite _ _ receiver key value =>
      simpleCheckErrors receiver ++ simpleCheckErrors key ++ simpleCheckErrors value
  | .call _ _ receiver args _ => simpleCheckErrors receiver ++ simpleCheckErrorsList args
  | .safeCall _ _ receiver args _ =>
      simpleCheckErrors receiver ++ simpleCheckErrorsList args
  | .nonNullAssert _ _ expression => simpleCheckErrors expression
  | .prefixNot _ _ expression => simpleCheckErrors expression
  | .unary _ _ _ expr => simpleCheckErrors expr
  | .binary _ _ _ left right => simpleCheckErrors left ++ simpleCheckErrors right
  | .conditional _ _ c t f =>
      simpleCheckErrors c ++ simpleCheckErrors t ++ simpleCheckErrors f
  | .chain _ _ expressions => simpleCheckErrorsList expressions
  | .interpolation _ _ _ expressions => simpleCheckErrorsList expressions
  | .bindingPipe _ _ _ _ _ _ => ["pipes"]
  | .literalArray _ _ expressions => simpleCheckErrorsList expressions
  | .literalMap _ _ _ values => simpleCheckErrorsList values

def simpleCheckErrorsList : List EAst → List String
  | [] => []
  | e :: rest => simpleCheckErrors e ++ simpleCheckErrorsList rest

end

/-- Embeds `Parser.parseSimpleBinding`. -/
def parseSimpleBindingF (fuel : Nat) (errs0 : List ParserError) (input : String)
    (location : String) (absoluteOffset : Int) (cfg : InterpolationConfig) :
    Option ASTWithSource :=
  match parseBindingAstF fuel input location absoluteOffset cfg with
  | none => none
  | some (ast, delta) =>
      let errors := simpleCheckErrors ast
      let delta2 :=
        if errors.length > 0 then
          [ParserError.mk
            ("Host binding expression cannot contain " ++ String.intercalate " " errors)
            input location none]
        else []
      some ⟨ast, input, location, absoluteOffset, errs0 ++ (delta ++ delta2)⟩

/-- Embeds `Parser.parseTemplateBindings` (lines 173–184). -/
def parseTemplateBindingsF (fuel : Nat) (errs0 : List ParserError)
    (templateKey templateValue templateUrl : String)
    (absoluteKeyOffset absoluteValueOffset : Int) : Option TemplateBindingParseResult :=
  let tokens := tokenize templateValue
  let ctx : PCtx := ⟨templateValue, templateUrl, absoluteValueOffset, tokens, false, false, 0⟩
  match parseTemplateBindingsMF ctx fuel
      ⟨templateKey, ⟨absoluteKeyOffset, absoluteKeyOffset + templateKey.length⟩⟩
      initPState with
  | none => none
  | some (result, _) => some ⟨result.templateBindings, result.warnings, errs0 ++ result.errors⟩

/-! ### Claim C7: `parseTemplateBindings("ngFor", "let item of items; trackBy: fn")` -/

inductive BindingShape where
  | exprB (key : String) (value : Option String)
  | varB (key : String) (value : Option String)
deriving DecidableEq

/-- The root name of an expression binding's value when it is a plain
property read on the implicit receiver. -/
def astRootName : EAst → Option String
  | .propertyRead _ _ _ _ (.implicitReceiver _ _) name => some name
  | _ => none

def bindingShape : TemplateBinding → BindingShape
  | .expressionBinding _ key value => .exprB key.source (value.bind (fun v => astRootName v.ast))
  | .variableBinding _ key value => .varB key.source (value.map (fun v => v.source))

/-- C7: `parseTemplateBindings` with key `ngFor` and value
`let item of items; trackBy: fn` returns, in order, exactly
`[ngFor -> null, item -> variable (no value), ngForOf -> items (expression
on the implicit receiver), ngForTrackBy -> fn (expression)]` with an empty
error list; the directive-input binding names camel-case the micro-syntax
keywords `of` and `trackBy` onto the key `ngFor`. -/
theorem c7_parseTemplateBindings_ngFor :
    (parseTemplateBindingsF 80 [] "ngFor" "let item of items; trackBy: fn" "url" 0 0).map
        (fun r => (r.templateBindings.map bindingShape, r.errors)) =
      some ([.exprB "ngFor" none, .varB "item" none, .exprB "ngForOf" (some "items"),
        .exprB "ngForTrackBy" (some "fn")], []) := rfl

/-! ### Claim C3: parsing twice on the same `Parser` instance -/

/-- C3 counterexample: the `Parser` instance's error list (`this.errors`) is
shared by all parses, so a second `parseBinding` of `a;b` (one chaining
error per parse) returns a result whose error list has the first call's
error and a second copy — not the same ordered error list, and not a
per-parse private list as the claim states. -/
theorem c3_counterexample :
    ¬ ((parseBindingF 50 (((parseBindingF 50 [] "a;b" "loc" 0
            defaultInterpolationConfig).map ASTWithSource.errors).getD []) "a;b" "loc" 0
          defaultInterpolationConfig).map ASTWithSource.errors =
        (parseBindingF 50 [] "a;b" "loc" 0 defaultInterpolationConfig).map
          ASTWithSource.errors) := by decide

/-- C3 amended: calling `parseAction`, `parseBinding` or `parseSimpleBinding`
twice with the same input and parameters on one `Parser` instance yields
structurally identical ASTs (same variant tree, literal values and span
offsets), but the error list lives on the `Parser` instance: each call
appends its own errors `δ` to the shared list, so the first result carries
`errs0 ++ δ` and the second carries `(errs0 ++ δ) ++ δ` (they agree exactly
when the input parses without errors). -/
theorem c3_amended_parse_twice :
    (∀ (fuel : Nat) (errs0 : List ParserError) (input : String) (b : Bool)
        (loc : String) (off : Int) (cfg : InterpolationConfig) (r1 : ASTWithSource),
        parseActionF fuel errs0 input b loc off cfg = some r1 →
        ∃ r2, parseActionF fuel r1.errors input b loc off cfg = some r2 ∧
          r2.ast = r1.ast ∧ ∃ δ, r1.errors = errs0 ++ δ ∧ r2.errors = r1.errors ++ δ) ∧
    (∀ (fuel : Nat) (errs0 : List ParserError) (input loc : String) (off : Int)
        (cfg : InterpolationConfig) (r1 : ASTWithSource),
        parseBindingF fuel errs0 input loc off cfg = some r1 →
        ∃ r2, parseBindingF fuel r1.errors input loc off cfg = some r2 ∧
          r2.ast = r1.ast ∧ ∃ δ, r1.errors = errs0 ++ δ ∧ r2.errors = r1.errors ++ δ) ∧
    (∀ (fuel : Nat) (errs0 : List ParserError) (input loc : String) (off : Int)
        (cfg : InterpolationConfig) (r1 : ASTWithSource),
        parseSimpleBindingF fuel errs0 input loc off cfg = some r1 →
        ∃ r2, parseSimpleBindingF fuel r1.errors input loc off cfg = some r2 ∧
          r2.ast = r1.ast ∧ ∃ δ, r1.errors = errs0 ++ δ ∧ r2.errors = r1.errors ++ δ) := by
  refine ⟨?_, ?_, ?_⟩
  · intro fuel errs0 input b loc off cfg r1 h
    simp only [parseActionF] at h
    split at h
    · exact absurd h (by simp)
    · rename_i ast st heq
      simp only [Option.some.injEq] at h
      subst h
      refine ⟨⟨ast, input, loc, off,
        (errs0 ++ (checkNoInterpolation cfg input loc ++ st.errors)) ++
          (checkNoInterpolation cfg input loc ++ st.errors)⟩, ?_, rfl, ?_⟩
      · simp only [parseActionF]
        rw [heq]
      · exact ⟨checkNoInterpolation cfg input loc ++ st.errors, rfl, rfl⟩
  · intro fuel errs0 input loc off cfg r1 h
    simp only [parseBindingF] at h
    split at h
    · exact absurd h (by simp)
    · rename_i ast delta heq
      simp only [Option.some.injEq] at h
      subst h
      refine ⟨⟨ast, input, loc, off, (errs0 ++ delta) ++ delta⟩, ?_, rfl, ?_⟩
      · simp only [parseBindingF]
        rw [heq]
      · exact ⟨delta, rfl, rfl⟩
  · intro fuel errs0 input loc off cfg r1 h
    simp only [parseSimpleBindingF] at h
    split at h
    · exact absurd h (by simp)
    · rename_i ast delta heq
      simp only [Option.some.injEq] at h
      subst h
      refine ⟨⟨ast, input, loc, off,
        (errs0 ++ (delta ++
          (if (simpleCheckErrors ast).length > 0 then
            [ParserError.mk
              ("Host binding expression cannot contain " ++
                String.intercalate " " (simpleCheckErrors ast)) input loc none]
          else []))) ++
          (delta ++
            (if (simpleCheckErrors ast).length > 0 then
              [ParserError.mk
                ("Host binding expression cannot contain " ++
                  String.intercalate " " (simpleCheckErrors ast)) input loc none]
            else []))⟩, ?_, rfl, ?_⟩
      · simp only [parseSimpleBindingF]
        rw [heq]
      · exact ⟨_, rfl, rfl⟩

theorem c3_witness :
    ∃ r2, parseBindingF 50 (((parseBindingF 50 [] "a;b" "loc" 0
          defaultInterpolationConfig).get (by decide)).errors) "a;b" "loc" 0
        defaultInterpolationConfig = some r2 ∧
      r2.ast = ((parseBindingF 50 [] "a;b" "loc" 0 defaultInterpolationConfig).get
        (by decide)).ast ∧
      ∃ δ, ((parseBindingF 50 [] "a;b" "loc" 0 defaultInterpolationConfig).get
          (by decide)).errors = [] ++ δ ∧
        r2.errors = ((parseBindingF 50 [] "a;b" "loc" 0 defaultInterpolationConfig).get
          (by decide)).errors ++ δ :=
  c3_amended_parse_twice.2.1 50 [] "a;b" "loc" 0 defaultInterpolationConfig _
    (Option.some_get _).symm

/-! ### Claim C10: termination of `parseChain`

The fuel-indexed parse functions approximate the source's (unbounded)
recursion; termination of the source loop structure is the statement that
some fuel makes the whole parse complete.  The proof follows the code's own
termination argument: every loop iteration either consumes at least one
token or (in `parseChain`) detects that error recovery did not advance the
index and breaks, and every same-state call descends in the grammar. -/

section TerminationTen

variable (ctx : PCtx)

theorem nextT_eq_eof (st : PState) (h : ctx.tokens.length ≤ st.index) :
    nextT ctx st = EOFTok := by
  unfold nextT peekT
  rw [if_neg]
  push_neg
  intro
  omega

theorem lt_of_nextT_ne_eof (st : PState) (h : nextT ctx st ≠ EOFTok) :
    st.index < ctx.tokens.length := by
  by_contra hc
  push_neg at hc
  exact h (nextT_eq_eof ctx st hc)

theorem lt_of_next_isCharacter (st : PState) (code : Char) (hcode : 0 < code.toNat)
    (h : (nextT ctx st).isCharacter code = true) : st.index < ctx.tokens.length := by
  apply lt_of_nextT_ne_eof
  intro heq
  rw [heq] at h
  simp [Token.isCharacter, EOFTok] at h
  omega

theorem lt_of_next_isOperator (st : PState) (op : String)
    (h : (nextT ctx st).isOperator op = true) : st.index < ctx.tokens.length := by
  apply lt_of_nextT_ne_eof
  intro heq
  rw [heq] at h
  simp [Token.isOperator, EOFTok] at h

theorem lt_of_next_type_operator (st : PState)
    (h : (nextT ctx st).type = TokenType.operator) : st.index < ctx.tokens.length := by
  apply lt_of_nextT_ne_eof
  intro heq
  rw [heq] at h
  simp [EOFTok] at h

theorem lt_of_next_isIdentifier (st : PState)
    (h : (nextT ctx st).isIdentifier = true) : st.index < ctx.tokens.length := by
  apply lt_of_nextT_ne_eof
  intro heq
  rw [heq] at h
  simp [Token.isIdentifier, EOFTok] at h

theorem lt_of_next_isKeyword (st : PState)
    (h : (nextT ctx st).isKeyword = true) : st.index < ctx.tokens.length := by
  apply lt_of_nextT_ne_eof
  intro heq
  rw [heq] at h
  simp [Token.isKeyword, EOFTok] at h

theorem lt_of_next_isString (st : PState)
    (h : (nextT ctx st).isString = true) : st.index < ctx.tokens.length := by
  apply lt_of_nextT_ne_eof
  intro heq
  rw [heq] at h
  simp [Token.isString, EOFTok] at h

theorem lt_of_next_isNumber (st : PState)
    (h : (nextT ctx st).isNumber = true) : st.index < ctx.tokens.length := by
  apply lt_of_nextT_ne_eof
  intro heq
  rw [heq] at h
  simp [Token.isNumber, EOFTok] at h

theorem lt_of_next_isPrivateIdentifier (st : PState)
    (h : (nextT ctx st).isPrivateIdentifier = true) : st.index < ctx.tokens.length := by
  apply lt_of_nextT_ne_eof
  intro heq
  rw [heq] at h
  simp [Token.isPrivateIdentifier, EOFTok] at h

theorem consumeOptionalCharacter_spec (st : PState) (code : Char) (hcode : 0 < code.toNat)
    (b : Bool) (st' : PState) (h : consumeOptionalCharacter ctx st code = (b, st')) :
    (b = false → st' = st) ∧
      (b = true → st'.index = st.index + 1 ∧ st.index < ctx.tokens.length) := by
  unfold consumeOptionalCharacter at h
  split at h
  · rename_i hc
    injection h with h1 h2
    subst h1
    subst h2
    exact ⟨by simp, fun _ => ⟨rfl, lt_of_next_isCharacter ctx st code hcode hc⟩⟩
  · injection h with h1 h2
    subst h1
    subst h2
    exact ⟨fun _ => rfl, by simp⟩

theorem consumeOptionalOperator_spec (st : PState) (op : String)
    (b : Bool) (st' : PState) (h : consumeOptionalOperator ctx st op = (b, st')) :
    (b = false → st' = st) ∧
      (b = true → st'.index = st.index + 1 ∧ st.index < ctx.tokens.length) := by
  unfold consumeOptionalOperator at h
  split at h
  · rename_i hc
    injection h with h1 h2
    subst h1
    subst h2
    exact ⟨by simp, fun _ => ⟨rfl, lt_of_next_isOperator ctx st op hc⟩⟩
  · injection h with h1 h2
    subst h1
    subst h2
    exact ⟨fun _ => rfl, by simp⟩

theorem skipGoF_spec : ∀ (f : Nat) (st : PState),
    st.index ≤ (skipGoF ctx f st).index ∧
      (skipGoF ctx f st).index ≤ max st.index ctx.tokens.length := by
  intro f
  induction f with
  | zero => intro st; simp [skipGoF]
  | succ f ih =>
      intro st
      unfold skipGoF
      by_cases hc : skipCond ctx st = true
      · have hlt := skipCond_index_lt ctx st hc
        simp only [hc, if_true]
        split
        · rename_i herr
          have h2 := ih (advance
            { st with errors := st.errors ++
                [⟨(nextT ctx st).str, ctx.input, locationText ctx st none,
                  some ctx.location⟩] })
          have hidx : (advance
            { st with errors := st.errors ++
                [⟨(nextT ctx st).str, ctx.input, locationText ctx st none,
                  some ctx.location⟩] }).index = st.index + 1 := rfl
          omega
        · have h2 := ih (advance st)
          have hidx : (advance st).index = st.index + 1 := rfl
          omega
      · simp only [Bool.not_eq_true] at hc
        simp [hc]

theorem skipGo_spec (st : PState) :
    st.index ≤ (skipGo ctx st).index ∧
      (skipGo ctx st).index ≤ max st.index ctx.tokens.length := by
  unfold skipGo
  exact skipGoF_spec ctx (ctx.tokens.length + 1) st

theorem errorAndSkip_spec (message : String) (indexO : Option Int) (st : PState) :
    st.index ≤ (errorAndSkip ctx message indexO st).index ∧
      (errorAndSkip ctx message indexO st).index ≤ max st.index ctx.tokens.length := by
  unfold errorAndSkip
  have := skipGo_spec ctx
    { st with errors := st.errors ++
        [⟨message, ctx.input, locationText ctx st indexO, some ctx.location⟩] }
  simpa using this

theorem expectCharacter_spec (code : Char) (st : PState) (hcode : 0 < code.toNat) :
    st.index ≤ (expectCharacter ctx code st).index ∧
      (expectCharacter ctx code st).index ≤ max st.index ctx.tokens.length := by
  rcases hco : consumeOptionalCharacter ctx st code with ⟨b, st1⟩
  have hs := consumeOptionalCharacter_spec ctx st code hcode b st1 hco
  simp only [expectCharacter, hco]
  cases b with
  | true =>
      obtain ⟨h1, h2⟩ := hs.2 rfl
      simp only [if_true]
      omega
  | false =>
      have he : st1 = st := hs.1 rfl
      rw [he]
      simp only [Bool.false_eq_true, if_false]
      have hesp := errorAndSkip_spec ctx ("Missing expected " ++ String.singleton code) none st
      omega

theorem expectIdentifierOrKeyword_spec (st : PState) (o : Option String) (st' : PState)
    (h : expectIdentifierOrKeyword ctx st = (o, st')) :
    st.index ≤ st'.index ∧ st'.index ≤ max st.index ctx.tokens.length ∧
      (∀ s, o = some s → st'.index = st.index + 1 ∧ st.index < ctx.tokens.length) := by
  simp only [expectIdentifierOrKeyword] at h
  split at h
  · split at h
    · injection h with h1 h2
      subst h1
      subst h2
      unfold reportErrorForPrivateIdentifier
      refine ⟨(errorAndSkip_spec ctx _ none st).1, (errorAndSkip_spec ctx _ none st).2,
        by simp⟩
    · injection h with h1 h2
      subst h1
      subst h2
      refine ⟨(errorAndSkip_spec ctx _ none st).1, (errorAndSkip_spec ctx _ none st).2,
        by simp⟩
  · rename_i hc
    injection h with h1 h2
    subst h1
    subst h2
    have hlt : st.index < ctx.tokens.length := by
      by_cases hi : (nextT ctx st).isIdentifier = true
      · exact lt_of_next_isIdentifier ctx st hi
      · have hk : (nextT ctx st).isKeyword = true := by
          by_contra hk
          simp only [Bool.not_eq_true] at hi hk
          exact hc (by simp [hi, hk])
        exact lt_of_next_isKeyword ctx st hk
    refine ⟨by simp [advance], by simp [advance]; omega, fun s _ => ⟨rfl, hlt⟩⟩

/-- The string variant only needs: a string token is always consumed. -/
theorem expectIdentifierOrKeywordOrString_spec (st : PState) (r : String) (st' : PState)
    (h : expectIdentifierOrKeywordOrString ctx st = (r, st')) :
    st.index ≤ st'.index ∧ st'.index ≤ max st.index ctx.tokens.length ∧
      ((nextT ctx st).isString = true →
        st'.index = st.index + 1 ∧ st.index < ctx.tokens.length) := by
  simp only [expectIdentifierOrKeywordOrString] at h
  split at h
  · rename_i hc
    have hns : ¬ (nextT ctx st).isString = true := by
      intro hs
      simp [hs] at hc
    split at h
    · injection h with h1 h2
      subst h1
      subst h2
      unfold reportErrorForPrivateIdentifier
      refine ⟨(errorAndSkip_spec ctx _ none st).1, (errorAndSkip_spec ctx _ none st).2,
        fun hs => absurd hs hns⟩
    · injection h with h1 h2
      subst h1
      subst h2
      refine ⟨(errorAndSkip_spec ctx _ none st).1, (errorAndSkip_spec ctx _ none st).2,
        fun hs => absurd hs hns⟩
  · rename_i hc
    injection h with h1 h2
    subst h1
    subst h2
    have hlt : st.index < ctx.tokens.length := by
      by_cases hi : (nextT ctx st).isIdentifier = true
      · exact lt_of_next_isIdentifier ctx st hi
      · by_cases hk : (nextT ctx st).isKeyword = true
        · exact lt_of_next_isKeyword ctx st hk
        · have hs : (nextT ctx st).isString = true := by
            by_contra hs
            simp only [Bool.not_eq_true] at hi hk hs
            exact hc (by simp [hi, hk, hs])
          exact lt_of_next_isString ctx st hs
    refine ⟨by simp [advance], by simp [advance]; omega, fun _ => ⟨rfl, hlt⟩⟩

theorem consumeOptionalAssignment_spec (st : PState) (b : Bool) (st' : PState)
    (h : consumeOptionalAssignment ctx st = (b, st')) :
    st.index ≤ st'.index ∧ st'.index ≤ max st.index ctx.tokens.length ∧
      (b = true → st.index < st'.index) := by
  simp only [consumeOptionalAssignment] at h
  split at h
  · rename_i hc
    simp only [Bool.and_eq_true] at hc
    have h1 : (peekT ctx st 1).isOperator "=" = true := hc.2
    have hlt1 : st.index + 1 < ctx.tokens.length := by
      by_contra hge
      push_neg at hge
      have : peekT ctx st 1 = EOFTok := by
        unfold peekT
        rw [if_neg]
        push_neg
        intro
        omega
      rw [this] at h1
      simp [Token.isOperator, EOFTok] at h1
    injection h with hb h2
    subst hb
    subst h2
    refine ⟨by simp only [advance]; omega, by simp only [advance]; omega,
      fun _ => by simp only [advance]; omega⟩
  · rcases hco : consumeOptionalOperator ctx st "=" with ⟨b2, st2⟩
    rw [hco] at h
    injection h with hb h2
    subst hb
    subst h2
    have hs := consumeOptionalOperator_spec ctx st "=" b2 st2 hco
    cases b2 with
    | true =>
        obtain ⟨he, hl⟩ := hs.2 rfl
        exact ⟨by omega, by omega, fun _ => by omega⟩
    | false =>
        have := hs.1 rfl
        subst this
        exact ⟨le_refl _, by omega, by simp⟩

end TerminationTen


/-! #### Sufficient-fuel predicates

For each parse function we show: whenever the state index is within the
token list and the fuel is at least `40 * (remaining tokens) + c` (with a
per-function constant `c` ordering the same-index grammar descent), the
fuel-indexed function succeeds, and the index moves monotonically without
passing the end of the token list.  This is exactly the code's termination
argument: every loop iteration consumes at least one token (worth a fresh
budget of 40, enough for the deepest same-index descent chain) or breaks. -/

def SuffAt {α : Type} (ctx : PCtx) (c f : Nat) (g : PState → Option (α × PState))
    (st : PState) : Prop :=
  st.index ≤ ctx.tokens.length → 40 * (ctx.tokens.length - st.index) + c ≤ f →
    ∃ r st', g st = some (r, st') ∧ st.index ≤ st'.index ∧ st'.index ≤ ctx.tokens.length

def SuffStAt (ctx : PCtx) (c f : Nat) (g : PState → Option PState) (st : PState) : Prop :=
  st.index ≤ ctx.tokens.length → 40 * (ctx.tokens.length - st.index) + c ≤ f →
    ∃ st', g st = some st' ∧ st.index ≤ st'.index ∧ st'.index ≤ ctx.tokens.length

def SuffMapAt (ctx : PCtx) (c f : Nat)
    (g : PState → Option (List LiteralMapKey × List EAst × PState)) (st : PState) : Prop :=
  st.index ≤ ctx.tokens.length → 40 * (ctx.tokens.length - st.index) + c ≤ f →
    ∃ ks vs st', g st = some (ks, vs, st') ∧
      st.index ≤ st'.index ∧ st'.index ≤ ctx.tokens.length

/-- The bundled induction statement: sufficiency of fuel `f` for every
function of the parser's mutual recursion at once. -/
def SuffAll (ctx : PCtx) (f : Nat) : Prop :=
  (∀ st, SuffAt ctx 22 f (parseChainF ctx f) st) ∧
  (∀ exprs st, SuffAt ctx 21 f (chainLoopF ctx f exprs) st) ∧
  (∀ st, SuffStAt ctx 1 f (semiSkipLoopF ctx f) st) ∧
  (∀ st, SuffAt ctx 20 f (parsePipeF ctx f) st) ∧
  (∀ start result st, SuffAt ctx 2 f (pipeLoopF ctx f start result) st) ∧
  (∀ args st, SuffAt ctx 1 f (pipeArgsLoopF ctx f args) st) ∧
  (∀ st, SuffAt ctx 19 f (parseExpressionF ctx f) st) ∧
  (∀ st, SuffAt ctx 18 f (parseConditionalF ctx f) st) ∧
  (∀ st, SuffAt ctx 17 f (parseLogicalOrF ctx f) st) ∧
  (∀ start result st, SuffAt ctx 1 f (orLoopF ctx f start result) st) ∧
  (∀ st, SuffAt ctx 16 f (parseLogicalAndF ctx f) st) ∧
  (∀ start result st, SuffAt ctx 1 f (andLoopF ctx f start result) st) ∧
  (∀ st, SuffAt ctx 15 f (parseNullishCoalescingF ctx f) st) ∧
  (∀ start result st, SuffAt ctx 1 f (nullishLoopF ctx f start result) st) ∧
  (∀ st, SuffAt ctx 14 f (parseEqualityF ctx f) st) ∧
  (∀ start result st, SuffAt ctx 1 f (eqLoopF ctx f start result) st) ∧
  (∀ st, SuffAt ctx 13 f (parseRelationalF ctx f) st) ∧
  (∀ start result st, SuffAt ctx 1 f (relLoopF ctx f start result) st) ∧
  (∀ st, SuffAt ctx 12 f (parseAdditiveF ctx f) st) ∧
  (∀ start result st, SuffAt ctx 1 f (addLoopF ctx f start result) st) ∧
  (∀ st, SuffAt ctx 11 f (parseMultiplicativeF ctx f) st) ∧
  (∀ start result st, SuffAt ctx 1 f (mulLoopF ctx f start result) st) ∧
  (∀ st, SuffAt ctx 10 f (parsePrefixF ctx f) st) ∧
  (∀ st, SuffAt ctx 9 f (parseCallChainF ctx f) st) ∧
  (∀ start result st, SuffAt ctx 8 f (callChainLoopF ctx f start result) st) ∧
  (∀ st, SuffAt ctx 8 f (parsePrimaryF ctx f) st) ∧
  (∀ t st, SuffAt ctx 22 f (parseExpressionListF ctx f t) st) ∧
  (∀ t res st, SuffAt ctx 21 f (exprListLoopF ctx f t res) st) ∧
  (∀ st, SuffAt ctx 7 f (parseLiteralMapF ctx f) st) ∧
  (∀ keys vals st, SuffMapAt ctx 1 f (literalMapLoopF ctx f keys vals) st) ∧
  (∀ recv start isSafe st, SuffAt ctx 7 f (parseAccessMemberF ctx f recv start isSafe) st) ∧
  (∀ recv start isSafe st, SuffAt ctx 24 f (parseCallF ctx f recv start isSafe) st) ∧
  (∀ st, SuffAt ctx 23 f (parseCallArgumentsF ctx f) st) ∧
  (∀ pos st, SuffAt ctx 21 f (callArgsLoopF ctx f pos) st) ∧
  (∀ recv start isSafe st, SuffAt ctx 21 f (parseKeyedReadOrWriteF ctx f recv start isSafe) st)

section SuffSteps

variable (ctx : PCtx) (f : Nat)

theorem suffStep_expression
    (ihCond : ∀ st, SuffAt ctx 18 f (parseConditionalF ctx f) st) :
    ∀ st, SuffAt ctx 19 (f + 1) (parseExpressionF ctx (f + 1)) st := by
  intro st hL hbud
  obtain ⟨r, st1, he, h1, h2⟩ := ihCond st hL (by omega)
  exact ⟨r, st1, by simp only [parseExpressionF]; exact he, h1, h2⟩

theorem suffStep_logicalOr
    (ihAnd : ∀ st, SuffAt ctx 16 f (parseLogicalAndF ctx f) st)
    (ihLoop : ∀ start result st, SuffAt ctx 1 f (orLoopF ctx f start result) st) :
    ∀ st, SuffAt ctx 17 (f + 1) (parseLogicalOrF ctx (f + 1)) st := by
  intro st hL hbud
  obtain ⟨r1, st1, he1, h11, h12⟩ := ihAnd st hL (by omega)
  obtain ⟨r2, st2, he2, h21, h22⟩ := ihLoop (inputIndex ctx st) r1 st1 h12 (by omega)
  exact ⟨r2, st2, by simp only [parseLogicalOrF, he1]; exact he2, by omega, h22⟩

theorem suffStep_orLoop
    (ihAnd : ∀ st, SuffAt ctx 16 f (parseLogicalAndF ctx f) st)
    (ihSelf : ∀ start result st, SuffAt ctx 1 f (orLoopF ctx f start result) st) :
    ∀ start result st, SuffAt ctx 1 (f + 1) (orLoopF ctx (f + 1) start result) st := by
  intro start result st hL hbud
  rcases hco : consumeOptionalOperator ctx st "||" with ⟨c, st1⟩
  have hcs := consumeOptionalOperator_spec ctx st "||" c st1 hco
  cases c with
  | false =>
      have he : st1 = st := hcs.1 rfl
      subst he
      exact ⟨result, st1, by simp only [orLoopF, hco]; rfl, le_refl _, hL⟩
  | true =>
      obtain ⟨hidx, hlt⟩ := hcs.2 rfl
      obtain ⟨r1, st2, he1, h11, h12⟩ := ihAnd st1 (by omega) (by omega)
      obtain ⟨r2, st3, he2, h21, h22⟩ := ihSelf start
        (.binary (pSpan ctx st2 start none) (pSourceSpan ctx st2 start none) "||"
          result r1) st2 h12 (by omega)
      exact ⟨r2, st3, by simp only [orLoopF, hco, he1]; exact he2, by omega, h22⟩

theorem suffStep_logicalAnd
    (ihNull : ∀ st, SuffAt ctx 15 f (parseNullishCoalescingF ctx f) st)
    (ihLoop : ∀ start result st, SuffAt ctx 1 f (andLoopF ctx f start result) st) :
    ∀ st, SuffAt ctx 16 (f + 1) (parseLogicalAndF ctx (f + 1)) st := by
  intro st hL hbud
  obtain ⟨r1, st1, he1, h11, h12⟩ := ihNull st hL (by omega)
  obtain ⟨r2, st2, he2, h21, h22⟩ := ihLoop (inputIndex ctx st) r1 st1 h12 (by omega)
  exact ⟨r2, st2, by simp only [parseLogicalAndF, he1]; exact he2, by omega, h22⟩

theorem suffStep_andLoop
    (ihNull : ∀ st, SuffAt ctx 15 f (parseNullishCoalescingF ctx f) st)
    (ihSelf : ∀ start result st, SuffAt ctx 1 f (andLoopF ctx f start result) st) :
    ∀ start result st, SuffAt ctx 1 (f + 1) (andLoopF ctx (f + 1) start result) st := by
  intro start result st hL hbud
  rcases hco : consumeOptionalOperator ctx st "&&" with ⟨c, st1⟩
  have hcs := consumeOptionalOperator_spec ctx st "&&" c st1 hco
  cases c with
  | false =>
      have he : st1 = st := hcs.1 rfl
      subst he
      exact ⟨result, st1, by simp only [andLoopF, hco]; rfl, le_refl _, hL⟩
  | true =>
      obtain ⟨hidx, hlt⟩ := hcs.2 rfl
      obtain ⟨r1, st2, he1, h11, h12⟩ := ihNull st1 (by omega) (by omega)
      obtain ⟨r2, st3, he2, h21, h22⟩ := ihSelf start
        (.binary (pSpan ctx st2 start none) (pSourceSpan ctx st2 start none) "&&"
          result r1) st2 h12 (by omega)
      exact ⟨r2, st3, by simp only [andLoopF, hco, he1]; exact he2, by omega, h22⟩

theorem suffStep_nullish
    (ihEq : ∀ st, SuffAt ctx 14 f (parseEqualityF ctx f) st)
    (ihLoop : ∀ start result st, SuffAt ctx 1 f (nullishLoopF ctx f start result) st) :
    ∀ st, SuffAt ctx 15 (f + 1) (parseNullishCoalescingF ctx (f + 1)) st := by
  intro st hL hbud
  obtain ⟨r1, st1, he1, h11, h12⟩ := ihEq st hL (by omega)
  obtain ⟨r2, st2, he2, h21, h22⟩ := ihLoop (inputIndex ctx st) r1 st1 h12 (by omega)
  exact ⟨r2, st2, by simp only [parseNullishCoalescingF, he1]; exact he2, by omega, h22⟩

theorem suffStep_nullishLoop
    (ihEq : ∀ st, SuffAt ctx 14 f (parseEqualityF ctx f) st)
    (ihSelf : ∀ start result st, SuffAt ctx 1 f (nullishLoopF ctx f start result) st) :
    ∀ start result st, SuffAt ctx 1 (f + 1) (nullishLoopF ctx (f + 1) start result) st := by
  intro start result st hL hbud
  rcases hco : consumeOptionalOperator ctx st "??" with ⟨c, st1⟩
  have hcs := consumeOptionalOperator_spec ctx st "??" c st1 hco
  cases c with
  | false =>
      have he : st1 = st := hcs.1 rfl
      subst he
      exact ⟨result, st1, by simp only [nullishLoopF, hco]; rfl, le_refl _, hL⟩
  | true =>
      obtain ⟨hidx, hlt⟩ := hcs.2 rfl
      obtain ⟨r1, st2, he1, h11, h12⟩ := ihEq st1 (by omega) (by omega)
      obtain ⟨r2, st3, he2, h21, h22⟩ := ihSelf start
        (.binary (pSpan ctx st2 start none) (pSourceSpan ctx st2 start none) "??"
          result r1) st2 h12 (by omega)
      exact ⟨r2, st3, by simp only [nullishLoopF, hco, he1]; exact he2, by omega, h22⟩

theorem suffStep_equality
    (ihRel : ∀ st, SuffAt ctx 13 f (parseRelationalF ctx f) st)
    (ihLoop : ∀ start result st, SuffAt ctx 1 f (eqLoopF ctx f start result) st) :
    ∀ st, SuffAt ctx 14 (f + 1) (parseEqualityF ctx (f + 1)) st := by
  intro st hL hbud
  obtain ⟨r1, st1, he1, h11, h12⟩ := ihRel st hL (by omega)
  obtain ⟨r2, st2, he2, h21, h22⟩ := ihLoop (inputIndex ctx st) r1 st1 h12 (by omega)
  exact ⟨r2, st2, by simp only [parseEqualityF, he1]; exact he2, by omega, h22⟩

theorem suffStep_eqLoop
    (ihRel : ∀ st, SuffAt ctx 13 f (parseRelationalF ctx f) st)
    (ihSelf : ∀ start result st, SuffAt ctx 1 f (eqLoopF ctx f start result) st) :
    ∀ start result st, SuffAt ctx 1 (f + 1) (eqLoopF ctx (f + 1) start result) st := by
  intro start result st hL hbud
  by_cases hc : (nextT ctx st).type = TokenType.operator ∧
      ((nextT ctx st).strValue = "==" ∨ (nextT ctx st).strValue = "===" ∨
        (nextT ctx st).strValue = "!=" ∨ (nextT ctx st).strValue = "!==")
  case neg =>
      exact ⟨result, st, by simp only [eqLoopF]; rw [if_neg hc], le_refl _, hL⟩
  case pos =>
      have hlt := lt_of_next_type_operator ctx st hc.1
      have hadv : (advance st).index = st.index + 1 := rfl
      obtain ⟨r1, st2, he1, h11, h12⟩ := ihRel (advance st) (by omega) (by omega)
      obtain ⟨r2, st3, he2, h21, h22⟩ := ihSelf start
        (.binary (pSpan ctx st2 start none) (pSourceSpan ctx st2 start none)
          (nextT ctx st).strValue result r1) st2 h12 (by omega)
      refine ⟨r2, st3, ?_, by omega, h22⟩
      simp only [eqLoopF]
      rw [if_pos hc]
      simp only [he1]
      exact he2

theorem suffStep_relational
    (ihAdd : ∀ st, SuffAt ctx 12 f (parseAdditiveF ctx f) st)
    (ihLoop : ∀ start result st, SuffAt ctx 1 f (relLoopF ctx f start result) st) :
    ∀ st, SuffAt ctx 13 (f + 1) (parseRelationalF ctx (f + 1)) st := by
  intro st hL hbud
  obtain ⟨r1, st1, he1, h11, h12⟩ := ihAdd st hL (by omega)
  obtain ⟨r2, st2, he2, h21, h22⟩ := ihLoop (inputIndex ctx st) r1 st1 h12 (by omega)
  exact ⟨r2, st2, by simp only [parseRelationalF, he1]; exact he2, by omega, h22⟩

theorem suffStep_relLoop
    (ihAdd : ∀ st, SuffAt ctx 12 f (parseAdditiveF ctx f) st)
    (ihSelf : ∀ start result st, SuffAt ctx 1 f (relLoopF ctx f start result) st) :
    ∀ start result st, SuffAt ctx 1 (f + 1) (relLoopF ctx (f + 1) start result) st := by
  intro start result st hL hbud
  by_cases hc : (nextT ctx st).type = TokenType.operator ∧
      ((nextT ctx st).strValue = "<" ∨ (nextT ctx st).strValue = ">" ∨
        (nextT ctx st).strValue = "<=" ∨ (nextT ctx st).strValue = ">=")
  case neg =>
      exact ⟨result, st, by simp only [relLoopF]; rw [if_neg hc], le_refl _, hL⟩
  case pos =>
      have hlt := lt_of_next_type_operator ctx st hc.1
      have hadv : (advance st).index = st.index + 1 := rfl
      obtain ⟨r1, st2, he1, h11, h12⟩ := ihAdd (advance st) (by omega) (by omega)
      obtain ⟨r2, st3, he2, h21, h22⟩ := ihSelf start
        (.binary (pSpan ctx st2 start none) (pSourceSpan ctx st2 start none)
          (nextT ctx st).strValue result r1) st2 h12 (by omega)
      refine ⟨r2, st3, ?_, by omega, h22⟩
      simp only [relLoopF]
      rw [if_pos hc]
      simp only [he1]
      exact he2

theorem suffStep_additive
    (ihMul : ∀ st, SuffAt ctx 11 f (parseMultiplicativeF ctx f) st)
    (ihLoop : ∀ start result st, SuffAt ctx 1 f (addLoopF ctx f start result) st) :
    ∀ st, SuffAt ctx 12 (f + 1) (parseAdditiveF ctx (f + 1)) st := by
  intro st hL hbud
  obtain ⟨r1, st1, he1, h11, h12⟩ := ihMul st hL (by omega)
  obtain ⟨r2, st2, he2, h21, h22⟩ := ihLoop (inputIndex ctx st) r1 st1 h12 (by omega)
  exact ⟨r2, st2, by simp only [parseAdditiveF, he1]; exact he2, by omega, h22⟩

theorem suffStep_addLoop
    (ihMul : ∀ st, SuffAt ctx 11 f (parseMultiplicativeF ctx f) st)
    (ihSelf : ∀ start result st, SuffAt ctx 1 f (addLoopF ctx f start result) st) :
    ∀ start result st, SuffAt ctx 1 (f + 1) (addLoopF ctx (f + 1) start result) st := by
  intro start result st hL hbud
  by_cases hc : (nextT ctx st).type = TokenType.operator ∧
      ((nextT ctx st).strValue = "+" ∨ (nextT ctx st).strValue = "-")
  case neg =>
      exact ⟨result, st, by simp only [addLoopF]; rw [if_neg hc], le_refl _, hL⟩
  case pos =>
      have hlt := lt_of_next_type_operator ctx st hc.1
      have hadv : (advance st).index = st.index + 1 := rfl
      obtain ⟨r1, st2, he1, h11, h12⟩ := ihMul (advance st) (by omega) (by omega)
      obtain ⟨r2, st3, he2, h21, h22⟩ := ihSelf start
        (.binary (pSpan ctx st2 start none) (pSourceSpan ctx st2 start none)
          (nextT ctx st).strValue result r1) st2 h12 (by omega)
      refine ⟨r2, st3, ?_, by omega, h22⟩
      simp only [addLoopF]
      rw [if_pos hc]
      simp only [he1]
      exact he2

theorem suffStep_multiplicative
    (ihPre : ∀ st, SuffAt ctx 10 f (parsePrefixF ctx f) st)
    (ihLoop : ∀ start result st, SuffAt ctx 1 f (mulLoopF ctx f start result) st) :
    ∀ st, SuffAt ctx 11 (f + 1) (parseMultiplicativeF ctx (f + 1)) st := by
  intro st hL hbud
  obtain ⟨r1, st1, he1, h11, h12⟩ := ihPre st hL (by omega)
  obtain ⟨r2, st2, he2, h21, h22⟩ := ihLoop (inputIndex ctx st) r1 st1 h12 (by omega)
  exact ⟨r2, st2, by simp only [parseMultiplicativeF, he1]; exact he2, by omega, h22⟩

theorem suffStep_mulLoop
    (ihPre : ∀ st, SuffAt ctx 10 f (parsePrefixF ctx f) st)
    (ihSelf : ∀ start result st, SuffAt ctx 1 f (mulLoopF ctx f start result) st) :
    ∀ start result st, SuffAt ctx 1 (f + 1) (mulLoopF ctx (f + 1) start result) st := by
  intro start result st hL hbud
  by_cases hc : (nextT ctx st).type = TokenType.operator ∧
      ((nextT ctx st).strValue = "*" ∨ (nextT ctx st).strValue = "%" ∨
        (nextT ctx st).strValue = "/")
  case neg =>
      exact ⟨result, st, by simp only [mulLoopF]; rw [if_neg hc], le_refl _, hL⟩
  case pos =>
      have hlt := lt_of_next_type_operator ctx st hc.1
      have hadv : (advance st).index = st.index + 1 := rfl
      obtain ⟨r1, st2, he1, h11, h12⟩ := ihPre (advance st) (by omega) (by omega)
      obtain ⟨r2, st3, he2, h21, h22⟩ := ihSelf start
        (.binary (pSpan ctx st2 start none) (pSourceSpan ctx st2 start none)
          (nextT ctx st).strValue result r1) st2 h12 (by omega)
      refine ⟨r2, st3, ?_, by omega, h22⟩
      simp only [mulLoopF]
      rw [if_pos hc]
      simp only [he1]
      exact he2

theorem suffStep_prefix
    (ihSelf : ∀ st, SuffAt ctx 10 f (parsePrefixF ctx f) st)
    (ihCC : ∀ st, SuffAt ctx 9 f (parseCallChainF ctx f) st) :
    ∀ st, SuffAt ctx 10 (f + 1) (parsePrefixF ctx (f + 1)) st := by
  intro st hL hbud
  by_cases hc : (nextT ctx st).type = TokenType.operator ∧
      ((nextT ctx st).strValue = "+" ∨ (nextT ctx st).strValue = "-" ∨
        (nextT ctx st).strValue = "!")
  case neg =>
      obtain ⟨r1, st1, he1, h11, h12⟩ := ihCC st hL (by omega)
      refine ⟨r1, st1, ?_, h11, h12⟩
      simp only [parsePrefixF]
      rw [if_neg hc]
      exact he1
  case pos =>
      have hlt := lt_of_next_type_operator ctx st hc.1
      have hadv : (advance st).index = st.index + 1 := rfl
      obtain ⟨r1, st2, he1, h11, h12⟩ := ihSelf (advance st) (by omega) (by omega)
      refine ⟨?_, st2, ?_, by omega, h12⟩
      · exact if (nextT ctx st).strValue = "+" then
          .unary (pSpan ctx st2 (inputIndex ctx st) none)
            (pSourceSpan ctx st2 (inputIndex ctx st) none) "+" r1
        else if (nextT ctx st).strValue = "-" then
          .unary (pSpan ctx st2 (inputIndex ctx st) none)
            (pSourceSpan ctx st2 (inputIndex ctx st) none) "-" r1
        else
          .prefixNot (pSpan ctx st2 (inputIndex ctx st) none)
            (pSourceSpan ctx st2 (inputIndex ctx st) none) r1
      · simp only [parsePrefixF]
        rw [if_pos hc]
        simp only [he1]
        by_cases h1 : (nextT ctx st).strValue = "+"
        · simp [h1]
        · by_cases h2 : (nextT ctx st).strValue = "-" <;> simp [h1, h2]

theorem suffStep_callChain
    (ihPrim : ∀ st, SuffAt ctx 8 f (parsePrimaryF ctx f) st)
    (ihLoop : ∀ start result st, SuffAt ctx 8 f (callChainLoopF ctx f start result) st) :
    ∀ st, SuffAt ctx 9 (f + 1) (parseCallChainF ctx (f + 1)) st := by
  intro st hL hbud
  obtain ⟨r1, st1, he1, h11, h12⟩ := ihPrim st hL (by omega)
  obtain ⟨r2, st2, he2, h21, h22⟩ := ihLoop (inputIndex ctx st) r1 st1 h12 (by omega)
  exact ⟨r2, st2, by simp only [parseCallChainF, he1]; exact he2, by omega, h22⟩

theorem suffStep_chain
    (ihLoop : ∀ exprs st, SuffAt ctx 21 f (chainLoopF ctx f exprs) st) :
    ∀ st, SuffAt ctx 22 (f + 1) (parseChainF ctx (f + 1)) st := by
  intro st hL hbud
  obtain ⟨exprs, st1, he, h1, h2⟩ := ihLoop [] st hL (by omega)
  simp only [parseChainF, he]
  match exprs with
  | [] => exact ⟨_, st1, rfl, h1, h2⟩
  | [e] => exact ⟨e, st1, rfl, h1, h2⟩
  | e1 :: e2 :: rest => exact ⟨_, st1, rfl, h1, h2⟩

theorem suffStep_semiSkip
    (ihSelf : ∀ st, SuffStAt ctx 1 f (semiSkipLoopF ctx f) st) :
    ∀ st, SuffStAt ctx 1 (f + 1) (semiSkipLoopF ctx (f + 1)) st := by
  intro st hL hbud
  rcases hco : consumeOptionalCharacter ctx st ';' with ⟨c, st1⟩
  have hcs := consumeOptionalCharacter_spec ctx st ';' (by decide) c st1 hco
  cases c with
  | false =>
      have he : st1 = st := hcs.1 rfl
      subst he
      exact ⟨st1, by simp only [semiSkipLoopF, hco]; rfl, le_refl _, hL⟩
  | true =>
      obtain ⟨hidx, hlt⟩ := hcs.2 rfl
      obtain ⟨st2, he1, h11, h12⟩ := ihSelf st1 (by omega) (by omega)
      exact ⟨st2, by simp only [semiSkipLoopF, hco]; exact he1, by omega, h12⟩

theorem suffStep_exprList
    (ihLoop : ∀ t res st, SuffAt ctx 21 f (exprListLoopF ctx f t res) st) :
    ∀ t st, SuffAt ctx 22 (f + 1) (parseExpressionListF ctx (f + 1) t) st := by
  intro t st hL hbud
  obtain ⟨r1, st1, he1, h11, h12⟩ := ihLoop t [] st hL (by omega)
  exact ⟨r1, st1, by simp only [parseExpressionListF]; exact he1, h11, h12⟩

theorem suffStep_callArgs
    (ihLoop : ∀ pos st, SuffAt ctx 21 f (callArgsLoopF ctx f pos) st) :
    ∀ st, SuffAt ctx 23 (f + 1) (parseCallArgumentsF ctx (f + 1)) st := by
  intro st hL hbud
  by_cases hc : (nextT ctx st).isCharacter ')' = true
  case pos =>
      exact ⟨[], st, by simp only [parseCallArgumentsF, hc, if_true], le_refl _, hL⟩
  case neg =>
      obtain ⟨r1, st1, he1, h11, h12⟩ := ihLoop [] st hL (by omega)
      refine ⟨r1, st1, ?_, h11, h12⟩
      simp only [parseCallArgumentsF]
      rw [if_neg hc]
      exact he1

end SuffSteps


section SuffStepsTwo

variable (ctx : PCtx) (f : Nat)

theorem lt_of_next_type_keyword (st : PState)
    (h : (nextT ctx st).type = TokenType.keyword) : st.index < ctx.tokens.length := by
  apply lt_of_nextT_ne_eof
  intro heq
  rw [heq] at h
  simp [EOFTok] at h

theorem reportErrorForPrivateIdentifier_spec (token : Token) (extraMessage : Option String)
    (st : PState) :
    st.index ≤ (reportErrorForPrivateIdentifier ctx token extraMessage st).index ∧
      (reportErrorForPrivateIdentifier ctx token extraMessage st).index ≤
        max st.index ctx.tokens.length := by
  unfold reportErrorForPrivateIdentifier
  exact errorAndSkip_spec ctx _ none st

theorem suffStep_chainLoop
    (ihPipe : ∀ st, SuffAt ctx 20 f (parsePipeF ctx f) st)
    (ihSemi : ∀ st, SuffStAt ctx 1 f (semiSkipLoopF ctx f) st)
    (ihSelf : ∀ exprs st, SuffAt ctx 21 f (chainLoopF ctx f exprs) st) :
    ∀ exprs st, SuffAt ctx 21 (f + 1) (chainLoopF ctx (f + 1) exprs) st := by
  intro exprs st hL hbud
  by_cases hlt : st.index < ctx.tokens.length
  case neg =>
      refine ⟨exprs, st, ?_, le_refl _, hL⟩
      simp only [chainLoopF]
      rw [if_neg hlt]
  case pos =>
      obtain ⟨expr, st1, hp, hp1, hp2⟩ := ihPipe st hL (by omega)
      rcases hse : consumeOptionalCharacter ctx st1 ';' with ⟨semi, st2⟩
      have hscs := consumeOptionalCharacter_spec ctx st1 ';' (by decide) semi st2 hse
      cases semi with
      | true =>
          obtain ⟨hs1, hs2⟩ := hscs.2 rfl
          set st3 := (if !ctx.flagAction then
              errorAndSkip ctx "Binding expression cannot contain chained expression" none st2
            else st2) with hst3
          have h31 : st2.index ≤ st3.index ∧
              st3.index ≤ max st2.index ctx.tokens.length := by
            rw [hst3]
            by_cases hfa : (!ctx.flagAction) = true
            · rw [if_pos hfa]
              exact errorAndSkip_spec ctx
                "Binding expression cannot contain chained expression" none st2
            · rw [if_neg hfa]
              exact ⟨le_refl _, le_max_left _ _⟩
          obtain ⟨h3a, h3b⟩ := h31
          obtain ⟨st4, hsm, h41, h42⟩ := ihSemi st3 (by omega) (by omega)
          obtain ⟨r5, st5, hrec, h51, h52⟩ := ihSelf (exprs ++ [expr]) st4 h42 (by omega)
          refine ⟨r5, st5, ?_, by omega, h52⟩
          simp only [chainLoopF]
          rw [if_pos hlt]
          simp only [hp, hse, ← hst3, hsm]
          exact hrec
      | false =>
          have he2 : st2 = st1 := hscs.1 rfl
          have he2i : st2.index = st1.index := by rw [he2]
          by_cases hlt2 : st2.index < ctx.tokens.length
          case pos =>
              set st3 := errorAndSkip ctx
                ("Unexpected token '" ++ (nextT ctx st2).str ++ "'") none st2 with hst3
              have hesp : st2.index ≤ st3.index ∧
                  st3.index ≤ max st2.index ctx.tokens.length := by
                rw [hst3]
                exact errorAndSkip_spec ctx _ none st2
              obtain ⟨hE1, hE2⟩ := hesp
              by_cases hbk : st3.index = st2.index
              case pos =>
                  refine ⟨exprs ++ [expr], st3, ?_, by omega, by omega⟩
                  simp only [chainLoopF]
                  rw [if_pos hlt]
                  simp only [hp, hse, ← hst3]
                  rw [if_pos hlt2, if_pos hbk]
                  rfl
              case neg =>
                  obtain ⟨r5, st5, hrec, h51, h52⟩ := ihSelf (exprs ++ [expr]) st3
                    (by omega) (by omega)
                  refine ⟨r5, st5, ?_, by omega, h52⟩
                  simp only [chainLoopF]
                  rw [if_pos hlt]
                  simp only [hp, hse, ← hst3]
                  rw [if_pos hlt2, if_neg hbk]
                  exact hrec
          case neg =>
              obtain ⟨r5, st5, hrec, h51, h52⟩ := ihSelf (exprs ++ [expr]) st2
                (by omega) (by omega)
              refine ⟨r5, st5, ?_, by omega, h52⟩
              simp only [chainLoopF]
              rw [if_pos hlt]
              simp only [hp, hse]
              rw [if_neg hlt2]
              exact hrec

theorem suffStep_pipe
    (ihExpr : ∀ st, SuffAt ctx 19 f (parseExpressionF ctx f) st)
    (ihLoop : ∀ start result st, SuffAt ctx 2 f (pipeLoopF ctx f start result) st) :
    ∀ st, SuffAt ctx 20 (f + 1) (parsePipeF ctx (f + 1)) st := by
  intro st hL hbud
  obtain ⟨r1, st1, he1, h11, h12⟩ := ihExpr st hL (by omega)
  rcases hco : consumeOptionalOperator ctx st1 "|" with ⟨c, st2⟩
  have hcs := consumeOptionalOperator_spec ctx st1 "|" c st2 hco
  cases c with
  | false =>
      have h2e : st2 = st1 := hcs.1 rfl
      have h2i : st2.index = st1.index := by rw [h2e]
      refine ⟨r1, st2, ?_, by omega, by omega⟩
      simp only [parsePipeF, he1, hco]
      rfl
  | true =>
      obtain ⟨hs1, hs2⟩ := hcs.2 rfl
      set st3 := (if ctx.flagAction then
          errorAndSkip ctx "Cannot have a pipe in an action expression" none st2
        else st2) with hst3
      have h31 : st2.index ≤ st3.index ∧ st3.index ≤ max st2.index ctx.tokens.length := by
        rw [hst3]
        by_cases hfa : ctx.flagAction = true
        · rw [if_pos hfa]
          exact errorAndSkip_spec ctx "Cannot have a pipe in an action expression" none st2
        · rw [if_neg hfa]
          exact ⟨le_refl _, le_max_left _ _⟩
      obtain ⟨h3a, h3b⟩ := h31
      obtain ⟨r2, st4, he2, h41, h42⟩ := ihLoop (inputIndex ctx st) r1 st3
        (by omega) (by omega)
      refine ⟨r2, st4, ?_, by omega, h42⟩
      simp only [parsePipeF, he1, hco, ← hst3]
      exact he2

theorem suffStep_pipeArgs
    (ihExpr : ∀ st, SuffAt ctx 19 f (parseExpressionF ctx f) st)
    (ihSelf : ∀ args st, SuffAt ctx 1 f (pipeArgsLoopF ctx f args) st) :
    ∀ args st, SuffAt ctx 1 (f + 1) (pipeArgsLoopF ctx (f + 1) args) st := by
  intro args st hL hbud
  rcases hco : consumeOptionalCharacter ctx st ':' with ⟨c, st1⟩
  have hcs := consumeOptionalCharacter_spec ctx st ':' (by decide) c st1 hco
  cases c with
  | false =>
      have h1e : st1 = st := hcs.1 rfl
      have h1i : st1.index = st.index := by rw [h1e]
      refine ⟨args, st1, ?_, by omega, by omega⟩
      simp only [pipeArgsLoopF, hco]
      rfl
  | true =>
      obtain ⟨hs1, hs2⟩ := hcs.2 rfl
      obtain ⟨e, st2, hex, h21, h22⟩ := ihExpr st1 (by omega) (by omega)
      obtain ⟨r3, st3, hrec, h31, h32⟩ := ihSelf (args ++ [e]) st2 h22 (by omega)
      refine ⟨r3, st3, ?_, by omega, h32⟩
      simp only [pipeArgsLoopF, hco, hex]
      exact hrec

theorem suffStep_pipeLoop
    (ihArgs : ∀ args st, SuffAt ctx 1 f (pipeArgsLoopF ctx f args) st)
    (ihSelf : ∀ start result st, SuffAt ctx 2 f (pipeLoopF ctx f start result) st) :
    ∀ start result st, SuffAt ctx 2 (f + 1) (pipeLoopF ctx (f + 1) start result) st := by
  intro start result st hL hbud
  rcases hei : expectIdentifierOrKeyword ctx st with ⟨nameIdO, st1⟩
  obtain ⟨he1, he2, he3⟩ := expectIdentifierOrKeyword_spec ctx st nameIdO st1 hei
  obtain ⟨args, st2, hpa, h21, h22⟩ := ihArgs [] st1 (by omega) (by omega)
  rcases hco : consumeOptionalOperator ctx st2 "|" with ⟨c, st3⟩
  have hcs := consumeOptionalOperator_spec ctx st2 "|" c st3 hco
  cases c with
  | false =>
      have h3e : st3 = st2 := hcs.1 rfl
      have h3i : st3.index = st2.index := by rw [h3e]
      cases nameIdO with
      | none =>
          have hA : st.index ≤ st3.index := by omega
          have hB : st3.index ≤ ctx.tokens.length := by omega
          simp only [pipeLoopF, hei, hpa, hco]
          exact ⟨_, st3, rfl, hA, hB⟩
      | some nm =>
          have hA : st.index ≤ st3.index := by omega
          have hB : st3.index ≤ ctx.tokens.length := by omega
          simp only [pipeLoopF, hei, hpa, hco]
          exact ⟨_, st3, rfl, hA, hB⟩
  | true =>
      obtain ⟨hs1, hs2⟩ := hcs.2 rfl
      cases nameIdO with
      | none =>
          obtain ⟨r4, st4, hrec, h41, h42⟩ := ihSelf start _ st3 (by omega) (by omega)
          refine ⟨r4, st4, ?_, by omega, h42⟩
          simp only [pipeLoopF, hei, hpa, hco]
          exact hrec
      | some nm =>
          obtain ⟨r4, st4, hrec, h41, h42⟩ := ihSelf start _ st3 (by omega) (by omega)
          refine ⟨r4, st4, ?_, by omega, h42⟩
          simp only [pipeLoopF, hei, hpa, hco]
          exact hrec

theorem suffStep_conditional
    (ihOr : ∀ st, SuffAt ctx 17 f (parseLogicalOrF ctx f) st)
    (ihPipe : ∀ st, SuffAt ctx 20 f (parsePipeF ctx f) st) :
    ∀ st, SuffAt ctx 18 (f + 1) (parseConditionalF ctx (f + 1)) st := by
  intro st hL hbud
  obtain ⟨r1, st1, ho, h11, h12⟩ := ihOr st hL (by omega)
  rcases hco : consumeOptionalOperator ctx st1 "?" with ⟨c, st2⟩
  have hcs := consumeOptionalOperator_spec ctx st1 "?" c st2 hco
  cases c with
  | false =>
      have h2e : st2 = st1 := hcs.1 rfl
      have h2i : st2.index = st1.index := by rw [h2e]
      refine ⟨r1, st2, ?_, by omega, by omega⟩
      simp only [parseConditionalF, ho, hco]
      rfl
  | true =>
      obtain ⟨hs1, hs2⟩ := hcs.2 rfl
      obtain ⟨yes, st3, hy, h31, h32⟩ := ihPipe st2 (by omega) (by omega)
      rcases hcc : consumeOptionalCharacter ctx st3 ':' with ⟨cc, st4⟩
      have hccs := consumeOptionalCharacter_spec ctx st3 ':' (by decide) cc st4 hcc
      cases cc with
      | false =>
          have h4e : st4 = st3 := hccs.1 rfl
          have h4i : st4.index = st3.index := by rw [h4e]
          set st5 := errorAndSkip ctx
            ("Conditional expression " ++
              jsSubstring ctx.input (inputIndex ctx st) (inputIndex ctx st4) ++
              " requires all 3 expressions") none st4 with hst5
          have hesp : st4.index ≤ st5.index ∧
              st5.index ≤ max st4.index ctx.tokens.length := by
            rw [hst5]
            exact errorAndSkip_spec ctx _ none st4
          obtain ⟨hE1, hE2⟩ := hesp
          have hA : st.index ≤ st5.index := by omega
          have hB : st5.index ≤ ctx.tokens.length := by omega
          simp only [parseConditionalF, ho, hco, hy, hcc, ← hst5]
          exact ⟨_, st5, rfl, hA, hB⟩
      | true =>
          obtain ⟨hc1, hc2⟩ := hccs.2 rfl
          obtain ⟨no, st5, hn, h51, h52⟩ := ihPipe st4 (by omega) (by omega)
          have hA : st.index ≤ st5.index := by omega
          simp only [parseConditionalF, ho, hco, hy, hcc, hn]
          exact ⟨_, st5, rfl, hA, h52⟩

theorem suffStep_ccLoop
    (ihAccess : ∀ recv start isSafe st,
      SuffAt ctx 7 f (parseAccessMemberF ctx f recv start isSafe) st)
    (ihCall : ∀ recv start isSafe st,
      SuffAt ctx 24 f (parseCallF ctx f recv start isSafe) st)
    (ihKeyed : ∀ recv start isSafe st,
      SuffAt ctx 21 f (parseKeyedReadOrWriteF ctx f recv start isSafe) st)
    (ihSelf : ∀ start result st, SuffAt ctx 8 f (callChainLoopF ctx f start result) st) :
    ∀ start result st, SuffAt ctx 8 (f + 1) (callChainLoopF ctx (f + 1) start result) st := by
  intro start result st hL hbud
  rcases h1 : consumeOptionalCharacter ctx st '.' with ⟨c1, st1⟩
  have hc1 := consumeOptionalCharacter_spec ctx st '.' (by decide) c1 st1 h1
  cases c1 with
  | true =>
      obtain ⟨ha1, ha2⟩ := hc1.2 rfl
      obtain ⟨r2, st2, hm, h21, h22⟩ := ihAccess result start false st1 (by omega) (by omega)
      obtain ⟨r3, st3, hrec, h31, h32⟩ := ihSelf start r2 st2 h22 (by omega)
      refine ⟨r3, st3, ?_, by omega, h32⟩
      simp only [callChainLoopF, h1, hm]
      exact hrec
  | false =>
      have he1 : st1 = st := hc1.1 rfl
      have he1i : st1.index = st.index := by rw [he1]
      rcases h2 : consumeOptionalOperator ctx st1 "?." with ⟨c2, st2⟩
      have hc2 := consumeOptionalOperator_spec ctx st1 "?." c2 st2 h2
      cases c2 with
      | true =>
          obtain ⟨hb1, hb2⟩ := hc2.2 rfl
          rcases h3 : consumeOptionalCharacter ctx st2 '(' with ⟨c3, st3⟩
          have hc3 := consumeOptionalCharacter_spec ctx st2 '(' (by decide) c3 st3 h3
          cases c3 with
          | true =>
              obtain ⟨hd1, hd2⟩ := hc3.2 rfl
              obtain ⟨r4, st4, hm, h41, h42⟩ := ihCall result start true st3
                (by omega) (by omega)
              obtain ⟨r5, st5, hrec, h51, h52⟩ := ihSelf start r4 st4 h42 (by omega)
              refine ⟨r5, st5, ?_, by omega, h52⟩
              simp only [callChainLoopF, h1, h2, h3, hm]
              exact hrec
          | false =>
              have he3 : st3 = st2 := hc3.1 rfl
              have he3i : st3.index = st2.index := by rw [he3]
              rcases h4 : consumeOptionalCharacter ctx st3 '[' with ⟨c4, st4⟩
              have hc4 := consumeOptionalCharacter_spec ctx st3 '[' (by decide) c4 st4 h4
              cases c4 with
              | true =>
                  obtain ⟨hd1, hd2⟩ := hc4.2 rfl
                  obtain ⟨r5, st5, hm, h51, h52⟩ := ihKeyed result start true st4
                    (by omega) (by omega)
                  obtain ⟨r6, st6, hrec, h61, h62⟩ := ihSelf start r5 st5 h52 (by omega)
                  refine ⟨r6, st6, ?_, by omega, h62⟩
                  simp only [callChainLoopF, h1, h2, h3, h4, hm]
                  exact hrec
              | false =>
                  have he4 : st4 = st3 := hc4.1 rfl
                  have he4i : st4.index = st3.index := by rw [he4]
                  obtain ⟨r5, st5, hm, h51, h52⟩ := ihAccess result start true st4
                    (by omega) (by omega)
                  obtain ⟨r6, st6, hrec, h61, h62⟩ := ihSelf start r5 st5 h52 (by omega)
                  refine ⟨r6, st6, ?_, by omega, h62⟩
                  simp only [callChainLoopF, h1, h2, h3, h4, hm]
                  exact hrec
      | false =>
          have he2 : st2 = st1 := hc2.1 rfl
          have he2i : st2.index = st1.index := by rw [he2]
          rcases h5 : consumeOptionalCharacter ctx st2 '[' with ⟨c5, st5⟩
          have hc5 := consumeOptionalCharacter_spec ctx st2 '[' (by decide) c5 st5 h5
          cases c5 with
          | true =>
              obtain ⟨hd1, hd2⟩ := hc5.2 rfl
              obtain ⟨r6, st6, hm, h61, h62⟩ := ihKeyed result start false st5
                (by omega) (by omega)
              obtain ⟨r7, st7, hrec, h71, h72⟩ := ihSelf start r6 st6 h62 (by omega)
              refine ⟨r7, st7, ?_, by omega, h72⟩
              simp only [callChainLoopF, h1, h2, h5, hm]
              exact hrec
          | false =>
              have he5 : st5 = st2 := hc5.1 rfl
              have he5i : st5.index = st2.index := by rw [he5]
              rcases h6 : consumeOptionalCharacter ctx st5 '(' with ⟨c6, st6⟩
              have hc6 := consumeOptionalCharacter_spec ctx st5 '(' (by decide) c6 st6 h6
              cases c6 with
              | true =>
                  obtain ⟨hd1, hd2⟩ := hc6.2 rfl
                  obtain ⟨r7, st7, hm, h71, h72⟩ := ihCall result start false st6
                    (by omega) (by omega)
                  obtain ⟨r8, st8, hrec, h81, h82⟩ := ihSelf start r7 st7 h72 (by omega)
                  refine ⟨r8, st8, ?_, by omega, h82⟩
                  simp only [callChainLoopF, h1, h2, h5, h6, hm]
                  exact hrec
              | false =>
                  have he6 : st6 = st5 := hc6.1 rfl
                  have he6i : st6.index = st5.index := by rw [he6]
                  rcases h7 : consumeOptionalOperator ctx st6 "!" with ⟨c7, st7⟩
                  have hc7 := consumeOptionalOperator_spec ctx st6 "!" c7 st7 h7
                  cases c7 with
                  | true =>
                      obtain ⟨hd1, hd2⟩ := hc7.2 rfl
                      obtain ⟨r8, st8, hrec, h81, h82⟩ := ihSelf start _ st7
                        (by omega) (by omega)
                      refine ⟨r8, st8, ?_, by omega, h82⟩
                      simp only [callChainLoopF, h1, h2, h5, h6, h7]
                      exact hrec
                  | false =>
                      have he7 : st7 = st6 := hc7.1 rfl
                      have he7i : st7.index = st6.index := by rw [he7]
                      refine ⟨result, st7, ?_, by omega, by omega⟩
                      simp only [callChainLoopF, h1, h2, h5, h6, h7]
                      rfl

end SuffStepsTwo


section SuffStepsThree

variable (ctx : PCtx) (f : Nat)

theorem suffStep_primary
    (ihPipe : ∀ st, SuffAt ctx 20 f (parsePipeF ctx f) st)
    (ihList : ∀ t st, SuffAt ctx 22 f (parseExpressionListF ctx f t) st)
    (ihMap : ∀ st, SuffAt ctx 7 f (parseLiteralMapF ctx f) st)
    (ihAccess : ∀ recv start isSafe st,
      SuffAt ctx 7 f (parseAccessMemberF ctx f recv start isSafe) st) :
    ∀ st, SuffAt ctx 8 (f + 1) (parsePrimaryF ctx (f + 1)) st := by
  intro st hL hbud
  rcases hlp : consumeOptionalCharacter ctx st '(' with ⟨lp, st1⟩
  have hlps := consumeOptionalCharacter_spec ctx st '(' (by decide) lp st1 hlp
  cases lp with
  | true =>
      obtain ⟨ha1, ha2⟩ := hlps.2 rfl
      have hup : ({st1 with rparensExpected := st1.rparensExpected + 1} : PState).index
          = st1.index := rfl
      obtain ⟨r2, st2, hp, h21, h22⟩ := ihPipe
        {st1 with rparensExpected := st1.rparensExpected + 1} (by omega) (by omega)
      have hdn : ({st2 with rparensExpected := st2.rparensExpected - 1} : PState).index
          = st2.index := rfl
      obtain ⟨hE1, hE2⟩ := expectCharacter_spec ctx ')'
        {st2 with rparensExpected := st2.rparensExpected - 1} (by decide)
      have hA : st.index ≤ (expectCharacter ctx ')'
          {st2 with rparensExpected := st2.rparensExpected - 1}).index := by omega
      have hB : (expectCharacter ctx ')'
          {st2 with rparensExpected := st2.rparensExpected - 1}).index
          ≤ ctx.tokens.length := by omega
      simp only [parsePrimaryF, hlp, hp]
      exact ⟨r2, _, rfl, hA, hB⟩
  | false =>
      have he1 : st1 = st := hlps.1 rfl
      have he1i : st1.index = st.index := by rw [he1]
      by_cases hk1 : (nextT ctx st1).isKeywordNull = true
      case pos =>
          have hlt : st1.index < ctx.tokens.length := by
            apply lt_of_next_type_keyword
            simp [Token.isKeywordNull] at hk1
            exact hk1.1
          have hadv : (advance st1).index = st1.index + 1 := rfl
          have hA : st.index ≤ (advance st1).index := by omega
          have hB : (advance st1).index ≤ ctx.tokens.length := by omega
          simp only [parsePrimaryF, hlp]
          rw [if_pos hk1]
          exact ⟨_, advance st1, rfl, hA, hB⟩
      case neg =>
      by_cases hk2 : (nextT ctx st1).isKeywordUndefined = true
      case pos =>
          have hlt : st1.index < ctx.tokens.length := by
            apply lt_of_next_type_keyword
            simp [Token.isKeywordUndefined] at hk2
            exact hk2.1
          have hadv : (advance st1).index = st1.index + 1 := rfl
          have hA : st.index ≤ (advance st1).index := by omega
          have hB : (advance st1).index ≤ ctx.tokens.length := by omega
          simp only [parsePrimaryF, hlp]
          rw [if_neg hk1, if_pos hk2]
          exact ⟨_, advance st1, rfl, hA, hB⟩
      case neg =>
      by_cases hk3 : (nextT ctx st1).isKeywordTrue = true
      case pos =>
          have hlt : st1.index < ctx.tokens.length := by
            apply lt_of_next_type_keyword
            simp [Token.isKeywordTrue] at hk3
            exact hk3.1
          have hadv : (advance st1).index = st1.index + 1 := rfl
          have hA : st.index ≤ (advance st1).index := by omega
          have hB : (advance st1).index ≤ ctx.tokens.length := by omega
          simp only [parsePrimaryF, hlp]
          rw [if_neg hk1, if_neg hk2, if_pos hk3]
          exact ⟨_, advance st1, rfl, hA, hB⟩
      case neg =>
      by_cases hk4 : (nextT ctx st1).isKeywordFalse = true
      case pos =>
          have hlt : st1.index < ctx.tokens.length := by
            apply lt_of_next_type_keyword
            simp [Token.isKeywordFalse] at hk4
            exact hk4.1
          have hadv : (advance st1).index = st1.index + 1 := rfl
          have hA : st.index ≤ (advance st1).index := by omega
          have hB : (advance st1).index ≤ ctx.tokens.length := by omega
          simp only [parsePrimaryF, hlp]
          rw [if_neg hk1, if_neg hk2, if_neg hk3, if_pos hk4]
          exact ⟨_, advance st1, rfl, hA, hB⟩
      case neg =>
      by_cases hk5 : (nextT ctx st1).isKeywordThis = true
      case pos =>
          have hlt : st1.index < ctx.tokens.length := by
            apply lt_of_next_type_keyword
            simp [Token.isKeywordThis] at hk5
            exact hk5.1
          have hadv : (advance st1).index = st1.index + 1 := rfl
          have hA : st.index ≤ (advance st1).index := by omega
          have hB : (advance st1).index ≤ ctx.tokens.length := by omega
          simp only [parsePrimaryF, hlp]
          rw [if_neg hk1, if_neg hk2, if_neg hk3, if_neg hk4, if_pos hk5]
          exact ⟨_, advance st1, rfl, hA, hB⟩
      case neg =>
      rcases hlb : consumeOptionalCharacter ctx st1 '[' with ⟨lb, st2⟩
      have hlbs := consumeOptionalCharacter_spec ctx st1 '[' (by decide) lb st2 hlb
      cases lb with
      | true =>
          obtain ⟨hb1, hb2⟩ := hlbs.2 rfl
          have hup : ({st2 with rbracketsExpected := st2.rbracketsExpected + 1} :
              PState).index = st2.index := rfl
          obtain ⟨els, st3, hel, h31, h32⟩ := ihList ']'
            {st2 with rbracketsExpected := st2.rbracketsExpected + 1} (by omega) (by omega)
          have hdn : ({st3 with rbracketsExpected := st3.rbracketsExpected - 1} :
              PState).index = st3.index := rfl
          obtain ⟨hE1, hE2⟩ := expectCharacter_spec ctx ']'
            {st3 with rbracketsExpected := st3.rbracketsExpected - 1} (by decide)
          have hA : st.index ≤ (expectCharacter ctx ']'
              {st3 with rbracketsExpected := st3.rbracketsExpected - 1}).index := by omega
          have hB : (expectCharacter ctx ']'
              {st3 with rbracketsExpected := st3.rbracketsExpected - 1}).index
              ≤ ctx.tokens.length := by omega
          simp only [parsePrimaryF, hlp, hlb, hel]
          rw [if_neg hk1, if_neg hk2, if_neg hk3, if_neg hk4, if_neg hk5]
          exact ⟨_, _, rfl, hA, hB⟩
      | false =>
          have he2 : st2 = st1 := hlbs.1 rfl
          have he2i : st2.index = st1.index := by rw [he2]
          by_cases hbr : (nextT ctx st2).isCharacter '\x7b' = true
          case pos =>
              obtain ⟨r3, st3, hm, h31, h32⟩ := ihMap st2 (by omega) (by omega)
              refine ⟨r3, st3, ?_, by omega, h32⟩
              simp only [parsePrimaryF, hlp, hlb]
              rw [if_neg hk1, if_neg hk2, if_neg hk3, if_neg hk4, if_neg hk5, if_pos hbr]
              exact hm
          case neg =>
          by_cases hid : (nextT ctx st2).isIdentifier = true
          case pos =>
              obtain ⟨r3, st3, hm, h31, h32⟩ := ihAccess _ _ false st2 (by omega) (by omega)
              refine ⟨r3, st3, ?_, by omega, h32⟩
              simp only [parsePrimaryF, hlp, hlb]
              rw [if_neg hk1, if_neg hk2, if_neg hk3, if_neg hk4, if_neg hk5, if_neg hbr,
                if_pos hid]
              exact hm
          case neg =>
          by_cases hnum : (nextT ctx st2).isNumber = true
          case pos =>
              have hlt : st2.index < ctx.tokens.length := lt_of_next_isNumber ctx st2 hnum
              have hadv : (advance st2).index = st2.index + 1 := rfl
              have hA : st.index ≤ (advance st2).index := by omega
              have hB : (advance st2).index ≤ ctx.tokens.length := by omega
              simp only [parsePrimaryF, hlp, hlb]
              rw [if_neg hk1, if_neg hk2, if_neg hk3, if_neg hk4, if_neg hk5, if_neg hbr,
                if_neg hid, if_pos hnum]
              exact ⟨_, advance st2, rfl, hA, hB⟩
          case neg =>
          by_cases hstr : (nextT ctx st2).isString = true
          case pos =>
              have hlt : st2.index < ctx.tokens.length := lt_of_next_isString ctx st2 hstr
              have hadv : (advance st2).index = st2.index + 1 := rfl
              have hA : st.index ≤ (advance st2).index := by omega
              have hB : (advance st2).index ≤ ctx.tokens.length := by omega
              simp only [parsePrimaryF, hlp, hlb]
              rw [if_neg hk1, if_neg hk2, if_neg hk3, if_neg hk4, if_neg hk5, if_neg hbr,
                if_neg hid, if_neg hnum, if_pos hstr]
              exact ⟨_, advance st2, rfl, hA, hB⟩
          case neg =>
          by_cases hpriv : (nextT ctx st2).isPrivateIdentifier = true
          case pos =>
              obtain ⟨hR1, hR2⟩ := reportErrorForPrivateIdentifier_spec ctx
                (nextT ctx st2) none st2
              have hA : st.index ≤
                  (reportErrorForPrivateIdentifier ctx (nextT ctx st2) none st2).index := by
                omega
              have hB : (reportErrorForPrivateIdentifier ctx (nextT ctx st2) none st2).index
                  ≤ ctx.tokens.length := by omega
              simp only [parsePrimaryF, hlp, hlb]
              rw [if_neg hk1, if_neg hk2, if_neg hk3, if_neg hk4, if_neg hk5, if_neg hbr,
                if_neg hid, if_neg hnum, if_neg hstr, if_pos hpriv]
              exact ⟨_, _, rfl, hA, hB⟩
          case neg =>
          by_cases hend : ctx.tokens.length ≤ st2.index
          case pos =>
              obtain ⟨hR1, hR2⟩ := errorAndSkip_spec ctx
                ("Unexpected end of expression: " ++ ctx.input) none st2
              have hA : st.index ≤ (errorAndSkip ctx
                  ("Unexpected end of expression: " ++ ctx.input) none st2).index := by omega
              have hB : (errorAndSkip ctx
                  ("Unexpected end of expression: " ++ ctx.input) none st2).index
                  ≤ ctx.tokens.length := by omega
              simp only [parsePrimaryF, hlp, hlb]
              rw [if_neg hk1, if_neg hk2, if_neg hk3, if_neg hk4, if_neg hk5, if_neg hbr,
                if_neg hid, if_neg hnum, if_neg hstr, if_neg hpriv, if_pos hend]
              exact ⟨_, _, rfl, hA, hB⟩
          case neg =>
              obtain ⟨hR1, hR2⟩ := errorAndSkip_spec ctx
                ("Unexpected token " ++ (nextT ctx st2).str) none st2
              have hA : st.index ≤ (errorAndSkip ctx
                  ("Unexpected token " ++ (nextT ctx st2).str) none st2).index := by omega
              have hB : (errorAndSkip ctx
                  ("Unexpected token " ++ (nextT ctx st2).str) none st2).index
                  ≤ ctx.tokens.length := by omega
              simp only [parsePrimaryF, hlp, hlb]
              rw [if_neg hk1, if_neg hk2, if_neg hk3, if_neg hk4, if_neg hk5, if_neg hbr,
                if_neg hid, if_neg hnum, if_neg hstr, if_neg hpriv, if_neg hend]
              exact ⟨_, _, rfl, hA, hB⟩

theorem suffStep_exprListLoop
    (ihPipe : ∀ st, SuffAt ctx 20 f (parsePipeF ctx f) st)
    (ihSelf : ∀ t res st, SuffAt ctx 21 f (exprListLoopF ctx f t res) st) :
    ∀ t res st, SuffAt ctx 21 (f + 1) (exprListLoopF ctx (f + 1) t res) st := by
  intro t res st hL hbud
  by_cases hterm : (nextT ctx st).isCharacter t = true
  case pos =>
      refine ⟨res, st, ?_, le_refl _, hL⟩
      simp only [exprListLoopF, hterm]
      rfl
  case neg =>
      have hterm' : (nextT ctx st).isCharacter t = false := by
        cases h : (nextT ctx st).isCharacter t
        · rfl
        · exact absurd h hterm
      obtain ⟨e, st1, hp, h11, h12⟩ := ihPipe st hL (by omega)
      rcases hcm : consumeOptionalCharacter ctx st1 ',' with ⟨c, st2⟩
      have hcs := consumeOptionalCharacter_spec ctx st1 ',' (by decide) c st2 hcm
      cases c with
      | false =>
          have h2e : st2 = st1 := hcs.1 rfl
          have h2i : st2.index = st1.index := by rw [h2e]
          refine ⟨res ++ [e], st2, ?_, by omega, by omega⟩
          simp only [exprListLoopF, hterm', hp, hcm]
          rfl
      | true =>
          obtain ⟨hs1, hs2⟩ := hcs.2 rfl
          obtain ⟨r3, st3, hrec, h31, h32⟩ := ihSelf t (res ++ [e]) st2 (by omega) (by omega)
          refine ⟨r3, st3, ?_, by omega, h32⟩
          simp only [exprListLoopF, hterm', hp, hcm]
          exact hrec

theorem suffStep_litMap
    (ihLoop : ∀ keys vals st, SuffMapAt ctx 1 f (literalMapLoopF ctx f keys vals) st) :
    ∀ st, SuffAt ctx 7 (f + 1) (parseLiteralMapF ctx (f + 1)) st := by
  intro st hL hbud
  obtain ⟨hE1, hE2⟩ := expectCharacter_spec ctx '\x7b' st (by decide)
  rcases hrb : consumeOptionalCharacter ctx (expectCharacter ctx '\x7b' st) '\x7d'
    with ⟨rb, st2⟩
  have hrbs := consumeOptionalCharacter_spec ctx (expectCharacter ctx '\x7b' st) '\x7d'
    (by decide) rb st2 hrb
  cases rb with
  | true =>
      obtain ⟨hs1, hs2⟩ := hrbs.2 rfl
      have hA : st.index ≤ st2.index := by omega
      have hB : st2.index ≤ ctx.tokens.length := by omega
      simp only [parseLiteralMapF, hrb]
      exact ⟨_, st2, rfl, hA, hB⟩
  | false =>
      have h2e : st2 = expectCharacter ctx '\x7b' st := hrbs.1 rfl
      have h2i : st2.index = (expectCharacter ctx '\x7b' st).index := by rw [h2e]
      have hup : ({st2 with rbracesExpected := st2.rbracesExpected + 1} : PState).index
          = st2.index := rfl
      obtain ⟨ks, vs, st3, hml, h31, h32⟩ := ihLoop [] []
        {st2 with rbracesExpected := st2.rbracesExpected + 1} (by omega) (by omega)
      have hdn : ({st3 with rbracesExpected := st3.rbracesExpected - 1} : PState).index
          = st3.index := rfl
      obtain ⟨hF1, hF2⟩ := expectCharacter_spec ctx '\x7d'
        {st3 with rbracesExpected := st3.rbracesExpected - 1} (by decide)
      have hA : st.index ≤ (expectCharacter ctx '\x7d'
          {st3 with rbracesExpected := st3.rbracesExpected - 1}).index := by omega
      have hB : (expectCharacter ctx '\x7d'
          {st3 with rbracesExpected := st3.rbracesExpected - 1}).index
          ≤ ctx.tokens.length := by omega
      simp only [parseLiteralMapF, hrb, hml]
      exact ⟨_, _, rfl, hA, hB⟩

theorem suffStep_litMapLoop
    (ihPipe : ∀ st, SuffAt ctx 20 f (parsePipeF ctx f) st)
    (ihSelf : ∀ keys vals st, SuffMapAt ctx 1 f (literalMapLoopF ctx f keys vals) st) :
    ∀ keys vals st, SuffMapAt ctx 1 (f + 1) (literalMapLoopF ctx (f + 1) keys vals) st := by
  intro keys vals st hL hbud
  rcases hei : expectIdentifierOrKeywordOrString ctx st with ⟨key, st1⟩
  obtain ⟨hk1, hk2, hk3⟩ := expectIdentifierOrKeywordOrString_spec ctx st key st1 hei
  by_cases hq : (nextT ctx st).isString = true
  case pos =>
      obtain ⟨hadv, hlt⟩ := hk3 hq
      obtain ⟨hC1, hC2⟩ := expectCharacter_spec ctx ':' st1 (by decide)
      obtain ⟨v, st2, hp, h21, h22⟩ := ihPipe (expectCharacter ctx ':' st1)
        (by omega) (by omega)
      rcases hcm : consumeOptionalCharacter ctx st2 ',' with ⟨c, st3⟩
      have hcs := consumeOptionalCharacter_spec ctx st2 ',' (by decide) c st3 hcm
      cases c with
      | false =>
          have h3e : st3 = st2 := hcs.1 rfl
          have h3i : st3.index = st2.index := by rw [h3e]
          have hA : st.index ≤ st3.index := by omega
          have hB : st3.index ≤ ctx.tokens.length := by omega
          simp only [literalMapLoopF, hei, hq, hp, hcm, reduceIte, Bool.false_eq_true, if_false]
          exact ⟨_, _, st3, rfl, hA, hB⟩
      | true =>
          obtain ⟨hs1, hs2⟩ := hcs.2 rfl
          obtain ⟨ks, vs, st4, hrec, h41, h42⟩ := ihSelf _ _ st3 (by omega) (by omega)
          refine ⟨ks, vs, st4, ?_, by omega, h42⟩
          simp only [literalMapLoopF, hei, hq, hp, hcm, reduceIte, Bool.false_eq_true, if_false]
          exact hrec
  case neg =>
      have hq' : (nextT ctx st).isString = false := by
        cases h : (nextT ctx st).isString
        · rfl
        · exact absurd h hq
      rcases hcl : consumeOptionalCharacter ctx st1 ':' with ⟨cl, st2⟩
      have hcls := consumeOptionalCharacter_spec ctx st1 ':' (by decide) cl st2 hcl
      cases cl with
      | true =>
          obtain ⟨hs1, hs2⟩ := hcls.2 rfl
          obtain ⟨v, st3, hp, h31, h32⟩ := ihPipe st2 (by omega) (by omega)
          rcases hcm : consumeOptionalCharacter ctx st3 ',' with ⟨c, st4⟩
          have hcs := consumeOptionalCharacter_spec ctx st3 ',' (by decide) c st4 hcm
          cases c with
          | false =>
              have h4e : st4 = st3 := hcs.1 rfl
              have h4i : st4.index = st3.index := by rw [h4e]
              have hA : st.index ≤ st4.index := by omega
              have hB : st4.index ≤ ctx.tokens.length := by omega
              simp only [literalMapLoopF, hei, hq', hcl, hp, hcm, reduceIte, Bool.false_eq_true, if_false]
              exact ⟨_, _, st4, rfl, hA, hB⟩
          | true =>
              obtain ⟨ht1, ht2⟩ := hcs.2 rfl
              obtain ⟨ks, vs, st5, hrec, h51, h52⟩ := ihSelf _ _ st4 (by omega) (by omega)
              refine ⟨ks, vs, st5, ?_, by omega, h52⟩
              simp only [literalMapLoopF, hei, hq', hcl, hp, hcm, reduceIte, Bool.false_eq_true, if_false]
              exact hrec
      | false =>
          have h2e : st2 = st1 := hcls.1 rfl
          have h2i : st2.index = st1.index := by rw [h2e]
          rcases hcm : consumeOptionalCharacter ctx st2 ',' with ⟨c, st3⟩
          have hcs := consumeOptionalCharacter_spec ctx st2 ',' (by decide) c st3 hcm
          cases c with
          | false =>
              have h3e : st3 = st2 := hcs.1 rfl
              have h3i : st3.index = st2.index := by rw [h3e]
              have hA : st.index ≤ st3.index := by omega
              have hB : st3.index ≤ ctx.tokens.length := by omega
              simp only [literalMapLoopF, hei, hq', hcl, hcm, reduceIte, Bool.false_eq_true, if_false]
              exact ⟨_, _, st3, rfl, hA, hB⟩
          | true =>
              obtain ⟨ht1, ht2⟩ := hcs.2 rfl
              obtain ⟨ks, vs, st5, hrec, h51, h52⟩ := ihSelf _ _ st3 (by omega) (by omega)
              refine ⟨ks, vs, st5, ?_, by omega, h52⟩
              simp only [literalMapLoopF, hei, hq', hcl, hcm, reduceIte, Bool.false_eq_true, if_false]
              exact hrec

theorem suffStep_accessMember
    (ihCond : ∀ st, SuffAt ctx 18 f (parseConditionalF ctx f) st) :
    ∀ recv start isSafe st,
      SuffAt ctx 7 (f + 1) (parseAccessMemberF ctx (f + 1) recv start isSafe) st := by
  intro recv start isSafe st hL hbud
  have hw1 : ({st with ctxWritable := st.ctxWritable || true} : PState).index
      = st.index := rfl
  rcases hei : expectIdentifierOrKeyword ctx {st with ctxWritable := st.ctxWritable || true}
    with ⟨idO, st2⟩
  obtain ⟨ha1, ha2, ha3⟩ := expectIdentifierOrKeyword_spec ctx _ idO st2 hei
  set st3 := (if (idO.getD "").length = 0 then
      errorAndSkip ctx "Expected identifier for property access"
        (some recv.spanOf.endI) st2
    else st2) with hst3
  have h3 : st2.index ≤ st3.index ∧ st3.index ≤ max st2.index ctx.tokens.length := by
    rw [hst3]
    by_cases hz : (idO.getD "").length = 0
    · rw [if_pos hz]
      exact errorAndSkip_spec ctx _ _ st2
    · rw [if_neg hz]
      exact ⟨le_refl _, le_max_left _ _⟩
  obtain ⟨h3a, h3b⟩ := h3
  have hw2 : ({st3 with ctxWritable := xor st3.ctxWritable true} : PState).index
      = st3.index := rfl
  rcases hca : consumeOptionalAssignment ctx {st3 with ctxWritable := xor st3.ctxWritable true}
    with ⟨c, st5⟩
  obtain ⟨hc1, hc2, hc3⟩ := consumeOptionalAssignment_spec ctx _ c st5 hca
  cases isSafe with
  | true =>
      cases c with
      | true =>
          have hc3' := hc3 rfl
          obtain ⟨hR1, hR2⟩ := errorAndSkip_spec ctx
            "The '?.' operator cannot be used in the assignment" none st5
          have hA : st.index ≤ (errorAndSkip ctx
              "The '?.' operator cannot be used in the assignment" none st5).index := by
            omega
          have hB : (errorAndSkip ctx
              "The '?.' operator cannot be used in the assignment" none st5).index
              ≤ ctx.tokens.length := by omega
          simp only [parseAccessMemberF, hei, ← hst3, hca]
          exact ⟨_, _, rfl, hA, hB⟩
      | false =>
          have hA : st.index ≤ st5.index := by omega
          have hB : st5.index ≤ ctx.tokens.length := by omega
          simp only [parseAccessMemberF, hei, ← hst3, hca]
          exact ⟨_, st5, rfl, hA, hB⟩
  | false =>
      cases c with
      | true =>
          have hc3' := hc3 rfl
          by_cases hfa : (!ctx.flagAction) = true
          case pos =>
              obtain ⟨hR1, hR2⟩ := errorAndSkip_spec ctx
                "Bindings cannot contain assignments" none st5
              have hA : st.index ≤ (errorAndSkip ctx
                  "Bindings cannot contain assignments" none st5).index := by omega
              have hB : (errorAndSkip ctx
                  "Bindings cannot contain assignments" none st5).index
                  ≤ ctx.tokens.length := by omega
              simp only [parseAccessMemberF, hei, ← hst3, hca]
              rw [if_pos hfa]
              exact ⟨_, _, rfl, hA, hB⟩
          case neg =>
              obtain ⟨v, st6, hcond, h61, h62⟩ := ihCond st5 (by omega) (by omega)
              have hA : st.index ≤ st6.index := by omega
              simp only [parseAccessMemberF, hei, ← hst3, hca, hcond]
              rw [if_neg hfa]
              exact ⟨_, st6, rfl, hA, h62⟩
      | false =>
          have hA : st.index ≤ st5.index := by omega
          have hB : st5.index ≤ ctx.tokens.length := by omega
          simp only [parseAccessMemberF, hei, ← hst3, hca]
          exact ⟨_, st5, rfl, hA, hB⟩

theorem suffStep_call
    (ihArgs : ∀ st, SuffAt ctx 23 f (parseCallArgumentsF ctx f) st) :
    ∀ recv start isSafe st,
      SuffAt ctx 24 (f + 1) (parseCallF ctx (f + 1) recv start isSafe) st := by
  intro recv start isSafe st hL hbud
  have hup : ({st with rparensExpected := st.rparensExpected + 1} : PState).index
      = st.index := rfl
  obtain ⟨args, st2, hargs, h21, h22⟩ := ihArgs
    {st with rparensExpected := st.rparensExpected + 1} (by omega) (by omega)
  obtain ⟨hE1, hE2⟩ := expectCharacter_spec ctx ')' st2 (by decide)
  have hfin : ({(expectCharacter ctx ')' st2) with
      rparensExpected := (expectCharacter ctx ')' st2).rparensExpected - 1} : PState).index
      = (expectCharacter ctx ')' st2).index := rfl
  have hA : st.index ≤ ({(expectCharacter ctx ')' st2) with
      rparensExpected := (expectCharacter ctx ')' st2).rparensExpected - 1} :
        PState).index := by omega
  have hB : ({(expectCharacter ctx ')' st2) with
      rparensExpected := (expectCharacter ctx ')' st2).rparensExpected - 1} :
        PState).index ≤ ctx.tokens.length := by omega
  cases isSafe with
  | true =>
      simp only [parseCallF, hargs]
      exact ⟨_, _, rfl, hA, hB⟩
  | false =>
      simp only [parseCallF, hargs]
      exact ⟨_, _, rfl, hA, hB⟩

theorem suffStep_callArgsLoop
    (ihPipe : ∀ st, SuffAt ctx 20 f (parsePipeF ctx f) st)
    (ihSelf : ∀ pos st, SuffAt ctx 21 f (callArgsLoopF ctx f pos) st) :
    ∀ pos st, SuffAt ctx 21 (f + 1) (callArgsLoopF ctx (f + 1) pos) st := by
  intro pos st hL hbud
  obtain ⟨e, st1, hp, h11, h12⟩ := ihPipe st hL (by omega)
  rcases hcm : consumeOptionalCharacter ctx st1 ',' with ⟨c, st2⟩
  have hcs := consumeOptionalCharacter_spec ctx st1 ',' (by decide) c st2 hcm
  cases c with
  | false =>
      have h2e : st2 = st1 := hcs.1 rfl
      have h2i : st2.index = st1.index := by rw [h2e]
      have hA : st.index ≤ st2.index := by omega
      have hB : st2.index ≤ ctx.tokens.length := by omega
      simp only [callArgsLoopF, hp, hcm]
      exact ⟨pos ++ [e], st2, rfl, hA, hB⟩
  | true =>
      obtain ⟨hs1, hs2⟩ := hcs.2 rfl
      obtain ⟨r3, st3, hrec, h31, h32⟩ := ihSelf (pos ++ [e]) st2 (by omega) (by omega)
      refine ⟨r3, st3, ?_, by omega, h32⟩
      simp only [callArgsLoopF, hp, hcm]
      exact hrec

theorem suffStep_keyed
    (ihPipe : ∀ st, SuffAt ctx 20 f (parsePipeF ctx f) st)
    (ihCond : ∀ st, SuffAt ctx 18 f (parseConditionalF ctx f) st) :
    ∀ recv start isSafe st,
      SuffAt ctx 21 (f + 1) (parseKeyedReadOrWriteF ctx (f + 1) recv start isSafe) st := by
  intro recv start isSafe st hL hbud
  set W := ({({st with ctxWritable := st.ctxWritable || true}) with
    rbracketsExpected :=
      ({st with ctxWritable := st.ctxWritable || true}).rbracketsExpected + 1} :
        PState) with hW
  have hWi : W.index = st.index := rfl
  obtain ⟨key, st2, hp, h21, h22⟩ := ihPipe W (by omega) (by omega)
  set st3 := (if key.isEmptyExpr then
      errorAndSkip ctx "Key access cannot be empty" none st2
    else st2) with hst3
  have h3 : st2.index ≤ st3.index ∧ st3.index ≤ max st2.index ctx.tokens.length := by
    rw [hst3]
    by_cases hz : key.isEmptyExpr = true
    · rw [if_pos hz]
      exact errorAndSkip_spec ctx _ none st2
    · rw [if_neg hz]
      exact ⟨le_refl _, le_max_left _ _⟩
  obtain ⟨h3a, h3b⟩ := h3
  have hdn : ({st3 with rbracketsExpected := st3.rbracketsExpected - 1} : PState).index
      = st3.index := rfl
  obtain ⟨hE1, hE2⟩ := expectCharacter_spec ctx ']'
    {st3 with rbracketsExpected := st3.rbracketsExpected - 1} (by decide)
  rcases hco : consumeOptionalOperator ctx
    (expectCharacter ctx ']' {st3 with rbracketsExpected := st3.rbracketsExpected - 1}) "="
    with ⟨c, st6⟩
  have hcs := consumeOptionalOperator_spec ctx _ "=" c st6 hco
  cases c with
  | false =>
      have h6e : st6 = expectCharacter ctx ']'
          {st3 with rbracketsExpected := st3.rbracketsExpected - 1} := hcs.1 rfl
      have h6i : st6.index = (expectCharacter ctx ']'
          {st3 with rbracketsExpected := st3.rbracketsExpected - 1}).index := by rw [h6e]
      have hxi : ({st6 with ctxWritable := xor st6.ctxWritable true} : PState).index
          = st6.index := rfl
      have hA : st.index ≤ ({st6 with ctxWritable := xor st6.ctxWritable true} :
          PState).index := by omega
      have hB : ({st6 with ctxWritable := xor st6.ctxWritable true} : PState).index
          ≤ ctx.tokens.length := by omega
      cases isSafe with
      | true =>
          simp only [parseKeyedReadOrWriteF, ← hW, hp, ← hst3, hco]
          exact ⟨_, _, rfl, hA, hB⟩
      | false =>
          simp only [parseKeyedReadOrWriteF, ← hW, hp, ← hst3, hco]
          exact ⟨_, _, rfl, hA, hB⟩
  | true =>
      obtain ⟨hs1, hs2⟩ := hcs.2 rfl
      cases isSafe with
      | true =>
          set ES := errorAndSkip ctx
            "The '?.' operator cannot be used in the assignment" none st6 with hES
          have hR : st6.index ≤ ES.index ∧ ES.index ≤ max st6.index ctx.tokens.length := by
            rw [hES]
            exact errorAndSkip_spec ctx _ none st6
          obtain ⟨hR1, hR2⟩ := hR
          have hfin : ({ES with ctxWritable := xor ES.ctxWritable true} : PState).index
              = ES.index := rfl
          have hA : st.index ≤ ({ES with ctxWritable := xor ES.ctxWritable true} :
              PState).index := by omega
          have hB : ({ES with ctxWritable := xor ES.ctxWritable true} : PState).index
              ≤ ctx.tokens.length := by omega
          simp only [parseKeyedReadOrWriteF, ← hW, hp, ← hst3, hco, ← hES]
          exact ⟨_, _, rfl, hA, hB⟩
      | false =>
          obtain ⟨v, st7, hcond, h71, h72⟩ := ihCond st6 (by omega) (by omega)
          have hfin : ({st7 with ctxWritable := xor st7.ctxWritable true} : PState).index
              = st7.index := rfl
          have hA : st.index ≤ ({st7 with ctxWritable := xor st7.ctxWritable true} :
              PState).index := by omega
          have hB : ({st7 with ctxWritable := xor st7.ctxWritable true} : PState).index
              ≤ ctx.tokens.length := by omega
          simp only [parseKeyedReadOrWriteF, ← hW, hp, ← hst3, hco, hcond]
          exact ⟨_, _, rfl, hA, hB⟩

end SuffStepsThree


theorem suffAll_zero (ctx : PCtx) : SuffAll ctx 0 := by
  unfold SuffAll SuffAt SuffStAt SuffMapAt
  refine ⟨?_, ?_, ?_, ?_, ?_, ?_, ?_, ?_, ?_, ?_, ?_, ?_, ?_, ?_, ?_, ?_, ?_, ?_, ?_,
    ?_, ?_, ?_, ?_, ?_, ?_, ?_, ?_, ?_, ?_, ?_, ?_, ?_, ?_, ?_, ?_⟩ <;>
    (intros; omega)

theorem suffAll_succ (ctx : PCtx) (f : Nat) (h : SuffAll ctx f) : SuffAll ctx (f + 1) := by
  obtain ⟨hChain, hChainLoop, hSemi, hPipe, hPipeLoop, hPipeArgs, hExpr, hCond, hOr,
    hOrLoop, hAnd, hAndLoop, hNull, hNullLoop, hEq, hEqLoop, hRel, hRelLoop, hAdd,
    hAddLoop, hMul, hMulLoop, hPre, hCC, hCCLoop, hPrim, hList, hListLoop, hMap,
    hMapLoop, hAccess, hCall, hCallArgs, hCallArgsLoop, hKeyed⟩ := h
  exact ⟨suffStep_chain ctx f hChainLoop,
    suffStep_chainLoop ctx f hPipe hSemi hChainLoop,
    suffStep_semiSkip ctx f hSemi,
    suffStep_pipe ctx f hExpr hPipeLoop,
    suffStep_pipeLoop ctx f hPipeArgs hPipeLoop,
    suffStep_pipeArgs ctx f hExpr hPipeArgs,
    suffStep_expression ctx f hCond,
    suffStep_conditional ctx f hOr hPipe,
    suffStep_logicalOr ctx f hAnd hOrLoop,
    suffStep_orLoop ctx f hAnd hOrLoop,
    suffStep_logicalAnd ctx f hNull hAndLoop,
    suffStep_andLoop ctx f hNull hAndLoop,
    suffStep_nullish ctx f hEq hNullLoop,
    suffStep_nullishLoop ctx f hEq hNullLoop,
    suffStep_equality ctx f hRel hEqLoop,
    suffStep_eqLoop ctx f hRel hEqLoop,
    suffStep_relational ctx f hAdd hRelLoop,
    suffStep_relLoop ctx f hAdd hRelLoop,
    suffStep_additive ctx f hMul hAddLoop,
    suffStep_addLoop ctx f hMul hAddLoop,
    suffStep_multiplicative ctx f hPre hMulLoop,
    suffStep_mulLoop ctx f hPre hMulLoop,
    suffStep_prefix ctx f hPre hCC,
    suffStep_callChain ctx f hPrim hCCLoop,
    suffStep_ccLoop ctx f hAccess hCall hKeyed hCCLoop,
    suffStep_primary ctx f hPipe hList hMap hAccess,
    suffStep_exprList ctx f hListLoop,
    suffStep_exprListLoop ctx f hPipe hListLoop,
    suffStep_litMap ctx f hMapLoop,
    suffStep_litMapLoop ctx f hPipe hMapLoop,
    suffStep_accessMember ctx f hCond,
    suffStep_call ctx f hCallArgs,
    suffStep_callArgs ctx f hCallArgsLoop,
    suffStep_callArgsLoop ctx f hPipe hCallArgsLoop,
    suffStep_keyed ctx f hPipe hCond⟩

theorem suffAll_holds (ctx : PCtx) : ∀ f, SuffAll ctx f := by
  intro f
  induction f with
  | zero => exact suffAll_zero ctx
  | succ f ih => exact suffAll_succ ctx f ih

/-- **C10**: `parseChain` terminates for every finite token list, including
malformed input.  Concretely: with the explicit fuel bound
`40 * tokens.length + 22` the fuel-indexed embedding of `parseChain`
completes (returns `some`) from any start index inside the token list, so
the source's unbounded loops always finish — each iteration either strictly
advances the token index (via the sub-parse, semicolon consumption, or
error-recovery skipping) or detects that error recovery did not advance the
index and breaks out. -/
theorem c10_parseChain_terminates (ctx : PCtx) (st : PState)
    (h : st.index ≤ ctx.tokens.length) :
    ∃ r st', parseChainF ctx (40 * ctx.tokens.length + 22) st = some (r, st') ∧
      st'.index ≤ ctx.tokens.length := by
  obtain ⟨r, st', he, h1, h2⟩ :=
    (suffAll_holds ctx (40 * ctx.tokens.length + 22)).1 st h (by omega)
  exact ⟨r, st', he, h2⟩

theorem c10_witness :
    ∃ r st', parseChainF ⟨"a + b", "loc", 0, tokenize "a + b", false, false, 0⟩
        (40 * (tokenize "a + b").length + 22) initPState = some (r, st') ∧
      st'.index ≤ (tokenize "a + b").length :=
  c10_parseChain_terminates ⟨"a + b", "loc", 0, tokenize "a + b", false, false, 0⟩
    initPState (by decide)

end Ng
